import Mathlib

/-!
# lua_fdw: the bridge between PostgreSQL and a Lua script

A shallow embedding of `src/lua_fdw.c`.  The C code talks to two libraries that
are not part of the repository: the Lua C API (a value stack, tables, protected
calls) and the PostgreSQL backend (catalog constants, type input and output
functions).  The Lua C API is embedded as operations on an explicit state
(`lua_State`: value stack, table store, globals); what a script function does
when it is called is a parameter (`LuaEngine`).  The PostgreSQL constants and
services the code uses are parameters as well (`PgConsts`, `Backend`).

Conventions: strings are C strings; tables are read and written raw (no
metatables); `ereport(ERROR, ...)` and every other way of not returning is a
value of `Failure` in the `Except` monad; `elog(WARNING, ...)` only logs and is
left out.
-/

namespace LuaFdw

/-! ## The script engine: values, state and the C API -/

/-- PostgreSQL object identifier. -/
abbrev Oid := Nat

/-- Ways in which an operation of the wrapper stops without returning. -/
inductive Failure
  /-- An `ereport(ERROR, ...)` with a fully formatted message. -/
  | ereport (message : String)
  /-- The wrapper's `ereport(ERROR, errmsg("lua_fdw lua error: %s", lua_tostring(lua, -1)))`;
  `text` is what `lua_tostring` returned (NULL when the error value is no string or number). -/
  | lua_error (text : Option String)
  /-- The wrapper's `elog(ERROR, "<name>: %s", lua_tostring(lua, -1))` of the modify functions;
  `text` is what `lua_tostring` returned. -/
  | elog (name : String) (text : Option String)
  /-- A Lua error raised outside a protected call. -/
  | lua_panic
  /-- Undefined behaviour of the C code (null dereference, read outside an array, stack underflow). -/
  | undefined
  deriving DecidableEq

/-- A Lua value as the C API sees it.  Tables and functions are references.  Numbers are
the integers: the bridge itself only makes numbers out of C ints. -/
inductive LuaValue
  | nil
  | boolean (b : Bool)
  | number (n : Int)
  | string (s : String)
  | table (ref : Nat)
  | function (ref : Nat)
  | userdata (ref : Nat)
  deriving DecidableEq

/-- The contents of one table: the value stored under each key (nil when absent). -/
abbrev LuaTable := LuaValue → LuaValue

/-- The empty table. -/
def LuaTable.empty : LuaTable := fun _ => LuaValue.nil

/-- Raw assignment `t[k] = v`. -/
def LuaTable.set (t : LuaTable) (k v : LuaValue) : LuaTable :=
  fun x => if x = k then v else t x

/-- Everything of a Lua state a script can reach: the table store and the globals. -/
structure LuaHeap where
  tables : Nat → LuaTable
  ntables : Nat
  globals : String → LuaValue

/-- Replace the contents of table `r`. -/
def LuaHeap.setTable (h : LuaHeap) (r : Nat) (t : LuaTable) : LuaHeap :=
  { h with tables := fun x => if x = r then t else h.tables x }

/-- A Lua state: the heap and the C value stack, top first (index -1 is the head). -/
structure lua_State where
  heap : LuaHeap
  stack : List LuaValue

/-- What calling a script function can do. -/
inductive CallOutcome
  /-- The function returned these values. -/
  | returned (results : List LuaValue) (heap : LuaHeap)
  /-- The function raised a Lua error with this error value. -/
  | raised (error : LuaValue) (heap : LuaHeap)
  /-- The function called `fdw.ereport` (`lua_ereport`) at level ERROR or above, which leaves
  through PostgreSQL's error exit and never returns to Lua. -/
  | ereported (message : String)

/-- The behaviour of the Lua interpreter on the script: a parameter of the embedding. -/
structure LuaEngine where
  /-- Run the function with reference `f` on the arguments. -/
  call : Nat → List LuaValue → LuaHeap → CallOutcome
  /-- The text `lua_tostring` gives for a number. -/
  number_tostring : Int → String

/-- The value at a stack index; negative indices count from the top. -/
def index2adr (L : lua_State) : Int → Option LuaValue
  | Int.negSucc n => L.stack[n]?
  | Int.ofNat 0 => none
  | Int.ofNat (n + 1) => L.stack.reverse[n]?

/-- Push a value. -/
def lua_State.push (L : lua_State) (v : LuaValue) : lua_State :=
  { L with stack := v :: L.stack }

/-- The call `lua_pushstring(L, s)`. -/
def lua_pushstring (L : lua_State) (s : String) : lua_State := L.push (LuaValue.string s)

/-- The call `lua_pushnumber(L, n)`. -/
def lua_pushnumber (L : lua_State) (n : Int) : lua_State := L.push (LuaValue.number n)

/-- The call `lua_createtable(L, 0, 0)`: a fresh empty table. -/
def lua_createtable (L : lua_State) : lua_State :=
  { heap := { (L.heap.setTable L.heap.ntables LuaTable.empty) with ntables := L.heap.ntables + 1 },
    stack := LuaValue.table L.heap.ntables :: L.stack }

/-- The call `lua_getglobal(L, name)`. -/
def lua_getglobal (L : lua_State) (name : String) : lua_State := L.push (L.heap.globals name)

/-- The call `lua_pop(L, n)`. -/
def lua_pop (L : lua_State) (n : Nat) : lua_State := { L with stack := L.stack.drop n }

/-- The call `lua_settable(L, idx)`: `t[k] = v` with `t` at `idx`, `v` on top and `k` below it;
pops both.  Indexing a value that is not a table, or with a nil key, is a Lua error. -/
def lua_settable (L : lua_State) (idx : Int) : Except Failure lua_State :=
  match L.stack with
  | v :: k :: rest =>
    match index2adr L idx with
    | some (LuaValue.table r) =>
      if k = LuaValue.nil then Except.error Failure.lua_panic
      else Except.ok { heap := L.heap.setTable r ((L.heap.tables r).set k v), stack := rest }
    | _ => Except.error Failure.lua_panic
  | _ => Except.error Failure.undefined

/-- The call `lua_gettable(L, idx)`: replaces the key on top by `t[k]`, `t` at `idx`. -/
def lua_gettable (L : lua_State) (idx : Int) : Except Failure lua_State :=
  match L.stack with
  | k :: rest =>
    match index2adr L idx with
    | some (LuaValue.table r) => Except.ok { L with stack := L.heap.tables r k :: rest }
    | _ => Except.error Failure.lua_panic
  | _ => Except.error Failure.undefined

/-- The call `lua_isfunction(L, idx)`. -/
def lua_isfunction (L : lua_State) (idx : Int) : Bool :=
  match index2adr L idx with
  | some (LuaValue.function _) => true
  | _ => false

/-- The call `lua_istable(L, idx)`. -/
def lua_istable (L : lua_State) (idx : Int) : Bool :=
  match index2adr L idx with
  | some (LuaValue.table _) => true
  | _ => false

/-- A value `lua_isstring` accepts: a string, or a number (which converts to a string). -/
def LuaValue.isstring : LuaValue → Bool
  | LuaValue.string _ => true
  | LuaValue.number _ => true
  | _ => false

/-- The text `lua_tostring` gives for a value: that of a string or number, NULL for anything
else. -/
def LuaValue.tostring (E : LuaEngine) : LuaValue → Option String
  | LuaValue.string s => some s
  | LuaValue.number n => some (E.number_tostring n)
  | _ => none

/-- The call `lua_isstring(L, idx)`. -/
def lua_isstring (L : lua_State) (idx : Int) : Bool :=
  match index2adr L idx with
  | some v => v.isstring
  | none => false

/-- The call `lua_tostring(L, idx)`. -/
def lua_tostring (E : LuaEngine) (L : lua_State) (idx : Int) : Option String :=
  match index2adr L idx with
  | some v => v.tostring E
  | none => none

/-- Lua's name of the type of a value. -/
def luaL_typename : LuaValue → String
  | LuaValue.nil => "nil"
  | LuaValue.boolean _ => "boolean"
  | LuaValue.number _ => "number"
  | LuaValue.string _ => "string"
  | LuaValue.table _ => "table"
  | LuaValue.function _ => "function"
  | LuaValue.userdata _ => "userdata"

/-- Results of a call adjusted to `nresults` values: cut, or filled up with nil. -/
def adjustResults (nresults : Nat) (results : List LuaValue) : List LuaValue :=
  results.take nresults ++ List.replicate (nresults - results.length) LuaValue.nil

/-- The call `lua_pcall(L, nargs, nresults, 0)`: pops the function and its arguments, and
pushes the results (status 0) or the error value (status LUA_ERRRUN = 2). -/
def lua_pcall (E : LuaEngine) (L : lua_State) (nargs nresults : Nat) :
    Except Failure (Int × lua_State) :=
  match L.stack.drop nargs with
  | LuaValue.function f :: rest =>
    match E.call f (L.stack.take nargs).reverse L.heap with
    | CallOutcome.returned results heap =>
      Except.ok (0, { heap := heap, stack := (adjustResults nresults results).reverse ++ rest })
    | CallOutcome.raised err heap => Except.ok (2, { heap := heap, stack := err :: rest })
    | CallOutcome.ereported message => Except.error (Failure.ereport message)
  | v :: rest =>
    let message := LuaValue.string ("attempt to call a " ++ luaL_typename v ++ " value")
    Except.ok (2, { L with stack := message :: rest })
  | [] => Except.error Failure.undefined

/-! ## PostgreSQL: constants, nodes, descriptors and services -/

/-- Catalog constants the C code takes from PostgreSQL's headers (`catalog/pg_type.h`,
`catalog/pg_operator.h`, `postgres_ext.h`), which are not part of the repository: a parameter
of the embedding. -/
structure PgConsts where
  InvalidOid : Oid
  TEXTOID : Oid
  INT4OID : Oid
  INT8OID : Oid
  TIMESTAMPOID : Oid
  Int4EqualOperator : Oid
  TextEqualOperator : Oid
  OID_TEXT_LIKE_OP : Oid
  Int4LessOperator : Oid
  Int8LessOperator : Oid

/-- The type identifiers are pairwise distinct (in C the first three are labels of one switch). -/
def PgConsts.typesDistinct (k : PgConsts) : Prop :=
  k.INT4OID ≠ k.INT8OID ∧ k.TIMESTAMPOID ≠ k.INT4OID ∧ k.TIMESTAMPOID ≠ k.INT8OID ∧
  k.TEXTOID ≠ k.INT4OID ∧ k.TEXTOID ≠ k.INT8OID ∧ k.TEXTOID ≠ k.TIMESTAMPOID

instance (k : PgConsts) : Decidable k.typesDistinct := by
  unfold PgConsts.typesDistinct; infer_instance

/-- A datum: a machine word holding a value, or a pointer to a text value. -/
inductive Datum
  | word (w : Nat)
  | text (s : String)
  deriving DecidableEq

/-- The macro `Int32GetDatum`: the low four bytes of the word. -/
def Int32GetDatum (v : Int) : Datum := Datum.word (v % 2 ^ 32).toNat

/-- The macro `Int64GetDatum` (values passed by value in a 64-bit word). -/
def Int64GetDatum (v : Int) : Datum := Datum.word (v % 2 ^ 64).toNat

/-- The macro `DatumGetInt32`: the low 32 bits of the word read as a signed integer. -/
def DatumGetInt32 : Datum → Except Failure Int
  | Datum.word w => if w % 2 ^ 32 < 2 ^ 31 then pure (w % 2 ^ 32 : Nat) else pure ((w % 2 ^ 32 : Nat) - 2 ^ 32)
  | Datum.text _ => Except.error Failure.undefined

/-- The macro `DatumGetInt64`: the 64-bit word read as a signed integer. -/
def DatumGetInt64 : Datum → Except Failure Int
  | Datum.word w => if w % 2 ^ 64 < 2 ^ 63 then pure (w % 2 ^ 64 : Nat) else pure ((w % 2 ^ 64 : Nat) - 2 ^ 64)
  | Datum.text _ => Except.error Failure.undefined

/-- Modelled from the spec: textout, PostgreSQL's output function of the text type, is not in
the repository; the spec has text rendered as the raw text. -/
def textout : Datum → Except Failure String
  | Datum.text s => pure s
  | Datum.word _ => Except.error Failure.undefined

/-- A row of `pg_type` as far as the wrapper reads it. -/
structure Form_pg_type where
  typinput : Oid
  typtypmod : Int

/-- Services of the PostgreSQL backend the wrapper calls: a parameter of the embedding.  A
service that reports an error returns its message. -/
structure Backend where
  /-- The call `SearchSysCache1(TYPEOID, ...)`: the catalog row of a type, if the type exists. -/
  SearchSysCache1 : Oid → Option Form_pg_type
  /-- The call `OidFunctionCall3(fn, cstring, oid, int4)`: applies the function with this
  identifier, here always the input function of a type. -/
  OidFunctionCall3 : Oid → String → Oid → Int → Except String Datum
  /-- The output function of the timestamp type. -/
  timestamp_out : Datum → Except String String

/-- A service result in the wrapper: an error message is an `ereport(ERROR, ...)`. -/
def Backend.lift {α : Type} : Except String α → Except Failure α
  | Except.ok a => Except.ok a
  | Except.error m => Except.error (Failure.ereport m)

/-- An attribute of a tuple descriptor as far as the wrapper reads it. -/
structure FormData_pg_attribute where
  attname : String
  atttypid : Oid
  deriving DecidableEq

/-- A tuple descriptor; `natts` is the length of `attrs`. -/
structure TupleDesc where
  attrs : List FormData_pg_attribute
  deriving DecidableEq

/-- The field `natts`. -/
def TupleDesc.natts (desc : TupleDesc) : Nat := desc.attrs.length

/-- The read `desc->attrs[i]` for a C int `i`; outside the array it is undefined. -/
def TupleDesc.attr (desc : TupleDesc) (i : Int) : Except Failure FormData_pg_attribute :=
  if 0 ≤ i then
    match desc.attrs[i.toNat]? with
    | some a => pure a
    | none => Except.error Failure.undefined
  else Except.error Failure.undefined

/-- Expression nodes, by node tag: `T_Var`, `T_Const`, `T_OpExpr`, `T_BoolExpr`, and any other
kind of node.  Only the fields the wrapper reads are kept. -/
inductive Node
  | Var (varattno : Int)
  | Const (consttype : Oid) (constvalue : Datum)
  | OpExpr (opno : Oid) (args : List Node)
  | BoolExpr (args : List Node)
  | Other (tag : Nat)

/-- A `RestrictInfo` node as far as the wrapper reads it (its tag is `T_RestrictInfo`: the
planner passes a list of such nodes). -/
structure RestrictInfo where
  clause : Node
  orclause : Option Node

/-- The plan state kept in `baserel->fdw_private`. -/
structure LuaFdwPlanState where
  lua : lua_State

/-- The planner's information about the table as far as the wrapper uses it. -/
structure RelOptInfo where
  rows : Int
  width : Int
  fdw_private : Option LuaFdwPlanState

/-- The plan node made by `make_foreignscan`, as far as the wrapper fills it: its private
field carries the Lua state. -/
structure ForeignScan where
  fdw_private : lua_State

/-! ## Formatting integers: `snprintf` with `%d` and `%ld` -/

/-- The character of a decimal digit. -/
def digitChar (d : Nat) : Char := Char.ofNat (48 + d)

/-- Decimal digits of `n`, most significant first, in front of `acc`; `fuel` bounds the number
of digits. -/
def natDigits : Nat → Nat → List Char → List Char
  | 0, _, acc => acc
  | fuel + 1, n, acc =>
    if n < 10 then digitChar n :: acc
    else natDigits fuel (n / 10) (digitChar (n % 10) :: acc)

/-- What the conversion `%d` (and `%ld`) prints for a signed integer. -/
def fmt_d (v : Int) : List Char :=
  if v < 0 then '-' :: natDigits (v.natAbs + 1) v.natAbs []
  else natDigits (v.natAbs + 1) v.natAbs []

/-- The call `snprintf(scratch, size, "%d", v)`: at most `size - 1` characters are stored. -/
def snprintf_d (size : Nat) (v : Int) : String := String.mk ((fmt_d v).take (size - 1))

/-! ## luaGetForeignPlan: the predicate translator -/

/-- The flag `is_eq`: int48eq (15), `Int4EqualOperator`, `TextEqualOperator`, timestamp_eq
(2060). -/
def is_eq (k : PgConsts) (opno : Oid) : Bool :=
  opno == 15 || opno == k.Int4EqualOperator || opno == k.TextEqualOperator || opno == 2060

/-- The flag `is_like`. -/
def is_like (k : PgConsts) (opno : Oid) : Bool :=
  opno == k.OID_TEXT_LIKE_OP

/-- The flag `is_gt`, set to 0 in the code. -/
def is_gt : Bool := false

/-- The flag `is_lt`: `Int4LessOperator`, `Int8LessOperator`, timestamp_lt (2062). -/
def is_lt (k : PgConsts) (opno : Oid) : Bool :=
  opno == k.Int4LessOperator || opno == k.Int8LessOperator || opno == 2062

/-- The test `id == TEXTOID || id == INT4OID || id == INT8OID || id == TIMESTAMPOID`. -/
def supportedType (k : PgConsts) (id : Oid) : Bool :=
  id == k.TEXTOID || id == k.INT4OID || id == k.INT8OID || id == k.TIMESTAMPOID

/-- The string pushed for the key "operator". -/
def operatorString (k : PgConsts) (opno : Oid) : String :=
  if is_like k opno then "like"
  else if is_lt k opno then "lt"
  else if is_gt then "gt"
  else "eq"

/-- The string pushed for the key "type": the first `switch (id)`. -/
def typeString (k : PgConsts) (id : Oid) : String :=
  if id = k.INT4OID ∨ id = k.INT8OID then "integer"
  else if id = k.TIMESTAMPOID then "timestamp"
  else "text"

/-- The string pushed for the key "constant": the second `switch (id)`; `scratch` has 50
characters. -/
def constantString (k : PgConsts) (B : Backend) (id : Oid) (constvalue : Datum) :
    Except Failure String :=
  if id = k.INT4OID then do
    let v ← DatumGetInt32 constvalue
    pure (snprintf_d 50 v)
  else if id = k.INT8OID then do
    let v ← DatumGetInt64 constvalue
    pure (snprintf_d 50 v)
  else if id = k.TIMESTAMPOID then
    Backend.lift (B.timestamp_out constvalue)
  else
    textout constvalue

/-- The body of the innermost `if`: one entry is added to the table of clauses, which is on
top of the stack.  Returns the state and the incremented counter. -/
def pushClause (k : PgConsts) (B : Backend) (desc : TupleDesc) (lua : lua_State) (clause : Int)
    (opno : Oid) (attno : Int) (id : Oid) (constvalue : Datum) :
    Except Failure (lua_State × Int) := do
  let lua := lua_pushnumber lua clause
  let lua := lua_createtable lua
  let lua := lua_pushstring lua "column"
  let att ← desc.attr attno
  let lua := lua_pushstring lua att.attname
  let lua ← lua_settable lua (-3)
  let lua := lua_pushstring lua "operator"
  let lua := lua_pushstring lua (operatorString k opno)
  let lua ← lua_settable lua (-3)
  let lua := lua_pushstring lua "type"
  let lua := lua_pushstring lua (typeString k id)
  let lua ← lua_settable lua (-3)
  let lua := lua_pushstring lua "constant"
  let constant ← constantString k B id constvalue
  let lua := lua_pushstring lua constant
  let lua ← lua_settable lua (-3)
  let lua ← lua_settable lua (-3)
  pure (lua, clause + 1)

/-- The tests of one round of `foreach(lc, scan_clauses)`: when the restriction passes all
of them, the operator, `attno`, the literal's type `id` and the literal's value. -/
def clauseArgs (k : PgConsts) (rinfo : RestrictInfo) : Option (Oid × Int × Oid × Datum) :=
  if rinfo.orclause.isNone then
    match rinfo.clause with
    | Node.OpExpr opno args =>
      if args.length = 2 then
        match args[0]?, args[1]? with
        | some (Node.Var varattno), some (Node.Const consttype constvalue) =>
          let id := consttype
          let attno := varattno - 1
          if (is_eq k opno || is_like k opno) && supportedType k id then
            some (opno, attno, id, constvalue)
          else none
        | _, _ => none
      else none
    | _ => none
  else none

/-- One round of `foreach(lc, scan_clauses)`.  The counter `clause` is a C int; it is not
wrapped here, since it counts entries of the list. -/
def clauseStep (k : PgConsts) (B : Backend) (desc : TupleDesc) (st : lua_State × Int)
    (rinfo : RestrictInfo) : Except Failure (lua_State × Int) :=
  match clauseArgs k rinfo with
  | some (opno, attno, id, constvalue) => pushClause k B desc st.1 st.2 opno attno id constvalue
  | none => pure st

/-- The function `luaGetForeignPlan`: takes the Lua state out of the planner's private field,
publishes `fdw.clauses` and hands the state to the plan node. -/
def luaGetForeignPlan (k : PgConsts) (B : Backend) (baserel : RelOptInfo) (desc : TupleDesc)
    (scan_clauses : List RestrictInfo) : Except Failure (RelOptInfo × ForeignScan) :=
  match baserel.fdw_private with
  | none => Except.error Failure.undefined
  | some plan_state => do
    let lua := plan_state.lua
    let baserel := { baserel with fdw_private := none }
    let lua := lua_getglobal lua "fdw"
    let lua := lua_pushstring lua "clauses"
    let lua := lua_createtable lua
    let clause : Int := 1
    let st ← scan_clauses.foldlM (clauseStep k B desc) (lua, clause)
    let lua ← lua_settable st.1 (-3)
    let lua := lua_pop lua 1
    pure (baserel, { fdw_private := lua })

/-! ## luaIterateForeignScan: the next row -/

/-- A tuple table slot as far as the wrapper uses it: the flag set by `ExecClearTuple` and
cleared by `ExecStoreVirtualTuple`, the descriptor, and the arrays of values and null flags. -/
structure TupleTableSlot where
  tts_isempty : Bool
  tts_tupleDescriptor : TupleDesc
  tts_values : List Datum
  tts_isnull : List Bool
  deriving DecidableEq

/-- The scan state kept in `node->fdw_state`. -/
structure LuaFdwScanState where
  lua : lua_State

/-- The scan node as far as the wrapper uses it. -/
structure ForeignScanState where
  ss_ScanTupleSlot : TupleTableSlot
  fdw_state : Option LuaFdwScanState

/-- The call `ExecClearTuple(slot)`: the slot is marked empty. -/
def ExecClearTuple (slot : TupleTableSlot) : TupleTableSlot := { slot with tts_isempty := true }

/-- The call `ExecStoreVirtualTuple(slot)`: the slot holds the row of its arrays. -/
def ExecStoreVirtualTuple (slot : TupleTableSlot) : TupleTableSlot :=
  { slot with tts_isempty := false }

/-- The call `OidFunctionCall3(typeinput, CStringGetDatum(value), ObjectIdGetDatum(InvalidOid),
Int32GetDatum(typemod))` with the input function and type modifier of the catalog row. -/
def decodeField (k : PgConsts) (B : Backend) (tuple : Form_pg_type) (value : String) :
    Except Failure Datum :=
  Backend.lift (B.OidFunctionCall3 tuple.typinput value k.InvalidOid tuple.typtypmod)

/-- The rounds `i, i+1, ...` of `for (i = 0; i < desc->natts; i++)`, over the attributes
`desc->attrs[i], desc->attrs[i+1], ...`; the table returned by the script is on top of the
stack. -/
def iterateColumns (k : PgConsts) (B : Backend) (E : LuaEngine) :
    List FormData_pg_attribute → Nat → lua_State → TupleTableSlot →
      Except Failure (lua_State × TupleTableSlot)
  | [], _, lua, slot => pure (lua, slot)
  | att :: rest, i, lua, slot => do
    let lua := lua_pushstring lua att.attname
    let lua ← lua_gettable lua (-2)
    let slot := { slot with tts_isnull := slot.tts_isnull.set i true }
    let pgtype := att.atttypid
    match B.SearchSysCache1 pgtype with
    | none => Except.error (Failure.ereport ("cache lookup failed for type " ++ toString pgtype))
    | some tuple =>
      let filled : Except Failure TupleTableSlot :=
        if lua_isstring lua (-1) then
          match lua_tostring E lua (-1) with
          | some value => do
            let datum ← decodeField k B tuple value
            pure { slot with tts_isnull := slot.tts_isnull.set i false,
                             tts_values := slot.tts_values.set i datum }
          | none => pure slot
        else pure slot
      match filled with
      | Except.error e => Except.error e
      | Except.ok slot => iterateColumns k B E rest (i + 1) (lua_pop lua 1) slot

/-- The function `luaIterateForeignScan`; returns the node and the slot it hands back. -/
def luaIterateForeignScan (k : PgConsts) (B : Backend) (E : LuaEngine) (node : ForeignScanState) :
    Except Failure (ForeignScanState × TupleTableSlot) :=
  let slot := node.ss_ScanTupleSlot
  let desc := slot.tts_tupleDescriptor
  let slot := { slot with tts_values := List.replicate desc.natts (Datum.word 0) }
  let slot := { slot with tts_isnull := List.replicate desc.natts true }
  let slot := ExecClearTuple slot
  match node.fdw_state with
  | none => Except.error Failure.undefined
  | some scan_state =>
    let lua := lua_getglobal scan_state.lua "ScanIterate"
    if lua_isfunction lua (-1) then do
      let (status, lua) ← lua_pcall E lua 0 1
      if status ≠ 0 then
        Except.error (Failure.lua_error (lua_tostring E lua (-1)))
      else do
        let (lua, slot) ←
          if lua_istable lua (-1) then do
            let (lua, slot) ← iterateColumns k B E desc.attrs 0 lua slot
            pure (lua, ExecStoreVirtualTuple slot)
          else pure (lua, slot)
        let lua := lua_pop lua 1
        pure ({ ss_ScanTupleSlot := slot, fdw_state := some { lua := lua } }, slot)
    else
      let lua := lua_pop lua 1
      pure ({ ss_ScanTupleSlot := slot, fdw_state := some { lua := lua } }, slot)

/-- The row a slot holds: none for an empty slot, else for each column the value, or none
for NULL. -/
def TupleTableSlot.row (slot : TupleTableSlot) : Option (List (Option Datum)) :=
  if slot.tts_isempty then none
  else some (List.zipWith (fun v isnull => if isnull then none else some v)
    slot.tts_values slot.tts_isnull)

/-- The first value a function returned, nil when it returned none: what `lua_pcall` with one
result leaves on the stack. -/
def firstResult (results : List LuaValue) : LuaValue := results.headD LuaValue.nil

/-! ## Starting and stopping the script engine -/

/-- The levels of `elog.h` that `lua_start` publishes: constants of PostgreSQL's headers, a
parameter of the embedding. -/
structure ElogLevels where
  DEBUG5 : Int
  DEBUG4 : Int
  DEBUG3 : Int
  DEBUG2 : Int
  DEBUG1 : Int
  INFO : Int
  NOTICE : Int
  WARNING : Int
  ERROR : Int
  LOG : Int
  FATAL : Int
  PANIC : Int

/-- The rest of the Lua library the wrapper uses: a parameter of the embedding. -/
structure LuaLib where
  /-- The heap after `luaL_newstate` and `luaL_openlibs`: the standard library. -/
  openlibs : LuaHeap
  /-- The reference under which the C function `lua_ereport` is known to the engine. -/
  lua_ereport : Nat
  /-- Loading and running a file, as in `luaL_dofile`. -/
  dofile : String → LuaHeap → CallOutcome
  /-- Loading and running a text, as in `luaL_dostring`. -/
  dostring : String → LuaHeap → CallOutcome
  /-- The number a string converts to, if it does (`lua_tonumber` on a string). -/
  str2number : String → Option Int

/-- What happens to script-engine instances: `lua_start` makes one and `lua_stop` releases
the one it is given. -/
inductive SessionEvent
  | started (lua : lua_State)
  | stopped (lua : lua_State)

/-- The number of `stopped` events of a trace. -/
def stopCount : List SessionEvent → Nat
  | [] => 0
  | SessionEvent.stopped _ :: rest => stopCount rest + 1
  | SessionEvent.started _ :: rest => stopCount rest

/-- The number of `started` events of a trace. -/
def startCount : List SessionEvent → Nat
  | [] => 0
  | SessionEvent.started _ :: rest => startCount rest + 1
  | SessionEvent.stopped _ :: rest => startCount rest

/-- The call `lua_pushcfunction(L, f)` for the C function with reference `f`. -/
def lua_pushcfunction (L : lua_State) (f : Nat) : lua_State := L.push (LuaValue.function f)

/-- The call `lua_setglobal(L, name)`: pops the value on top into the global. -/
def lua_setglobal (L : lua_State) (name : String) : Except Failure lua_State :=
  match L.stack with
  | v :: rest =>
    Except.ok { heap := { L.heap with globals := fun x => if x = name then v else L.heap.globals x },
                stack := rest }
  | [] => Except.error Failure.undefined

/-- The number a value converts to: a number, or a string that converts. -/
def LuaValue.tonumber (Lib : LuaLib) : LuaValue → Option Int
  | LuaValue.number n => some n
  | LuaValue.string s => Lib.str2number s
  | _ => none

/-- The call `lua_isnumber(L, idx)`. -/
def lua_isnumber (Lib : LuaLib) (L : lua_State) (idx : Int) : Bool :=
  match index2adr L idx with
  | some v => (v.tonumber Lib).isSome
  | none => false

/-- The call `lua_tonumber(L, idx)`: 0 when the value does not convert. -/
def lua_tonumber (Lib : LuaLib) (L : lua_State) (idx : Int) : Int :=
  match index2adr L idx with
  | some v => (v.tonumber Lib).getD 0
  | none => 0

/-- The result of loading and running a chunk, as `luaL_dofile` and `luaL_dostring` leave it:
status 0 and the values the chunk returned, or a status other than 0 and the error value. -/
def chunkResult (L : lua_State) : CallOutcome → Except Failure (Int × lua_State)
  | CallOutcome.returned results heap =>
    Except.ok (0, { heap := heap, stack := results.reverse ++ L.stack })
  | CallOutcome.raised err heap => Except.ok (1, { heap := heap, stack := err :: L.stack })
  | CallOutcome.ereported message => Except.error (Failure.ereport message)

/-- The call `luaL_dofile(L, filename)`. -/
def luaL_dofile (Lib : LuaLib) (L : lua_State) (filename : String) :
    Except Failure (Int × lua_State) :=
  chunkResult L (Lib.dofile filename L.heap)

/-- The call `luaL_dostring(L, text)`. -/
def luaL_dostring (Lib : LuaLib) (L : lua_State) (text : String) :
    Except Failure (Int × lua_State) :=
  chunkResult L (Lib.dostring text L.heap)

/-- The calls `lua_pushstring(lua, name); lua_pushnumber(lua, level); lua_settable(lua, -3)`. -/
def setLevel (lua : lua_State) (name : String) (level : Int) : Except Failure lua_State :=
  lua_settable (lua_pushnumber (lua_pushstring lua name) level) (-3)

/-- The names and values of the twelve levels `lua_start` stores in the table, in the order
of the source. -/
def levelConstants (lv : ElogLevels) : List (String × Int) :=
  [("DEBUG5", lv.DEBUG5), ("DEBUG4", lv.DEBUG4), ("DEBUG3", lv.DEBUG3), ("DEBUG2", lv.DEBUG2),
   ("DEBUG1", lv.DEBUG1), ("INFO", lv.INFO), ("NOTICE", lv.NOTICE), ("WARNING", lv.WARNING),
   ("ERROR", lv.ERROR), ("LOG", lv.LOG), ("FATAL", lv.FATAL), ("PANIC", lv.PANIC)]

/-- The function `lua_start`: a new state with the standard library, the global table `fdw`
with `ereport` and the levels, then the script file if there is one, then the inline text if
there is one. -/
def lua_start (lv : ElogLevels) (Lib : LuaLib) (E : LuaEngine) (script inject : Option String) :
    Except Failure lua_State := do
  let lua : lua_State := { heap := Lib.openlibs, stack := [] }
  let lua := lua_createtable lua
  let lua := lua_pushstring lua "ereport"
  let lua := lua_pushcfunction lua Lib.lua_ereport
  let lua ← lua_settable lua (-3)
  let lua ← (levelConstants lv).foldlM (fun lua level => setLevel lua level.1 level.2) lua
  let lua ← lua_setglobal lua "fdw"
  let (status, lua) ←
    match script with
    | some filename => luaL_dofile Lib lua filename
    | none => pure (0, lua)
  if status ≠ 0 then
    Except.error (Failure.lua_error (lua_tostring E lua (-1)))
  else
    let (status, lua) ←
      match inject with
      | some text => luaL_dostring Lib lua text
      | none => pure (0, lua)
    if status ≠ 0 then
      Except.error (Failure.lua_error (lua_tostring E lua (-1)))
    else pure lua

/-- The function `lua_stop`: `lua_close` releases the state; the call is recorded. -/
def lua_stop (lua : lua_State) : SessionEvent := SessionEvent.stopped lua

/-! ## Planning: luaGetForeignRelSize and luaGetForeignPaths -/

/-- An option of the foreign table: its name and its value as `defGetString` gives it. -/
structure DefElem where
  defname : String
  arg : String
  deriving DecidableEq

/-- The foreign table as `GetForeignTable` gives it, as far as the wrapper reads it. -/
structure ForeignTable where
  options : List DefElem

/-- The path node made by `create_foreignscan_path`, as far as the wrapper fills it. -/
structure ForeignPath where
  rows : Int
  startup_cost : Int
  total_cost : Int
  deriving DecidableEq

/-- One round of `foreach(cell, table->options)`: the variables `script` and `inject`. -/
def optionStep (st : Option String × Option String) (d : DefElem) :
    Option String × Option String :=
  let script := if d.defname = "script" then some d.arg else st.1
  let inject := if d.defname = "inject" then some d.arg else st.2
  (script, inject)

/-- The rounds of `for (i = 0; i < desc->natts; i++)` in `luaGetForeignRelSize`: one entry of
the table of columns per attribute; the table is on top of the stack. -/
def publishColumns (k : PgConsts) : List FormData_pg_attribute → lua_State → Except Failure lua_State
  | [], lua => pure lua
  | att :: rest, lua => do
    let lua := lua_pushstring lua att.attname
    let lua :=
      if att.atttypid = k.INT4OID ∨ att.atttypid = k.INT8OID then lua_pushstring lua "integer"
      else lua_pushstring lua "text"
    let lua ← lua_settable lua (-3)
    publishColumns k rest lua

/-- An optional callback with one result that is a number: the lines from `lua_getglobal` to
the end of the `if` for `EstimateRowCount` and `EstimateRowWidth`.  Returns the state and the
number, if the callback gave one. -/
def estimateCallback (Lib : LuaLib) (E : LuaEngine) (lua : lua_State) (name : String) :
    Except Failure (lua_State × Option Int) := do
  let lua := lua_getglobal lua name
  if lua_isfunction lua (-1) then
    let (status, lua) ← lua_pcall E lua 0 1
    if status ≠ 0 then
      Except.error (Failure.lua_error (lua_tostring E lua (-1)))
    else
      let value := if lua_isnumber Lib lua (-1) then some (lua_tonumber Lib lua (-1)) else none
      pure (lua_pop lua 1, value)
  else pure (lua, none)

/-- The lines of `luaGetForeignRelSize` from `lua_getglobal(lua, "fdw")` to `lua_pop(lua, 1)`:
the entries `table` and `columns` of the global `fdw`. -/
def publishSchema (k : PgConsts) (lua : lua_State) (relname : String) (desc : TupleDesc) :
    Except Failure lua_State := do
  let lua := lua_getglobal lua "fdw"
  let lua := lua_pushstring lua "table"
  let lua := lua_pushstring lua relname
  let lua ← lua_settable lua (-3)
  let lua := lua_pushstring lua "columns"
  let lua := lua_createtable lua
  let lua ← publishColumns k desc.attrs lua
  let lua ← lua_settable lua (-3)
  pure (lua_pop lua 1)

/-- The function `luaGetForeignRelSize`; `relname` is `get_rel_name(foreigntableid)`, `desc`
the descriptor of the relation and `table` its foreign-table entry. -/
def luaGetForeignRelSize (k : PgConsts) (lv : ElogLevels) (Lib : LuaLib) (E : LuaEngine)
    (baserel : RelOptInfo) (relname : String) (desc : TupleDesc) (table : ForeignTable) :
    Except Failure (RelOptInfo × List SessionEvent) := do
  let (script, inject) := table.options.foldl optionStep (none, none)
  let baserel := { baserel with rows := 0 }
  let lua ← lua_start lv Lib E script inject
  let started := SessionEvent.started lua
  let lua ← publishSchema k lua relname desc
  let (lua, rows) ← estimateCallback Lib E lua "EstimateRowCount"
  let baserel := match rows with
    | some n => { baserel with rows := n }
    | none => baserel
  let (lua, width) ← estimateCallback Lib E lua "EstimateRowWidth"
  let baserel := match width with
    | some n => { baserel with width := n }
    | none => baserel
  pure ({ baserel with fdw_private := some { lua := lua } }, [started])

/-- An optional cost callback: the lines from `lua_getglobal` to the end of the `if ... else`
for `EstimateStartupCost` and `EstimateTotalCost`; the call asks for two results.  Returns
the state and the number, if the value on top is one. -/
def costCallback (Lib : LuaLib) (E : LuaEngine) (lua : lua_State) (name : String) :
    Except Failure (lua_State × Option Int) := do
  let lua := lua_getglobal lua name
  if lua_isfunction lua (-1) then
    let (status, lua) ← lua_pcall E lua 0 2
    if status ≠ 0 then
      Except.error (Failure.lua_error (lua_tostring E lua (-1)))
    else
      let value := if lua_isnumber Lib lua (-1) then some (lua_tonumber Lib lua (-1)) else none
      pure (lua_pop lua 1, value)
  else pure (lua_pop lua 1, none)

/-- The function `luaGetForeignPaths`; returns the planner's information and the path handed
to `add_path`. -/
def luaGetForeignPaths (Lib : LuaLib) (E : LuaEngine) (baserel : RelOptInfo) :
    Except Failure (RelOptInfo × ForeignPath) :=
  match baserel.fdw_private with
  | none => Except.error Failure.undefined
  | some plan_state => do
    let startup_cost : Int := 0
    let total_cost : Int := startup_cost + baserel.rows
    let (lua, value) ← costCallback Lib E plan_state.lua "EstimateStartupCost"
    let startup_cost := value.getD startup_cost
    let (lua, value) ← costCallback Lib E lua "EstimateTotalCost"
    let total_cost := value.getD total_cost
    pure ({ baserel with fdw_private := some { lua := lua } },
      { rows := baserel.rows, startup_cost := startup_cost, total_cost := total_cost })

/-! ## The scan: begin, rescan, end -/

/-- The function `luaBeginForeignScan`; `plan` is the plan node `node->ss.ps.plan`. -/
def luaBeginForeignScan (E : LuaEngine) (plan : ForeignScan) (node : ForeignScanState) :
    Except Failure ForeignScanState := do
  let lua := plan.fdw_private
  let lua := lua_getglobal lua "ScanStart"
  if lua_isfunction lua (-1) then
    let (status, lua) ← lua_pcall E lua 0 0
    if status ≠ 0 then
      Except.error (Failure.lua_error (lua_tostring E lua (-1)))
    else pure { node with fdw_state := some { lua := lua } }
  else
    let lua := lua_pop lua 1
    pure { node with fdw_state := some { lua := lua } }

/-- The function `luaReScanForeignScan`. -/
def luaReScanForeignScan (E : LuaEngine) (node : ForeignScanState) :
    Except Failure ForeignScanState :=
  match node.fdw_state with
  | none => Except.error Failure.undefined
  | some scan_state => do
    let lua := lua_getglobal scan_state.lua "ScanRestart"
    if lua_isfunction lua (-1) then
      let (status, lua) ← lua_pcall E lua 0 0
      if status ≠ 0 then
        Except.error (Failure.lua_error (lua_tostring E lua (-1)))
      else pure { node with fdw_state := some { lua := lua } }
    else pure { node with fdw_state := some { lua := lua } }

/-- The function `luaEndForeignScan`; returns the node and the record of `lua_stop`. -/
def luaEndForeignScan (E : LuaEngine) (node : ForeignScanState) :
    Except Failure (ForeignScanState × List SessionEvent) :=
  match node.fdw_state with
  | none => Except.error Failure.undefined
  | some scan_state => do
    let lua := lua_getglobal scan_state.lua "ScanEnd"
    let lua ←
      if lua_isfunction lua (-1) then do
        let (status, lua) ← lua_pcall E lua 0 0
        if status ≠ 0 then
          Except.error (Failure.lua_error (lua_tostring E lua (-1)))
        else pure lua
      else pure lua
    let stopped := lua_stop lua
    pure ({ node with fdw_state := none }, [stopped])

/-- The calls the executor makes between the begin and the end of a scan. -/
inductive ScanCall
  | next
  | rescan
  deriving DecidableEq

/-- The calls of the executor between begin and end, in order: `luaIterateForeignScan` for
`next`, `luaReScanForeignScan` for `rescan`. -/
def scanCalls (k : PgConsts) (B : Backend) (E : LuaEngine) :
    List ScanCall → ForeignScanState → Except Failure ForeignScanState
  | [], node => pure node
  | ScanCall.next :: rest, node => do
    let (node, _) ← luaIterateForeignScan k B E node
    scanCalls k B E rest node
  | ScanCall.rescan :: rest, node => do
    let node ← luaReScanForeignScan E node
    scanCalls k B E rest node

/-- The scan as the executor drives it: begin, the calls, end.  Returns the node and the
record of what happened to script-engine instances; only `luaEndForeignScan` adds to it. -/
def scanLifecycle (k : PgConsts) (B : Backend) (E : LuaEngine) (plan : ForeignScan)
    (node : ForeignScanState) (calls : List ScanCall) :
    Except Failure (ForeignScanState × List SessionEvent) := do
  let node ← luaBeginForeignScan E plan node
  let node ← scanCalls k B E calls node
  luaEndForeignScan E node

/-! ## Modifying the foreign table -/

/-- The struct `LuaFdwModifyState`. -/
structure LuaFdwModifyState where
  lua : lua_State

/-- The node `ResultRelInfo`, as far as the wrapper uses it. -/
structure ResultRelInfo where
  ri_FdwState : Option LuaFdwModifyState

/-- The lines `lua_getglobal(lua, name); if (lua_isfunction(lua, -1) && lua_pcall(lua, 0, 0, 0)
!= 0) elog(ERROR, "name: %s", lua_tostring(lua, -1));` of the modify functions. -/
def modifyCallback (E : LuaEngine) (lua : lua_State) (name : String) : Except Failure lua_State :=
  let lua := lua_getglobal lua name
  if lua_isfunction lua (-1) then do
    let (status, lua) ← lua_pcall E lua 0 0
    if status ≠ 0 then
      Except.error (Failure.elog name (lua_tostring E lua (-1)))
    else pure lua
  else pure lua

/-- The function `luaBeginForeignModify`; returns the node and the record of `lua_start`. -/
def luaBeginForeignModify (lv : ElogLevels) (Lib : LuaLib) (E : LuaEngine) (rinfo : ResultRelInfo) :
    Except Failure (ResultRelInfo × List SessionEvent) := do
  let lua ← lua_start lv Lib E none none
  let started := SessionEvent.started lua
  let lua ← modifyCallback E lua "BeginForeignModify"
  pure ({ rinfo with ri_FdwState := some { lua := lua } }, [started])

/-- The function `luaExecForeignInsert`; returns the node and the slot it hands back. -/
def luaExecForeignInsert (E : LuaEngine) (rinfo : ResultRelInfo) (slot : TupleTableSlot) :
    Except Failure (ResultRelInfo × TupleTableSlot) :=
  match rinfo.ri_FdwState with
  | none => Except.error Failure.undefined
  | some modify_state => do
    let lua ← modifyCallback E modify_state.lua "ExecForeignInsert"
    pure ({ rinfo with ri_FdwState := some { lua := lua } }, slot)

/-- The function `luaExecForeignUpdate`; returns the node and the slot it hands back. -/
def luaExecForeignUpdate (E : LuaEngine) (rinfo : ResultRelInfo) (slot : TupleTableSlot) :
    Except Failure (ResultRelInfo × TupleTableSlot) :=
  match rinfo.ri_FdwState with
  | none => Except.error Failure.undefined
  | some modify_state => do
    let lua ← modifyCallback E modify_state.lua "ExecForeignUpdate"
    pure ({ rinfo with ri_FdwState := some { lua := lua } }, slot)

/-- The function `luaExecForeignDelete`; returns the node and the slot it hands back. -/
def luaExecForeignDelete (E : LuaEngine) (rinfo : ResultRelInfo) (slot : TupleTableSlot) :
    Except Failure (ResultRelInfo × TupleTableSlot) :=
  match rinfo.ri_FdwState with
  | none => Except.error Failure.undefined
  | some modify_state => do
    let lua ← modifyCallback E modify_state.lua "ExecForeignDelete"
    pure ({ rinfo with ri_FdwState := some { lua := lua } }, slot)

/-- The function `luaEndForeignModify`; returns the node and the record of what it did to
script-engine instances: the body has no call of `lua_stop`. -/
def luaEndForeignModify (E : LuaEngine) (rinfo : ResultRelInfo) :
    Except Failure (ResultRelInfo × List SessionEvent) :=
  match rinfo.ri_FdwState with
  | none => Except.error Failure.undefined
  | some modify_state => do
    let lua ← modifyCallback E modify_state.lua "EndForeignModify"
    pure ({ rinfo with ri_FdwState := some { lua := lua } }, [])

/-- The calls the executor makes between the begin and the end of a modification. -/
inductive ModifyCall
  | insert
  | update
  | delete
  deriving DecidableEq

/-- The calls of the executor between begin and end of a modification, in order, each on the
slot `slot`. -/
def modifyCalls (E : LuaEngine) (slot : TupleTableSlot) :
    List ModifyCall → ResultRelInfo → Except Failure ResultRelInfo
  | [], rinfo => pure rinfo
  | ModifyCall.insert :: rest, rinfo => do
    let (rinfo, _) ← luaExecForeignInsert E rinfo slot
    modifyCalls E slot rest rinfo
  | ModifyCall.update :: rest, rinfo => do
    let (rinfo, _) ← luaExecForeignUpdate E rinfo slot
    modifyCalls E slot rest rinfo
  | ModifyCall.delete :: rest, rinfo => do
    let (rinfo, _) ← luaExecForeignDelete E rinfo slot
    modifyCalls E slot rest rinfo

/-- The modification as the executor drives it: begin, the calls, end.  Returns the node and
the record of what happened to script-engine instances, in order. -/
def modifyLifecycle (lv : ElogLevels) (Lib : LuaLib) (E : LuaEngine) (rinfo : ResultRelInfo)
    (slot : TupleTableSlot) (calls : List ModifyCall) :
    Except Failure (ResultRelInfo × List SessionEvent) := do
  let (rinfo, begun) ← luaBeginForeignModify lv Lib E rinfo
  let rinfo ← modifyCalls E slot calls rinfo
  let (rinfo, ended) ← luaEndForeignModify E rinfo
  pure (rinfo, begun ++ ended)

/-! ## Validating options -/

/-- The struct `luaFdwOption`. -/
structure luaFdwOption where
  optname : String
  optcontext : Oid

/-- The table `valid_options`, up to the sentinel; `ForeignTableRelationId` is a constant of
PostgreSQL's catalog headers, a parameter of the embedding. -/
def valid_options (ForeignTableRelationId : Oid) : List luaFdwOption :=
  [{ optname := "script", optcontext := ForeignTableRelationId },
   { optname := "inject", optcontext := ForeignTableRelationId }]

/-- The loop of `is_valid_option` over the rest of the table. -/
def isValidIn (option : String) (context : Oid) : List luaFdwOption → Bool
  | [] => false
  | opt :: rest =>
    if context = opt.optcontext ∧ opt.optname = option then true
    else isValidIn option context rest

/-- The function `is_valid_option`. -/
def is_valid_option (ForeignTableRelationId : Oid) (option : String) (context : Oid) : Bool :=
  isValidIn option context (valid_options ForeignTableRelationId)

/-- The error codes the wrapper reports with. -/
inductive SqlErrorCode
  | ERRCODE_FDW_ERROR
  | ERRCODE_FDW_INVALID_OPTION_NAME
  deriving DecidableEq

/-- What `ereport(ERROR, (errcode(...), errmsg(...), errhint(...)))` reports. -/
structure ErrorData where
  sqlerrcode : SqlErrorCode
  message : String
  hint : String
  deriving DecidableEq

/-- One round of the loop that fills `buf` in `lua_fdw_validator`. -/
def hintStep (catalog : Oid) (buf : String) (opt : luaFdwOption) : String :=
  if catalog = opt.optcontext then
    buf ++ (if buf.length > 0 then ", " else "") ++ opt.optname
  else buf

/-- The double quote. -/
def dquote : String := String.singleton (Char.ofNat 34)

/-- What `lua_fdw_validator` reports for the option `defname` that is not valid. -/
def invalidOption (ForeignTableRelationId : Oid) (defname : String) (catalog : Oid) : ErrorData :=
  let buf := (valid_options ForeignTableRelationId).foldl (hintStep catalog) ""
  { sqlerrcode := SqlErrorCode.ERRCODE_FDW_INVALID_OPTION_NAME
    message := "invalid option " ++ dquote ++ defname ++ dquote
    hint :=
      if buf.length > 0 then "Valid options in this context are: " ++ buf
      else "There are no valid options in this context." }

/-- The function `lua_fdw_validator` on the options `untransformRelOptions` gives. -/
def lua_fdw_validator (ForeignTableRelationId : Oid) :
    List DefElem → Oid → Except ErrorData Unit
  | [], _ => pure ()
  | d :: rest, catalog =>
    if is_valid_option ForeignTableRelationId d.defname catalog then
      lua_fdw_validator ForeignTableRelationId rest catalog
    else Except.error (invalidOption ForeignTableRelationId d.defname catalog)

/-- Planning as the planner drives it: `luaGetForeignRelSize`, then `luaGetForeignPaths` on
the information it left; gives the planner's information and the path. -/
def planPath (k : PgConsts) (lv : ElogLevels) (Lib : LuaLib) (E : LuaEngine)
    (baserel : RelOptInfo) (relname : String) (desc : TupleDesc) (table : ForeignTable) :
    Except Failure (RelOptInfo × ForeignPath) := do
  let (baserel, _) ← luaGetForeignRelSize k lv Lib E baserel relname desc table
  luaGetForeignPaths Lib E baserel

/-! ## Type input functions -/

/-- The C function `isspace` in the C locale. -/
def isSpace (c : Char) : Bool :=
  c = ' ' || c = '\t' || c = '\n' || c = '\r' || c.toNat = 11 || c.toNat = 12

/-- A decimal digit. -/
def isDigit (c : Char) : Bool := 48 ≤ c.toNat && c.toNat ≤ 57

/-- The value of a decimal digit. -/
def digitValue (c : Char) : Nat := c.toNat - 48

/-- The number written by a list of decimal digits. -/
def digitsValue (cs : List Char) : Nat := cs.foldl (fun a c => a * 10 + digitValue c) 0

/-- Modelled from the spec: the input parsers of the integer types (PostgreSQL's int4in and
int8in) are not in the repository; the spec has decode invert the decimal rendering and reject
malformed text.  The text is: optional white space, an optional sign, decimal digits, optional
white space; anything else, and a value outside `lo..hi`, is rejected with a message. -/
def parseInteger (lo hi : Int) (s : String) : Except String Int :=
  let cs := s.data.dropWhile isSpace
  let negative := cs.head? = some '-'
  let cs := if cs.head? = some '-' ∨ cs.head? = some '+' then cs.tail else cs
  let digits := cs.takeWhile isDigit
  let rest := (cs.dropWhile isDigit).dropWhile isSpace
  if digits = [] ∨ rest ≠ [] then
    Except.error ("invalid input syntax for integer: " ++ s)
  else
    let v : Int := if negative then -(digitsValue digits : Int) else (digitsValue digits : Int)
    if v < lo ∨ hi < v then Except.error ("value out of range for type integer: " ++ s)
    else Except.ok v

/-- Modelled from the spec: int4in, the input parser of the 32-bit integer type. -/
def int4in (s : String) : Except String Datum :=
  (parseInteger (-2 ^ 31) (2 ^ 31 - 1) s).map Int32GetDatum

/-- Modelled from the spec: int8in, the input parser of the 64-bit integer type. -/
def int8in (s : String) : Except String Datum :=
  (parseInteger (-2 ^ 63) (2 ^ 63 - 1) s).map Int64GetDatum

/-- Modelled from the spec: textin, the input parser of the text type, takes the raw text. -/
def textin (s : String) : Except String Datum := Except.ok (Datum.text s)

/-- Modelled from the spec: a backend with the four supported types and their input parsers
(function identifiers as in `pg_proc`: 42 int4in, 460 int8in, 46 textin, 1312 timestamp_in).
The codec of the timestamp type (PostgreSQL's timestamp_out and timestamp_in) is a
parameter. -/
def stdBackend (k : PgConsts) (timestamp_out : Datum → Except String String)
    (timestamp_in : String → Except String Datum) : Backend :=
  { SearchSysCache1 := fun t =>
      if t = k.INT4OID then some { typinput := 42, typtypmod := -1 }
      else if t = k.INT8OID then some { typinput := 460, typtypmod := -1 }
      else if t = k.TEXTOID then some { typinput := 46, typtypmod := -1 }
      else if t = k.TIMESTAMPOID then some { typinput := 1312, typtypmod := -1 }
      else none,
    OidFunctionCall3 := fun fn value _ _ =>
      if fn = 42 then int4in value
      else if fn = 460 then int8in value
      else if fn = 46 then textin value
      else if fn = 1312 then timestamp_in value
      else Except.error "function does not exist",
    timestamp_out := timestamp_out }

/-! ## Reading what the script sees -/

/-- A condition as the script reads it from `fdw.clauses[i]`: four strings. -/
structure Condition where
  column : String
  operator : String
  type : String
  constant : String
  deriving DecidableEq

/-- The table `fdw.clauses` of a state, if `fdw` and `fdw.clauses` are tables. -/
def fdwClauses (L : lua_State) : Option LuaTable :=
  match L.heap.globals "fdw" with
  | LuaValue.table rf =>
    match L.heap.tables rf (LuaValue.string "clauses") with
    | LuaValue.table rc => some (L.heap.tables rc)
    | _ => none
  | _ => none

/-- The four string fields of a table value, if it is a table that has them. -/
def readCondition (L : lua_State) : LuaValue → Option Condition
  | LuaValue.table r =>
    match L.heap.tables r (LuaValue.string "column"), L.heap.tables r (LuaValue.string "operator"),
      L.heap.tables r (LuaValue.string "type"), L.heap.tables r (LuaValue.string "constant") with
    | LuaValue.string c, LuaValue.string o, LuaValue.string t, LuaValue.string v =>
      some { column := c, operator := o, type := t, constant := v }
    | _, _, _, _ => none
  | _ => none

/-- The condition published under the key `i`, i.e. `fdw.clauses[i]`. -/
def publishedCondition (L : lua_State) (i : Int) : Option Condition :=
  match fdwClauses L with
  | some t => readCondition L (t (LuaValue.number i))
  | none => none

/-! ## The translation and the row without the Lua calls

Pure counterparts of the two loops, related to the embedded functions by the theorems
`luaGetForeignPlan_eq` and `next_called`. -/

/-- The table of one condition. -/
def Condition.toTable (c : Condition) : LuaTable :=
  (((LuaTable.empty.set (LuaValue.string "column") (LuaValue.string c.column)).set
    (LuaValue.string "operator") (LuaValue.string c.operator)).set
    (LuaValue.string "type") (LuaValue.string c.type)).set
    (LuaValue.string "constant") (LuaValue.string c.constant)

/-- The four strings `pushClause` stores for a restriction that passed the tests; fails where
`pushClause` fails (no such column, no text for the literal). -/
def entryOf (k : PgConsts) (B : Backend) (desc : TupleDesc) (a : Oid × Int × Oid × Datum) :
    Except Failure Condition := do
  let att ← desc.attr a.2.1
  let constant ← constantString k B a.2.2.1 a.2.2.2
  pure { column := att.attname, operator := operatorString k a.1, type := typeString k a.2.2.1,
         constant := constant }

/-- The entry a restriction leads to: none when the loop skips it. -/
def conditionOf (k : PgConsts) (B : Backend) (desc : TupleDesc) (rinfo : RestrictInfo) :
    Option (Except Failure Condition) :=
  (clauseArgs k rinfo).map (entryOf k B desc)

/-- The state after `pushClause` stored the condition `c` under the key `clause` in the table
`rc`: a new table holds the four strings. -/
def emitState (L : lua_State) (rc : Nat) (clause : Int) (c : Condition) : lua_State :=
  { heap := { tables := fun x =>
                if x = rc then (L.heap.tables rc).set (LuaValue.number clause) (LuaValue.table L.heap.ntables)
                else if x = L.heap.ntables then c.toTable else L.heap.tables x,
              ntables := L.heap.ntables + 1, globals := L.heap.globals },
    stack := L.stack }

/-- The conditions of a list of restrictions, in order; fails at the first entry that cannot
be built. -/
def translate (k : PgConsts) (B : Backend) (desc : TupleDesc) :
    List RestrictInfo → Except Failure (List Condition)
  | [] => pure []
  | r :: rs =>
    match conditionOf k B desc r with
    | none => translate k B desc rs
    | some (Except.error e) => Except.error e
    | some (Except.ok c) => (translate k B desc rs).map (fun cs => c :: cs)

/-- The state and counter after the conditions `cs` were stored one after the other. -/
def emitAll (L : lua_State) (rc : Nat) (clause : Int) : List Condition → lua_State × Int
  | [] => (L, clause)
  | c :: cs => emitAll (emitState L rc clause c) rc (clause + 1) cs

/-- What a state `M` looks like after the entries `cs` were added to the table `rc` of `L`,
the first under the key `clause`. -/
structure EmitPost (L : lua_State) (rc : Nat) (clause : Int) (cs : List Condition)
    (M : lua_State × Int) : Prop where
  stack_eq : M.1.stack = L.stack
  globals_eq : M.1.heap.globals = L.heap.globals
  ntables_eq : M.1.heap.ntables = L.heap.ntables + cs.length
  counter_eq : M.2 = clause + cs.length
  key_new : ∀ j : Nat, j < cs.length →
    M.1.heap.tables rc (LuaValue.number (clause + j)) = LuaValue.table (L.heap.ntables + j)
  key_old : ∀ key : LuaValue, (∀ j : Nat, j < cs.length → key ≠ LuaValue.number (clause + j)) →
    M.1.heap.tables rc key = L.heap.tables rc key
  entry : ∀ (j : Nat) (h : j < cs.length), M.1.heap.tables (L.heap.ntables + j) = (cs.get ⟨j, h⟩).toTable
  frame : ∀ x : Nat, x < L.heap.ntables → x ≠ rc → M.1.heap.tables x = L.heap.tables x

/-- The state `luaGetForeignPlan` leaves when the translation of the restrictions is `cs` and
the global `fdw` is the table `rf`. -/
def published (lua : lua_State) (rf : Nat) (cs : List Condition) : lua_State :=
  let st := emitAll (lua_createtable (lua_pushstring (lua_getglobal lua "fdw") "clauses"))
    lua.heap.ntables 1 cs
  { heap := st.1.heap.setTable rf
      ((st.1.heap.tables rf).set (LuaValue.string "clauses") (LuaValue.table lua.heap.ntables)),
    stack := lua.stack }

/-- The table store of the published state. -/
structure PlanPost (lua : lua_State) (rf : Nat) (cs : List Condition) (M : lua_State) : Prop where
  stack_eq : M.stack = lua.stack
  globals_eq : M.heap.globals = lua.heap.globals
  ntables_eq : M.heap.ntables = lua.heap.ntables + 1 + cs.length
  fdw_eq : M.heap.tables rf =
    (lua.heap.tables rf).set (LuaValue.string "clauses") (LuaValue.table lua.heap.ntables)
  key_new : ∀ j : Nat, j < cs.length →
    M.heap.tables lua.heap.ntables (LuaValue.number (1 + j)) = LuaValue.table (lua.heap.ntables + 1 + j)
  key_old : ∀ key : LuaValue, (∀ j : Nat, j < cs.length → key ≠ LuaValue.number (1 + j)) →
    M.heap.tables lua.heap.ntables key = LuaValue.nil
  entry : ∀ (j : Nat) (h : j < cs.length),
    M.heap.tables (lua.heap.ntables + 1 + j) = (cs.get ⟨j, h⟩).toTable
  frame : ∀ x : Nat, x < lua.heap.ntables → x ≠ rf → M.heap.tables x = lua.heap.tables x

/-- The value of a column in the row made from the table `r` the script returned: the catalog
row of the column's type is looked up, and the entry under the column's name is decoded when
`lua_tostring` gives a text for it (none stands for NULL). -/
def columnValue (k : PgConsts) (B : Backend) (E : LuaEngine) (h : LuaHeap) (r : Nat)
    (att : FormData_pg_attribute) : Except Failure (Option Datum) :=
  match B.SearchSysCache1 att.atttypid with
  | none =>
    Except.error (Failure.ereport ("cache lookup failed for type " ++ toString att.atttypid))
  | some tuple =>
    match (h.tables r (LuaValue.string att.attname)).tostring E with
    | some value => (decodeField k B tuple value).map some
    | none => pure none

/-- The slot after the rounds of `iterateColumns`, without the Lua calls. -/
def fillColumns (k : PgConsts) (B : Backend) (E : LuaEngine) (h : LuaHeap) (r : Nat) :
    List FormData_pg_attribute → Nat → TupleTableSlot → Except Failure TupleTableSlot
  | [], _, slot => pure slot
  | att :: rest, i, slot =>
    match columnValue k B E h r att with
    | Except.error e => Except.error e
    | Except.ok none =>
      fillColumns k B E h r rest (i + 1) { slot with tts_isnull := slot.tts_isnull.set i true }
    | Except.ok (some datum) =>
      fillColumns k B E h r rest (i + 1)
        { slot with tts_isnull := (slot.tts_isnull.set i true).set i false,
                    tts_values := slot.tts_values.set i datum }

/-- The slot `luaIterateForeignScan` starts from: all values zero, all columns NULL, empty. -/
def clearedSlot (slot : TupleTableSlot) : TupleTableSlot :=
  { tts_isempty := true, tts_tupleDescriptor := slot.tts_tupleDescriptor,
    tts_values := List.replicate slot.tts_tupleDescriptor.natts (Datum.word 0),
    tts_isnull := List.replicate slot.tts_tupleDescriptor.natts true }

/-! ## Vocabulary of the statements -/

/-- The restriction passes the tests of the loop body: an entry is made for it. -/
def accepts (k : PgConsts) (rinfo : RestrictInfo) : Bool := (clauseArgs k rinfo).isSome

/-- The number of entries made for a list of restrictions. -/
def acceptedCount (k : PgConsts) (rs : List RestrictInfo) : Nat := (rs.filter (accepts k)).length

/-- The entry of the restriction can be built: the column exists and the literal has a text. -/
def renders (k : PgConsts) (B : Backend) (desc : TupleDesc) (rinfo : RestrictInfo) : Bool :=
  match conditionOf k B desc rinfo with
  | some (Except.error _) => false
  | _ => true

/-- An operator the translator has a name for: in the set of `is_eq`, `is_lt`, `is_gt` or
`is_like`. -/
def recognizedOperator (k : PgConsts) (opno : Oid) : Bool :=
  is_eq k opno || is_lt k opno || is_gt || is_like k opno

/-- The shape `column OP literal` of the spec: not an OR clause, an operator expression with
two arguments, one a column reference and the other a literal constant, a recognized operator
and a literal of a supported type. -/
def ColumnOpLiteral (k : PgConsts) (rinfo : RestrictInfo) : Bool :=
  rinfo.orclause.isNone &&
  match rinfo.clause with
  | Node.OpExpr opno [Node.Var _, Node.Const consttype _] =>
    recognizedOperator k opno && supportedType k consttype
  | Node.OpExpr opno [Node.Const consttype _, Node.Var _] =>
    recognizedOperator k opno && supportedType k consttype
  | _ => false

/-- The Lua state a run of `luaGetForeignPlan` hands to the plan node, if it returns. -/
def planLua (r : Except Failure (RelOptInfo × ForeignScan)) : Option lua_State :=
  match r with
  | Except.ok p => some p.2.fdw_private
  | Except.error _ => none

/-- The chunk or call did not return: it raised an error. -/
def CallOutcome.failed : CallOutcome → Bool
  | CallOutcome.returned _ _ => false
  | CallOutcome.raised _ _ => true
  | CallOutcome.ereported _ => true

/-- The state after the script file was loaded into `base`, if there is none or it loaded. -/
def scriptLoaded (Lib : LuaLib) (base : lua_State) : Option String → Option lua_State
  | none => some base
  | some filename =>
    match Lib.dofile filename base.heap with
    | CallOutcome.returned results heap => some { heap := heap, stack := results.reverse ++ base.stack }
    | _ => none

/-- The heap after the optional callback `name` ran on the state `L`: the one the function
left if the global is a function and it returned, else the heap of `L`. -/
def heapAfter (E : LuaEngine) (L : lua_State) (name : String) : LuaHeap :=
  match L.heap.globals name with
  | LuaValue.function f =>
    match E.call f [] L.heap with
    | CallOutcome.returned _ heap => heap
    | _ => L.heap
  | _ => L.heap

/-- The callback `name` of the state `L`, if it is a function, returns when called. -/
def callbackReturns (E : LuaEngine) (L : lua_State) (name : String) : Prop :=
  ∀ f, L.heap.globals name = LuaValue.function f → (E.call f [] L.heap).failed = false

/-- The names of the callbacks of the modify functions. -/
def modifyHooks : List String :=
  ["BeginForeignModify", "ExecForeignInsert", "ExecForeignUpdate", "ExecForeignDelete",
   "EndForeignModify"]

/-- The heap with the global `name` set to `v`. -/
def LuaHeap.setGlobal (h : LuaHeap) (name : String) (v : LuaValue) : LuaHeap :=
  { h with globals := fun x => if x = name then v else h.globals x }

/-- The name of the callback of a call of the executor. -/
def ModifyCall.hook : ModifyCall → String
  | ModifyCall.insert => "ExecForeignInsert"
  | ModifyCall.update => "ExecForeignUpdate"
  | ModifyCall.delete => "ExecForeignDelete"

/-- The type name `luaGetForeignRelSize` publishes for a column of type `id`. -/
def columnTypeName (k : PgConsts) (id : Oid) : String :=
  if id = k.INT4OID ∨ id = k.INT8OID then "integer" else "text"

/-- The table of columns after the entries of the attributes were added to `t`, in order. -/
def columnsTable (k : PgConsts) : List FormData_pg_attribute → LuaTable → LuaTable
  | [], t => t
  | att :: rest, t =>
    columnsTable k rest
      (t.set (LuaValue.string att.attname) (LuaValue.string (columnTypeName k att.atttypid)))

/-- The second value a function returned, nil when it returned fewer: what `lua_pcall` with
two results leaves on top of the stack. -/
def secondResult (results : List LuaValue) : LuaValue := (results.drop 1).headD LuaValue.nil

/-- The names of the four estimate callbacks. -/
def estimateHooks : List String :=
  ["EstimateRowCount", "EstimateRowWidth", "EstimateStartupCost", "EstimateTotalCost"]

/-- The values `script` and `inject` that `luaGetForeignRelSize` reads from the options. -/
def tableScripts (table : ForeignTable) : Option String × Option String :=
  table.options.foldl optionStep (none, none)

/-- The state `luaGetForeignRelSize` has built when it turns to the callbacks: in the state
`L` that `lua_start` returned, whose global `fdw` is the table `rf`, the entries `table` and
`columns` of `fdw` are set, `columns` being a new table with one entry per attribute. -/
def schemaPublished (k : PgConsts) (L : lua_State) (rf : Nat) (relname : String)
    (desc : TupleDesc) : lua_State :=
  let h1 := L.heap.setTable rf
    ((L.heap.tables rf).set (LuaValue.string "table") (LuaValue.string relname))
  let h2 : LuaHeap := { (h1.setTable L.heap.ntables LuaTable.empty) with ntables := L.heap.ntables + 1 }
  let h3 := h2.setTable L.heap.ntables (columnsTable k desc.attrs (h2.tables L.heap.ntables))
  let h4 := h3.setTable rf
    ((h3.tables rf).set (LuaValue.string "columns") (LuaValue.table L.heap.ntables))
  { heap := h4, stack := L.stack }

/-- The global `name` of the state is not a function: it is undefined, or a value of another
type. -/
def notFunction (L : lua_State) (name : String) : Prop :=
  ∀ f, L.heap.globals name ≠ LuaValue.function f

/-- The path of an outcome of planning, none when planning failed. -/
def pathOf (r : Except Failure (RelOptInfo × ForeignPath)) : Option ForeignPath :=
  match r with
  | Except.ok out => some out.2
  | Except.error _ => none

/-- What an operation reports when its callback ended with this outcome: for a Lua error the
text `lua_tostring` gives for the error value, for a report through `fdw.ereport` that
report; nothing when the callback returned. -/
def callbackFailure (E : LuaEngine) : CallOutcome → Option Failure
  | CallOutcome.returned _ _ => none
  | CallOutcome.raised err _ => some (Failure.lua_error (err.tostring E))
  | CallOutcome.ereported message => some (Failure.ereport message)

/-! ## Concrete inputs -/

/-- The values of the catalog constants in PostgreSQL 9.5 and 9.6. -/
def pg : PgConsts :=
  { InvalidOid := 0, TEXTOID := 25, INT4OID := 23, INT8OID := 20, TIMESTAMPOID := 1114,
    Int4EqualOperator := 96, TextEqualOperator := 98, OID_TEXT_LIKE_OP := 1209,
    Int4LessOperator := 97, Int8LessOperator := 412 }

/-- A Lua state right after start: one table, the global `fdw`. -/
def freshState : lua_State :=
  { heap := { tables := fun _ => LuaTable.empty, ntables := 1,
              globals := fun name => if name = "fdw" then LuaValue.table 0 else LuaValue.nil },
    stack := [] }

/-- A backend without types and without timestamps. -/
def noBackend : Backend :=
  { SearchSysCache1 := fun _ => none,
    OidFunctionCall3 := fun _ _ _ _ => Except.error "no such function",
    timestamp_out := fun _ => Except.error "timestamp out of range" }

/-- The columns age (integer) and name (text). -/
def ageName : TupleDesc :=
  { attrs := [{ attname := "age", atttypid := 23 }, { attname := "name", atttypid := 25 }] }

/-- The restriction `age = 30`. -/
def ageEq30 : RestrictInfo :=
  { clause := Node.OpExpr 96 [Node.Var 1, Node.Const 23 (Int32GetDatum 30)], orclause := none }

/-- The restriction `name LIKE 'A%'`. -/
def nameLikeA : RestrictInfo :=
  { clause := Node.OpExpr 1209 [Node.Var 2, Node.Const 25 (Datum.text "A%")], orclause := none }

/-- The operator `>` on integers (`int4gt`); the wrapper does not name it. -/
def int4gt : Oid := 521

/-- The restriction `age > 10 OR age < 5`. -/
def ageOr : RestrictInfo :=
  let gt := Node.OpExpr int4gt [Node.Var 1, Node.Const 23 (Int32GetDatum 10)]
  let lt := Node.OpExpr 97 [Node.Var 1, Node.Const 23 (Int32GetDatum 5)]
  { clause := Node.BoolExpr [gt, lt], orclause := some (Node.BoolExpr [gt, lt]) }

/-- The restriction `age < 5`, with the operator `Int4LessOperator`. -/
def ageLt5 : RestrictInfo :=
  { clause := Node.OpExpr 97 [Node.Var 1, Node.Const 23 (Int32GetDatum 5)], orclause := none }

/-- The restriction `age > 5`, with the operator `int4gt`. -/
def ageGt5 : RestrictInfo :=
  { clause := Node.OpExpr int4gt [Node.Var 1, Node.Const 23 (Int32GetDatum 5)], orclause := none }

/-- The restriction `30 = age`: the literal on the left. -/
def thirtyEqAge : RestrictInfo :=
  { clause := Node.OpExpr 96 [Node.Const 23 (Int32GetDatum 30), Node.Var 1], orclause := none }

/-- A backend with PostgreSQL's constants whose timestamp codec rejects everything. -/
def pgBackend : Backend :=
  stdBackend pg (fun _ => Except.error "timestamp out of range")
    (fun _ => Except.error "invalid input syntax for type timestamp")

/-- The columns id (integer) and name (text). -/
def idName : TupleDesc :=
  { attrs := [{ attname := "id", atttypid := 23 }, { attname := "name", atttypid := 25 }] }

/-- A script engine whose function 0 returns the table 1, whose function 1 returns nothing,
and which prints numbers in decimal. -/
def demoEngine : LuaEngine :=
  { call := fun f _ h =>
      if f = 0 then CallOutcome.returned [LuaValue.table 1] h
      else if f = 1 then CallOutcome.returned [] h
      else CallOutcome.raised (LuaValue.string "attempt to call a nil value") h,
    number_tostring := fun n => String.mk (fmt_d n) }

/-- A heap in which `ScanIterate` is the given value and table 1 has the given `id` and the
name "Alice". -/
def demoHeap (scanIterate id : LuaValue) : LuaHeap :=
  { tables := fun r =>
      if r = 1 then fun key =>
        if key = LuaValue.string "id" then id
        else if key = LuaValue.string "name" then LuaValue.string "Alice"
        else LuaValue.nil
      else LuaTable.empty,
    ntables := 2,
    globals := fun name =>
      if name = "fdw" then LuaValue.table 0
      else if name = "ScanIterate" then scanIterate
      else LuaValue.nil }

/-- A scan node over the columns id and name, after begin, with the given heap. -/
def demoNode (h : LuaHeap) : ForeignScanState :=
  { ss_ScanTupleSlot := { tts_isempty := true, tts_tupleDescriptor := idName,
                          tts_values := [Datum.word 0, Datum.word 0],
                          tts_isnull := [true, true] },
    fdw_state := some { lua := { heap := h, stack := [] } } }

/-- The row a call of `luaIterateForeignScan` hands back: none when the call fails, some none
when the slot is empty. -/
def returnedRow (r : Except Failure (ForeignScanState × TupleTableSlot)) :
    Option (Option (List (Option Datum))) :=
  match r with
  | Except.ok out => some out.2.row
  | Except.error _ => none

/-- An output function that gives the text a datum points to. -/
def plainOut : Datum → Except String String
  | Datum.text s => Except.ok s
  | Datum.word _ => Except.error "not a text"

/-- An input function that takes the text as it is. -/
def plainIn (s : String) : Except String Datum := Except.ok (Datum.text s)

/-- The planner's state for a table whose Lua state is `L`. -/
def planning (L : lua_State) : RelOptInfo :=
  { rows := 0, width := 0, fdw_private := some { lua := L } }

/-- A scan node before `luaBeginForeignScan`: the slot for the columns id and name, and no
scan state. -/
def newNode : ForeignScanState :=
  { ss_ScanTupleSlot := (demoNode freshState.heap).ss_ScanTupleSlot, fdw_state := none }

/-- The levels of PostgreSQL 9.6. -/
def pgLevels : ElogLevels :=
  { DEBUG5 := 10, DEBUG4 := 11, DEBUG3 := 12, DEBUG2 := 13, DEBUG1 := 14, LOG := 15, INFO := 17,
    NOTICE := 18, WARNING := 19, ERROR := 20, FATAL := 21, PANIC := 22 }

/-- A library with an empty standard library and three script files: "plain.lua" defines
nothing, "single.lua" defines both cost callbacks as function 2, "pair.lua" defines
`EstimateStartupCost` as function 3; any other file cannot be opened.  Inline texts are
run as chunks that define nothing. -/
def demoLib : LuaLib :=
  { openlibs := { tables := fun _ => LuaTable.empty, ntables := 0, globals := fun _ => LuaValue.nil },
    lua_ereport := 100,
    dofile := fun filename h =>
      if filename = "plain.lua" then CallOutcome.returned [] h
      else if filename = "single.lua" then
        CallOutcome.returned []
          ((h.setGlobal "EstimateStartupCost" (LuaValue.function 2)).setGlobal
            "EstimateTotalCost" (LuaValue.function 2))
      else if filename = "pair.lua" then
        CallOutcome.returned [] (h.setGlobal "EstimateStartupCost" (LuaValue.function 3))
      else CallOutcome.raised (LuaValue.string ("cannot open " ++ filename)) h,
    dostring := fun _ h => CallOutcome.returned [] h,
    str2number := fun _ => none }

/-- A script engine whose function 2 returns the single number 7, whose function 3 returns
the two numbers 0 and 5, and whose other functions raise an error. -/
def costEngine : LuaEngine :=
  { call := fun f _ h =>
      if f = 2 then CallOutcome.returned [LuaValue.number 7] h
      else if f = 3 then CallOutcome.returned [LuaValue.number 0, LuaValue.number 5] h
      else CallOutcome.raised (LuaValue.string "attempt to call a nil value") h,
    number_tostring := fun n => String.mk (fmt_d n) }

/-- A result node without modify state. -/
def newResultRel : ResultRelInfo := { ri_FdwState := none }

/-- A planner's information with 100 rows and width 32 and no private state. -/
def freshRel : RelOptInfo := { rows := 100, width := 32, fdw_private := none }

/-- The foreign table with the option script set to the file. -/
def scripted (filename : String) : ForeignTable :=
  { options := [{ defname := "script", arg := filename }] }

/-- A Session in which the two cost callbacks are the given values. -/
def costState (startup total : LuaValue) : lua_State :=
  { heap := (freshState.heap.setGlobal "EstimateStartupCost" startup).setGlobal
      "EstimateTotalCost" total,
    stack := [] }

/-! ## Theorems -/

/-! ### The translator: luaGetForeignPlan -/

@[simp]
theorem index2adr_neg1 (L : lua_State) : index2adr L (-1) = L.stack[0]? := rfl
@[simp]
theorem index2adr_neg2 (L : lua_State) : index2adr L (-2) = L.stack[1]? := rfl
@[simp]
theorem index2adr_neg3 (L : lua_State) : index2adr L (-3) = L.stack[2]? := rfl

theorem pushClause_eq (k : PgConsts) (B : Backend) (desc : TupleDesc) (L : lua_State)
    (rc : Nat) (S : List LuaValue) (clause : Int) (opno : Oid) (attno : Int) (id : Oid)
    (cv : Datum) (hs : L.stack = LuaValue.table rc :: S) (hrc : rc ≠ L.heap.ntables) :
    pushClause k B desc L clause opno attno id cv =
      (entryOf k B desc (opno, attno, id, cv)).map (fun c => (emitState L rc clause c, clause + 1)) := by
  unfold pushClause entryOf
  cases hatt : desc.attr attno with
  | error e => rfl
  | ok att =>
    cases hc : constantString k B id cv with
    | error e =>
      simp [bind, Except.bind, Except.map, lua_pushnumber, lua_createtable, lua_pushstring, lua_settable,
        lua_State.push, LuaHeap.setTable, hs, hc]
    | ok cs =>
      simp [bind, Except.bind, Except.map, pure, Except.pure, lua_pushnumber, lua_createtable, lua_pushstring, lua_settable,
        lua_State.push, LuaHeap.setTable, hs, hc, emitState]
      funext x
      by_cases h1 : x = rc <;> by_cases h2 : x = L.heap.ntables <;> simp [h1, h2, hrc, Condition.toTable]

theorem clauseStep_eq (k : PgConsts) (B : Backend) (desc : TupleDesc) (L : lua_State)
    (rc : Nat) (S : List LuaValue) (clause : Int) (r : RestrictInfo)
    (hs : L.stack = LuaValue.table rc :: S) (hrc : rc ≠ L.heap.ntables) :
    clauseStep k B desc (L, clause) r =
      match conditionOf k B desc r with
      | none => Except.ok (L, clause)
      | some e => e.map (fun c => (emitState L rc clause c, clause + 1)) := by
  unfold clauseStep conditionOf
  cases h : clauseArgs k r with
  | none => rfl
  | some a =>
    obtain ⟨opno, attno, id, cv⟩ := a
    simp only [Option.map_some']
    exact pushClause_eq k B desc L rc S clause opno attno id cv hs hrc

theorem foldlM_clauseStep (k : PgConsts) (B : Backend) (desc : TupleDesc) (rc : Nat)
    (S : List LuaValue) (rs : List RestrictInfo) :
    ∀ (L : lua_State) (clause : Int), L.stack = LuaValue.table rc :: S → rc < L.heap.ntables →
      rs.foldlM (clauseStep k B desc) (L, clause) =
        (translate k B desc rs).map (emitAll L rc clause) := by
  induction rs with
  | nil => intro L clause _ _; rfl
  | cons r rs ih =>
    intro L clause hs hrc
    rw [List.foldlM_cons, clauseStep_eq k B desc L rc S clause r hs (Nat.ne_of_lt hrc)]
    unfold translate
    cases hc : conditionOf k B desc r with
    | none => simpa [bind, Except.bind] using ih L clause hs hrc
    | some e =>
      cases e with
      | error e => rfl
      | ok c =>
        have h1 : (emitState L rc clause c).stack = LuaValue.table rc :: S := hs
        have h2 : rc < (emitState L rc clause c).heap.ntables := Nat.lt_succ_of_lt hrc
        have := ih (emitState L rc clause c) (clause + 1) h1 h2
        simp only [Except.map, bind, Except.bind] at this ⊢
        rw [this]
        cases translate k B desc rs <;> rfl

theorem emitAll_post (rc : Nat) (cs : List Condition) :
    ∀ (L : lua_State) (clause : Int), rc < L.heap.ntables →
      EmitPost L rc clause cs (emitAll L rc clause cs) := by
  induction cs with
  | nil =>
    intro L clause _
    exact ⟨rfl, rfl, rfl, by simp [emitAll], fun j hj => absurd hj (Nat.not_lt_zero j),
      fun _ _ => rfl, fun j hj => absurd hj (Nat.not_lt_zero j), fun _ _ _ => rfl⟩
  | cons c cs ih =>
    intro L clause hrc
    have hne : L.heap.ntables ≠ rc := Nat.ne_of_gt hrc
    have P := ih (emitState L rc clause c) (clause + 1) (Nat.lt_succ_of_lt hrc)
    have hn1 : (emitState L rc clause c).heap.ntables = L.heap.ntables + 1 := rfl
    show EmitPost L rc clause (c :: cs) (emitAll (emitState L rc clause c) rc (clause + 1) cs)
    refine ⟨P.stack_eq, P.globals_eq, ?_, ?_, ?_, ?_, ?_, ?_⟩
    · rw [P.ntables_eq, hn1, List.length_cons]; omega
    · rw [P.counter_eq, List.length_cons]; push_cast; ring
    · intro j hj
      cases j with
      | zero =>
        rw [P.key_old]
        · simp [emitState, LuaTable.set]
        · intro j _ h
          simp only [LuaValue.number.injEq] at h
          omega
      | succ j =>
        have := P.key_new j (by simpa using hj)
        rw [hn1] at this
        have e1 : clause + ((j + 1 : Nat) : Int) = clause + 1 + (j : Int) := by push_cast; ring
        rw [e1, this]; congr 1; omega
    · intro key hkey
      rw [P.key_old]
      · have h0 := hkey 0 (by simp)
        simp only [Nat.cast_zero, add_zero] at h0
        simp [emitState, LuaTable.set, h0]
      · intro j hj
        have := hkey (j + 1) (by simpa using hj)
        have e1 : clause + ((j + 1 : Nat) : Int) = clause + 1 + (j : Int) := by push_cast; ring
        rwa [e1] at this
    · intro j hj
      cases j with
      | zero =>
        rw [Nat.add_zero, P.frame _ (by rw [hn1]; omega) hne]
        simp [emitState, hne]
      | succ j =>
        have := P.entry j (by simpa using hj)
        rw [hn1] at this
        have e1 : L.heap.ntables + (j + 1) = L.heap.ntables + 1 + j := by omega
        rw [e1, this]; rfl
    · intro x hx hxr
      rw [P.frame x (by rw [hn1]; omega) hxr]
      simp [emitState, hxr, Nat.ne_of_lt hx]

theorem luaGetForeignPlan_eq (k : PgConsts) (B : Backend) (baserel : RelOptInfo)
    (desc : TupleDesc) (rs : List RestrictInfo) (ps : LuaFdwPlanState) (rf : Nat)
    (hp : baserel.fdw_private = some ps)
    (hfdw : ps.lua.heap.globals "fdw" = LuaValue.table rf) :
    luaGetForeignPlan k B baserel desc rs =
      (translate k B desc rs).map (fun cs =>
        ({ baserel with fdw_private := none }, { fdw_private := published ps.lua rf cs })) := by
  unfold luaGetForeignPlan
  rw [hp]
  simp only []
  have hs : (lua_createtable (lua_pushstring (lua_getglobal ps.lua "fdw") "clauses")).stack =
      LuaValue.table ps.lua.heap.ntables ::
        (LuaValue.string "clauses" :: LuaValue.table rf :: ps.lua.stack) := by
    simp [lua_createtable, lua_pushstring, lua_getglobal, lua_State.push, hfdw]
  have hn : ps.lua.heap.ntables <
      (lua_createtable (lua_pushstring (lua_getglobal ps.lua "fdw") "clauses")).heap.ntables :=
    Nat.lt_succ_self _
  rw [foldlM_clauseStep k B desc _ _ rs _ 1 hs hn]
  cases translate k B desc rs with
  | error e => rfl
  | ok cs =>
    have P := emitAll_post ps.lua.heap.ntables cs _ 1 hn
    have hst := P.stack_eq
    rw [hs] at hst
    simp [Except.map, bind, Except.bind, pure, Except.pure, lua_settable, hst, lua_pop, published]

theorem readCondition_toTable (M : lua_State) (r : Nat) (c : Condition)
    (h : M.heap.tables r = c.toTable) : readCondition M (LuaValue.table r) = some c := by
  simp [readCondition, h, Condition.toTable, LuaTable.set, LuaTable.empty]

theorem published_post (lua : lua_State) (rf : Nat) (cs : List Condition)
    (hrf : rf < lua.heap.ntables) : PlanPost lua rf cs (published lua rf cs) := by
  have hn : lua.heap.ntables <
      (lua_createtable (lua_pushstring (lua_getglobal lua "fdw") "clauses")).heap.ntables :=
    Nat.lt_succ_self _
  have P := emitAll_post lua.heap.ntables cs _ 1 hn
  have hn1 : (lua_createtable (lua_pushstring (lua_getglobal lua "fdw") "clauses")).heap.ntables
      = lua.heap.ntables + 1 := rfl
  have hne : lua.heap.ntables ≠ rf := Nat.ne_of_gt hrf
  refine ⟨rfl, ?_, ?_, ?_, ?_, ?_, ?_, ?_⟩
  · exact P.globals_eq
  · show (emitAll _ _ _ cs).1.heap.ntables = _
    rw [P.ntables_eq, hn1]
  · have := P.frame rf (by rw [hn1]; omega) hne.symm
    simp only [published, LuaHeap.setTable, if_true]
    rw [this]
    simp [lua_createtable, lua_pushstring, lua_getglobal, lua_State.push, hne.symm,
      LuaHeap.setTable]
  · intro j hj
    have := P.key_new j hj
    rw [hn1] at this
    simp [published, LuaHeap.setTable, hne, this]
  · intro key hkey
    have := P.key_old key hkey
    simp only [published, LuaHeap.setTable, if_neg hne]
    rw [this]
    simp [lua_createtable, lua_pushstring, lua_getglobal, lua_State.push, LuaTable.empty,
      LuaHeap.setTable]
  · intro j hj
    have := P.entry j hj
    rw [hn1] at this
    have h2 : lua.heap.ntables + 1 + j ≠ rf := by omega
    simp [published, LuaHeap.setTable, h2, this]
  · intro x hx hxr
    have := P.frame x (by rw [hn1]; omega) (Nat.ne_of_lt hx)
    simp only [published, LuaHeap.setTable, if_neg hxr]
    rw [this]
    simp [lua_createtable, lua_pushstring, lua_getglobal, lua_State.push, Nat.ne_of_lt hx,
      LuaHeap.setTable]

theorem PlanPost.fdwClauses_eq {lua : lua_State} {rf : Nat} {cs : List Condition} {M : lua_State}
    (P : PlanPost lua rf cs M) (hfdw : lua.heap.globals "fdw" = LuaValue.table rf) :
    fdwClauses M = some (M.heap.tables lua.heap.ntables) := by
  simp [fdwClauses, P.globals_eq, hfdw, P.fdw_eq, LuaTable.set]

theorem PlanPost.published_get {lua : lua_State} {rf : Nat} {cs : List Condition} {M : lua_State}
    (P : PlanPost lua rf cs M) (hfdw : lua.heap.globals "fdw" = LuaValue.table rf)
    (j : Nat) (h : j < cs.length) : publishedCondition M (1 + j) = some (cs.get ⟨j, h⟩) := by
  unfold publishedCondition
  rw [P.fdwClauses_eq hfdw]
  simp only [P.key_new j h]
  exact readCondition_toTable M _ _ (P.entry j h)

theorem PlanPost.key_iff {lua : lua_State} {rf : Nat} {cs : List Condition} {M : lua_State}
    (P : PlanPost lua rf cs M) (key : LuaValue) :
    M.heap.tables lua.heap.ntables key ≠ LuaValue.nil ↔
      ∃ i : Int, 1 ≤ i ∧ i ≤ cs.length ∧ key = LuaValue.number i := by
  constructor
  · intro h
    by_contra hcon
    apply h
    apply P.key_old
    intro j hj hk
    exact hcon ⟨1 + j, by omega, by omega, hk⟩
  · rintro ⟨i, h1, h2, rfl⟩
    have := P.key_new (i - 1).toNat (by omega)
    have e : (1 : Int) + ((i - 1).toNat : Int) = i := by omega
    rw [e] at this
    rw [this]
    simp

theorem PlanPost.published_none {lua : lua_State} {rf : Nat} {cs : List Condition} {M : lua_State}
    (P : PlanPost lua rf cs M) (hfdw : lua.heap.globals "fdw" = LuaValue.table rf)
    (i : Int) (h : i < 1 ∨ (cs.length : Int) < i) : publishedCondition M i = none := by
  unfold publishedCondition
  rw [P.fdwClauses_eq hfdw]
  have : M.heap.tables lua.heap.ntables (LuaValue.number i) = LuaValue.nil := by
    apply P.key_old
    intro j hj hk
    simp only [LuaValue.number.injEq] at hk
    omega
  simp [this, readCondition]

theorem clauseArgs_none_of_not_shape (k : PgConsts) (r : RestrictInfo)
    (h : ColumnOpLiteral k r = false) : clauseArgs k r = none := by
  obtain ⟨clause, orclause⟩ := r
  unfold ColumnOpLiteral at h
  unfold clauseArgs
  cases horc : orclause.isNone
  · simp [horc]
  · simp only [horc, Bool.true_and, if_true] at h ⊢
    cases clause with
    | OpExpr opno args =>
      match args, h with
      | [], _ => rfl
      | [_], _ => rfl
      | _ :: _ :: _ :: _, _ => simp
      | [a, b], h =>
        cases a <;> cases b <;> simp_all [recognizedOperator]
        tauto
    | _ => rfl

theorem clauseStep_skip (k : PgConsts) (B : Backend) (desc : TupleDesc) (st : lua_State × Int)
    (r : RestrictInfo) (h : clauseArgs k r = none) : clauseStep k B desc st r = Except.ok st := by
  unfold clauseStep
  rw [h]
  rfl

theorem foldlM_filter (k : PgConsts) (B : Backend) (desc : TupleDesc) (p : RestrictInfo → Bool)
    (hp : ∀ r, p r = false → clauseArgs k r = none) (rs : List RestrictInfo) :
    ∀ st : lua_State × Int, rs.foldlM (clauseStep k B desc) st =
      (rs.filter p).foldlM (clauseStep k B desc) st := by
  induction rs with
  | nil => intro st; rfl
  | cons r rs ih =>
    intro st
    cases hr : p r
    · rw [List.filter_cons_of_neg (by simp [hr]), List.foldlM_cons,
        clauseStep_skip k B desc st r (hp r hr)]
      exact ih st
    · rw [List.filter_cons_of_pos (by simp [hr]), List.foldlM_cons, List.foldlM_cons]
      cases clauseStep k B desc st r with
      | error e => rfl
      | ok st2 => exact ih st2

theorem luaGetForeignPlan_filter (k : PgConsts) (B : Backend) (baserel : RelOptInfo)
    (desc : TupleDesc) (p : RestrictInfo → Bool)
    (hp : ∀ r, p r = false → clauseArgs k r = none) (rs : List RestrictInfo) :
    luaGetForeignPlan k B baserel desc rs = luaGetForeignPlan k B baserel desc (rs.filter p) := by
  unfold luaGetForeignPlan
  cases baserel.fdw_private with
  | none => rfl
  | some ps =>
    simp only []
    rw [foldlM_filter k B desc p hp rs]

theorem conditionOf_isSome (k : PgConsts) (B : Backend) (desc : TupleDesc) (r : RestrictInfo) :
    (conditionOf k B desc r).isSome = accepts k r := by
  simp [conditionOf, accepts]

theorem translate_filterMap (k : PgConsts) (B : Backend) (desc : TupleDesc)
    (rs : List RestrictInfo) :
    ∀ cs, translate k B desc rs = Except.ok cs →
      rs.filterMap (conditionOf k B desc) = cs.map Except.ok := by
  induction rs with
  | nil =>
    intro cs h
    cases h
    rfl
  | cons r rs ih =>
    intro cs h
    unfold translate at h
    cases hc : conditionOf k B desc r with
    | none =>
      rw [hc] at h
      rw [List.filterMap_cons_none hc]
      exact ih cs h
    | some e =>
      rw [hc] at h
      cases e with
      | error e => cases h
      | ok c =>
        rw [List.filterMap_cons_some hc]
        cases ht : translate k B desc rs with
        | error e => rw [ht] at h; cases h
        | ok cs2 =>
          rw [ht] at h
          cases h
          rw [ih cs2 ht]
          rfl

theorem translate_length (k : PgConsts) (B : Backend) (desc : TupleDesc)
    (rs : List RestrictInfo) (cs : List Condition) (h : translate k B desc rs = Except.ok cs) :
    cs.length = acceptedCount k rs := by
  have h1 := congrArg List.length (translate_filterMap k B desc rs cs h)
  rw [List.length_map] at h1
  rw [← h1, acceptedCount]
  clear h h1
  induction rs with
  | nil => rfl
  | cons r rs ih =>
    have hs := conditionOf_isSome k B desc r
    cases hc : conditionOf k B desc r with
    | none =>
      rw [hc] at hs
      rw [List.filterMap_cons_none hc, List.filter_cons_of_neg (by simp [← hs]), ih]
    | some e =>
      rw [hc] at hs
      rw [List.filterMap_cons_some hc, List.filter_cons_of_pos (by simp [← hs]),
        List.length_cons, List.length_cons, ih]

theorem translate_of_renders (k : PgConsts) (B : Backend) (desc : TupleDesc)
    (rs : List RestrictInfo) (h : ∀ r ∈ rs, renders k B desc r = true) :
    ∃ cs, translate k B desc rs = Except.ok cs := by
  induction rs with
  | nil => exact ⟨[], rfl⟩
  | cons r rs ih =>
    obtain ⟨cs, hcs⟩ := ih (fun r2 h2 => h r2 (List.mem_cons_of_mem r h2))
    have hr := h r (List.mem_cons_self r rs)
    unfold translate
    unfold renders at hr
    cases hc : conditionOf k B desc r with
    | none => exact ⟨cs, hcs⟩
    | some e =>
      cases e with
      | error e => rw [hc] at hr; cases hr
      | ok c => exact ⟨c :: cs, by simp [hcs, Except.map]⟩

theorem translate_append (k : PgConsts) (B : Backend) (desc : TupleDesc)
    (pre post : List RestrictInfo) (r : RestrictInfo) (c : Condition)
    (hc : conditionOf k B desc r = some (Except.ok c)) :
    ∀ cs, translate k B desc (pre ++ r :: post) = Except.ok cs →
      ∃ cs1 cs2, translate k B desc pre = Except.ok cs1 ∧ translate k B desc post = Except.ok cs2 ∧
        cs = cs1 ++ c :: cs2 := by
  induction pre with
  | nil =>
    intro cs h
    rw [List.nil_append] at h
    unfold translate at h
    rw [hc] at h
    cases ht : translate k B desc post with
    | error e => rw [ht] at h; cases h
    | ok cs2 =>
      rw [ht] at h
      cases h
      exact ⟨[], cs2, rfl, rfl, rfl⟩
  | cons p pre ih =>
    intro cs h
    rw [List.cons_append] at h
    unfold translate at h
    cases hp : conditionOf k B desc p with
    | none =>
      rw [hp] at h
      obtain ⟨cs1, cs2, h1, h2, h3⟩ := ih cs h
      refine ⟨cs1, cs2, ?_, h2, h3⟩
      unfold translate
      rw [hp]
      exact h1
    | some e =>
      rw [hp] at h
      cases e with
      | error e => cases h
      | ok cp =>
        cases ht : translate k B desc (pre ++ r :: post) with
        | error e => rw [ht] at h; cases h
        | ok cs0 =>
          rw [ht] at h
          cases h
          obtain ⟨cs1, cs2, h1, h2, h3⟩ := ih cs0 ht
          refine ⟨cp :: cs1, cs2, ?_, h2, by rw [h3]; rfl⟩
          unfold translate
          rw [hp, h1]
          rfl

theorem luaGetForeignPlan_ok (k : PgConsts) (B : Backend) (baserel : RelOptInfo)
    (desc : TupleDesc) (rs : List RestrictInfo) (ps : LuaFdwPlanState) (rf : Nat)
    (cs : List Condition) (hp : baserel.fdw_private = some ps)
    (hfdw : ps.lua.heap.globals "fdw" = LuaValue.table rf)
    (ht : translate k B desc rs = Except.ok cs) :
    luaGetForeignPlan k B baserel desc rs =
      Except.ok ({ baserel with fdw_private := none }, { fdw_private := published ps.lua rf cs }) := by
  rw [luaGetForeignPlan_eq k B baserel desc rs ps rf hp hfdw, ht]
  rfl

theorem luaGetForeignPlan_inv (k : PgConsts) (B : Backend) (baserel : RelOptInfo)
    (desc : TupleDesc) (rs : List RestrictInfo) (ps : LuaFdwPlanState) (rf : Nat)
    (out : RelOptInfo × ForeignScan) (hp : baserel.fdw_private = some ps)
    (hfdw : ps.lua.heap.globals "fdw" = LuaValue.table rf)
    (hrun : luaGetForeignPlan k B baserel desc rs = Except.ok out) :
    ∃ cs, translate k B desc rs = Except.ok cs ∧ out.2.fdw_private = published ps.lua rf cs ∧
      out.1 = { baserel with fdw_private := none } := by
  rw [luaGetForeignPlan_eq k B baserel desc rs ps rf hp hfdw] at hrun
  cases ht : translate k B desc rs with
  | error e => rw [ht] at hrun; cases hrun
  | ok cs =>
    rw [ht] at hrun
    cases hrun
    exact ⟨cs, rfl, rfl, rfl⟩

theorem accepts_shape (k : PgConsts) (r : RestrictInfo) (h : accepts k r = true) :
    ColumnOpLiteral k r = true := by
  cases hs : ColumnOpLiteral k r
  · have := clauseArgs_none_of_not_shape k r hs
    simp [accepts, this] at h
  · rfl

theorem published_origin (k : PgConsts) (B : Backend) (baserel : RelOptInfo)
    (desc : TupleDesc) (rs : List RestrictInfo) (ps : LuaFdwPlanState) (rf : Nat)
    (hp : baserel.fdw_private = some ps)
    (hfdw : ps.lua.heap.globals "fdw" = LuaValue.table rf) (hrf : rf < ps.lua.heap.ntables)
    (out : RelOptInfo × ForeignScan)
    (hrun : luaGetForeignPlan k B baserel desc rs = Except.ok out)
    (i : Int) (c : Condition) (hc : publishedCondition out.2.fdw_private i = some c) :
    ∃ r ∈ rs, accepts k r = true ∧ conditionOf k B desc r = some (Except.ok c) := by
  obtain ⟨cs, ht, hout, _⟩ := luaGetForeignPlan_inv k B baserel desc rs ps rf out hp hfdw hrun
  have P := published_post ps.lua rf cs hrf
  rw [hout] at hc
  by_cases hi : i < 1 ∨ (cs.length : Int) < i
  · rw [P.published_none hfdw i hi] at hc
    cases hc
  · have hj : (i - 1).toNat < cs.length := by omega
    have e : (1 : Int) + ((i - 1).toNat : Int) = i := by omega
    have hg := P.published_get hfdw (i - 1).toNat hj
    rw [e, hc] at hg
    have hmem : Except.ok c ∈ rs.filterMap (conditionOf k B desc) := by
      rw [translate_filterMap k B desc rs cs ht, List.mem_map]
      refine ⟨c, ?_, rfl⟩
      rw [Option.some.inj hg]
      exact List.get_mem cs _ _
    obtain ⟨r, hr, hcr⟩ := List.mem_filterMap.mp hmem
    refine ⟨r, hr, ?_, hcr⟩
    rw [← conditionOf_isSome k B desc r, hcr]
    rfl

theorem entry_in_context (k : PgConsts) (B : Backend) (baserel : RelOptInfo)
    (desc : TupleDesc) (pre post : List RestrictInfo) (r : RestrictInfo)
    (a : Oid × Int × Oid × Datum) (ps : LuaFdwPlanState) (rf : Nat)
    (hp : baserel.fdw_private = some ps)
    (hfdw : ps.lua.heap.globals "fdw" = LuaValue.table rf) (hrf : rf < ps.lua.heap.ntables)
    (hren : ∀ x ∈ pre ++ r :: post, renders k B desc x = true)
    (ha : clauseArgs k r = some a) :
    ∃ (out : RelOptInfo × ForeignScan) (c : Condition) (t : LuaTable),
      luaGetForeignPlan k B baserel desc (pre ++ r :: post) = Except.ok out ∧
      entryOf k B desc a = Except.ok c ∧
      publishedCondition out.2.fdw_private (acceptedCount k pre + 1) = some c ∧
      fdwClauses out.2.fdw_private = some t ∧
      ∀ key, t key ≠ LuaValue.nil ↔
        ∃ i : Int, 1 ≤ i ∧ i ≤ acceptedCount k pre + 1 + acceptedCount k post ∧
          key = LuaValue.number i := by
  obtain ⟨cs, ht⟩ := translate_of_renders k B desc _ hren
  have hco : conditionOf k B desc r = some (entryOf k B desc a) := by simp [conditionOf, ha]
  have hr := hren r (by simp)
  unfold renders at hr
  rw [hco] at hr
  cases he : entryOf k B desc a with
  | error e => rw [he] at hr; cases hr
  | ok c =>
    rw [he] at hco
    obtain ⟨cs1, cs2, h1, h2, h3⟩ := translate_append k B desc pre post r c hco cs ht
    have l1 := translate_length k B desc pre cs1 h1
    have l2 := translate_length k B desc post cs2 h2
    have P := published_post ps.lua rf cs hrf
    have hlen : cs.length = acceptedCount k pre + 1 + acceptedCount k post := by
      rw [h3, List.length_append, List.length_cons, l1, l2]; omega
    have hj : cs1.length < cs.length := by rw [h3, List.length_append, List.length_cons]; omega
    have hg := P.published_get hfdw cs1.length hj
    have hget : cs.get ⟨cs1.length, hj⟩ = c := by
      subst h3
      simp only [List.get_eq_getElem]
      rw [List.getElem_append_right (Nat.le_refl _)]
      simp
    rw [hget, l1, add_comm] at hg
    refine ⟨_, c, _, luaGetForeignPlan_ok k B baserel desc _ ps rf cs hp hfdw ht, rfl, hg,
      P.fdwClauses_eq hfdw, ?_⟩
    intro key
    rw [P.key_iff key, hlen]
    push_cast
    rfl

theorem digitChar_eq (d : Nat) (h : d < 10) : digitChar d = Nat.digitChar d := by
  interval_cases d <;> rfl

theorem natDigits_eq_toDigitsCore (fuel : Nat) :
    ∀ (n : Nat) (acc : List Char), natDigits fuel n acc = Nat.toDigitsCore 10 fuel n acc := by
  induction fuel with
  | zero => intro n acc; rfl
  | succ fuel ih =>
    intro n acc
    unfold natDigits Nat.toDigitsCore
    by_cases h : n < 10
    · have h0 : n / 10 = 0 := Nat.div_eq_of_lt h
      have h1 : n % 10 = n := Nat.mod_eq_of_lt h
      simp [h, h0, h1, digitChar_eq n h]
    · have h0 : n / 10 ≠ 0 := by omega
      simp [h, h0, ih, digitChar_eq (n % 10) (Nat.mod_lt n (by decide))]

theorem fmt_d_eq_toString (v : Int) : String.mk (fmt_d v) = toString v := by
  unfold fmt_d
  cases v with
  | ofNat m =>
    have h : ¬ (Int.ofNat m < 0) := by simp
    rw [if_neg h, natDigits_eq_toDigitsCore]
    rfl
  | negSucc m =>
    have h : Int.negSucc m < 0 := Int.negSucc_lt_zero m
    rw [if_pos h, natDigits_eq_toDigitsCore]
    rfl

theorem natDigits_length (k : Nat) :
    ∀ (fuel n : Nat) (acc : List Char), n < 10 ^ (k + 1) →
      (natDigits fuel n acc).length ≤ acc.length + (k + 1) := by
  induction k with
  | zero =>
    intro fuel n acc h
    cases fuel with
    | zero => simp [natDigits]
    | succ fuel =>
      have h' : n < 10 := by simpa using h
      simp [natDigits, h']
  | succ k ih =>
    intro fuel n acc h
    cases fuel with
    | zero => simp [natDigits]
    | succ fuel =>
      unfold natDigits
      by_cases h' : n < 10
      · simp [h']
      · rw [if_neg h']
        have : n / 10 < 10 ^ (k + 1) := by
          rw [Nat.div_lt_iff_lt_mul (by decide)]
          calc n < 10 ^ (k + 1 + 1) := h
            _ = 10 ^ (k + 1) * 10 := by ring
        have := ih fuel (n / 10) (digitChar (n % 10) :: acc) this
        simp only [List.length_cons] at this
        omega

theorem fmt_d_length (v : Int) (h1 : -2 ^ 63 ≤ v) (h2 : v < 2 ^ 63) : (fmt_d v).length ≤ 20 := by
  have hn : v.natAbs < 10 ^ (18 + 1) := by
    have : v.natAbs ≤ 2 ^ 63 := by omega
    calc v.natAbs ≤ 2 ^ 63 := this
      _ < 10 ^ (18 + 1) := by norm_num
  have := natDigits_length 18 (v.natAbs + 1) v.natAbs [] hn
  unfold fmt_d
  split <;> simp only [List.length_cons, List.length_nil] at * <;> omega

theorem snprintf_d_eq_toString (v : Int) (h1 : -2 ^ 63 ≤ v) (h2 : v < 2 ^ 63) :
    snprintf_d 50 v = toString v := by
  unfold snprintf_d
  rw [List.take_of_length_le (by have := fmt_d_length v h1 h2; omega)]
  exact fmt_d_eq_toString v

theorem DatumGetInt32_Int32GetDatum (v : Int) (h1 : -2 ^ 31 ≤ v) (h2 : v < 2 ^ 31) :
    DatumGetInt32 (Int32GetDatum v) = Except.ok v := by
  unfold DatumGetInt32 Int32GetDatum
  have hw : ((v % 2 ^ 32).toNat : Int) = v % 2 ^ 32 := Int.toNat_of_nonneg (Int.emod_nonneg _ (by norm_num))
  have hlt : v % 2 ^ 32 < 2 ^ 32 := Int.emod_lt_of_pos _ (by norm_num)
  have hm : (v % 2 ^ 32).toNat % 2 ^ 32 = (v % 2 ^ 32).toNat := Nat.mod_eq_of_lt (by omega)
  simp only [hm]
  by_cases hv : 0 ≤ v
  · have e : v % 2 ^ 32 = v := Int.emod_eq_of_lt hv (by omega)
    have : (v % 2 ^ 32).toNat < 2 ^ 31 := by omega
    rw [if_pos this]
    simp only [pure, Except.pure, Except.ok.injEq]
    omega
  · have e : v % 2 ^ 32 = v + 2 ^ 32 := by
      rw [← Int.add_mul_emod_self_left v (2 ^ 32) 1, mul_one]
      exact Int.emod_eq_of_lt (by omega) (by omega)
    have : ¬ (v % 2 ^ 32).toNat < 2 ^ 31 := by omega
    rw [if_neg this]
    simp only [pure, Except.pure, Except.ok.injEq]
    omega

theorem DatumGetInt64_Int64GetDatum (v : Int) (h1 : -2 ^ 63 ≤ v) (h2 : v < 2 ^ 63) :
    DatumGetInt64 (Int64GetDatum v) = Except.ok v := by
  unfold DatumGetInt64 Int64GetDatum
  have hw : ((v % 2 ^ 64).toNat : Int) = v % 2 ^ 64 := Int.toNat_of_nonneg (Int.emod_nonneg _ (by norm_num))
  have hlt : v % 2 ^ 64 < 2 ^ 64 := Int.emod_lt_of_pos _ (by norm_num)
  have hm : (v % 2 ^ 64).toNat % 2 ^ 64 = (v % 2 ^ 64).toNat := Nat.mod_eq_of_lt (by omega)
  simp only [hm]
  by_cases hv : 0 ≤ v
  · have e : v % 2 ^ 64 = v := Int.emod_eq_of_lt hv (by omega)
    have : (v % 2 ^ 64).toNat < 2 ^ 63 := by omega
    rw [if_pos this]
    simp only [pure, Except.pure, Except.ok.injEq]
    omega
  · have e : v % 2 ^ 64 = v + 2 ^ 64 := by
      rw [← Int.add_mul_emod_self_left v (2 ^ 64) 1, mul_one]
      exact Int.emod_eq_of_lt (by omega) (by omega)
    have : ¬ (v % 2 ^ 64).toNat < 2 ^ 63 := by omega
    rw [if_neg this]
    simp only [pure, Except.pure, Except.ok.injEq]
    omega

theorem entryOf_ok (k : PgConsts) (B : Backend) (desc : TupleDesc) (a : Oid × Int × Oid × Datum)
    (c : Condition) (h : entryOf k B desc a = Except.ok c) :
    (∃ att, desc.attr a.2.1 = Except.ok att ∧ c.column = att.attname) ∧
    c.operator = operatorString k a.1 ∧ c.type = typeString k a.2.2.1 ∧
    constantString k B a.2.2.1 a.2.2.2 = Except.ok c.constant := by
  unfold entryOf at h
  cases hatt : desc.attr a.2.1 with
  | error e => rw [hatt] at h; cases h
  | ok att =>
    cases hcs : constantString k B a.2.2.1 a.2.2.2 with
    | error e => rw [hatt, hcs] at h; cases h
    | ok s =>
      rw [hatt, hcs] at h
      cases h
      exact ⟨⟨att, rfl, rfl⟩, rfl, rfl, rfl⟩

theorem operatorString_ne_gt (k : PgConsts) (opno : Oid) : operatorString k opno ≠ "gt" := by
  unfold operatorString is_gt
  split
  · decide
  · split
    · decide
    · simp

theorem luaGetForeignPlan_skip (k : PgConsts) (B : Backend) (baserel : RelOptInfo)
    (desc : TupleDesc) (pre post : List RestrictInfo) (r : RestrictInfo)
    (h : clauseArgs k r = none) :
    luaGetForeignPlan k B baserel desc (pre ++ r :: post) =
      luaGetForeignPlan k B baserel desc (pre ++ post) := by
  have hf : ∀ x, accepts k x = false → clauseArgs k x = none := by
    intro x hx
    simpa [accepts] using hx
  have hr : accepts k r = false := by simp [accepts, h]
  rw [luaGetForeignPlan_filter k B baserel desc (accepts k) hf (pre ++ r :: post),
    luaGetForeignPlan_filter k B baserel desc (accepts k) hf (pre ++ post)]
  simp [List.filter_append, List.filter_cons, hr]

theorem clauseArgs_column_literal (k : PgConsts) (opno : Oid) (varattno : Int) (id : Oid)
    (cv : Datum) (hop : is_eq k opno = true ∨ is_like k opno = true)
    (hty : supportedType k id = true) :
    clauseArgs k { clause := Node.OpExpr opno [Node.Var varattno, Node.Const id cv],
                   orclause := none } = some (opno, varattno - 1, id, cv) := by
  rcases hop with h | h <;> simp [clauseArgs, h, hty]

theorem clauseArgs_literal_first (k : PgConsts) (opno : Oid) (consttype : Oid) (cv : Datum)
    (b : Node) (orclause : Option Node) :
    clauseArgs k { clause := Node.OpExpr opno [Node.Const consttype cv, b],
                   orclause := orclause } = none := by
  simp [clauseArgs]

theorem typeString_integer (k : PgConsts) (id : Oid) (h : id = k.INT4OID ∨ id = k.INT8OID) :
    typeString k id = "integer" := by
  simp [typeString, h]

theorem typeString_timestamp (k : PgConsts) (hk : k.typesDistinct) :
    typeString k k.TIMESTAMPOID = "timestamp" := by
  obtain ⟨_, h1, h2, _⟩ := hk
  simp [typeString, h1, h2]

theorem typeString_text (k : PgConsts) (hk : k.typesDistinct) :
    typeString k k.TEXTOID = "text" := by
  obtain ⟨_, _, _, h1, h2, h3⟩ := hk
  simp [typeString, h1, h2, h3]

theorem constantString_int4 (k : PgConsts) (B : Backend) (v : Int) (h1 : -2 ^ 31 ≤ v)
    (h2 : v < 2 ^ 31) : constantString k B k.INT4OID (Int32GetDatum v) = Except.ok (toString v) := by
  unfold constantString
  rw [if_pos rfl, DatumGetInt32_Int32GetDatum v h1 h2]
  show Except.ok (snprintf_d 50 v) = _
  rw [snprintf_d_eq_toString v (by omega) (by omega)]

theorem constantString_int8 (k : PgConsts) (B : Backend) (hk : k.typesDistinct) (v : Int)
    (h1 : -2 ^ 63 ≤ v) (h2 : v < 2 ^ 63) :
    constantString k B k.INT8OID (Int64GetDatum v) = Except.ok (toString v) := by
  unfold constantString
  rw [if_neg (Ne.symm hk.1), if_pos rfl, DatumGetInt64_Int64GetDatum v h1 h2]
  show Except.ok (snprintf_d 50 v) = _
  rw [snprintf_d_eq_toString v h1 h2]

theorem constantString_text (k : PgConsts) (B : Backend) (hk : k.typesDistinct) (s : String) :
    constantString k B k.TEXTOID (Datum.text s) = Except.ok s := by
  obtain ⟨_, _, _, h1, h2, h3⟩ := hk
  unfold constantString
  rw [if_neg h1, if_neg h2, if_neg h3]
  rfl

/-! ### The scan: luaIterateForeignScan -/

theorem tostring_isSome (E : LuaEngine) (v : LuaValue) :
    (v.tostring E).isSome = v.isstring := by
  cases v <;> rfl

theorem iterateColumns_eq (k : PgConsts) (B : Backend) (E : LuaEngine) (r : Nat)
    (S : List LuaValue) (atts : List FormData_pg_attribute) :
    ∀ (i : Nat) (lua : lua_State) (slot : TupleTableSlot), lua.stack = LuaValue.table r :: S →
      iterateColumns k B E atts i lua slot =
        (fillColumns k B E lua.heap r atts i slot).map (fun s => (lua, s)) := by
  induction atts with
  | nil => intro i lua slot _; rfl
  | cons att rest ih =>
    intro i lua slot hs
    have hpop : lua_pop (lua_State.mk lua.heap
        (lua.heap.tables r (LuaValue.string att.attname) :: LuaValue.table r :: S)) 1 = lua := by
      obtain ⟨heap, stack⟩ := lua
      simp only at hs
      simp [lua_pop, hs]
    unfold iterateColumns fillColumns columnValue
    simp only [lua_pushstring, lua_State.push, lua_gettable, hs, index2adr_neg2,
      List.getElem?_cons_succ, List.getElem?_cons_zero, bind, Except.bind]
    cases hty : B.SearchSysCache1 att.atttypid with
    | none => rfl
    | some tuple =>
      simp only [lua_isstring, lua_tostring, index2adr_neg1, List.getElem?_cons_zero]
      have hx := tostring_isSome E (lua.heap.tables r (LuaValue.string att.attname))
      cases hv : (lua.heap.tables r (LuaValue.string att.attname)).tostring E with
      | none =>
        rw [hv] at hx
        simp only [Option.isSome_none] at hx
        simp only [← hx, pure, Except.pure, hpop]
        exact ih (i + 1) lua _ hs
      | some value =>
        rw [hv] at hx
        simp only [Option.isSome_some] at hx
        simp only [← hx, if_true]
        cases hd : decodeField k B tuple value with
        | error e => rfl
        | ok datum =>
          simp only [Except.map, pure, Except.pure, hpop, Except.bind, List.set_set]
          have := ih (i + 1) lua (TupleTableSlot.mk slot.tts_isempty slot.tts_tupleDescriptor
            (slot.tts_values.set i datum) (slot.tts_isnull.set i false)) hs
          simpa [List.set_set] using this

theorem adjustResults_one (results : List LuaValue) :
    adjustResults 1 results = [firstResult results] := by
  cases results with
  | nil => rfl
  | cons v vs => simp [adjustResults, firstResult]

theorem next_no_function (k : PgConsts) (B : Backend) (E : LuaEngine) (node : ForeignScanState)
    (ss : LuaFdwScanState) (hstate : node.fdw_state = some ss)
    (hg : ∀ f, ss.lua.heap.globals "ScanIterate" ≠ LuaValue.function f) :
    luaIterateForeignScan k B E node =
      Except.ok ({ ss_ScanTupleSlot := clearedSlot node.ss_ScanTupleSlot, fdw_state := some ss },
        clearedSlot node.ss_ScanTupleSlot) := by
  unfold luaIterateForeignScan
  simp only [hstate]
  have hf : lua_isfunction (lua_getglobal ss.lua "ScanIterate") (-1) = false := by
    simp only [lua_isfunction, lua_getglobal, lua_State.push, index2adr_neg1,
      List.getElem?_cons_zero]
    cases hv : ss.lua.heap.globals "ScanIterate" <;> first | rfl | exact absurd hv (hg _)
  rw [hf]
  simp [lua_pop, lua_getglobal, lua_State.push, pure, Except.pure, clearedSlot, ExecClearTuple]

theorem next_called (k : PgConsts) (B : Backend) (E : LuaEngine) (node : ForeignScanState)
    (ss : LuaFdwScanState) (f : Nat) (hstate : node.fdw_state = some ss)
    (hg : ss.lua.heap.globals "ScanIterate" = LuaValue.function f) :
    luaIterateForeignScan k B E node =
      match E.call f [] ss.lua.heap with
      | CallOutcome.returned results heap =>
        match firstResult results with
        | LuaValue.table r =>
          (fillColumns k B E heap r node.ss_ScanTupleSlot.tts_tupleDescriptor.attrs 0
            (clearedSlot node.ss_ScanTupleSlot)).map (fun s =>
              ({ ss_ScanTupleSlot := ExecStoreVirtualTuple s,
                 fdw_state := some { lua := { heap := heap, stack := ss.lua.stack } } },
               ExecStoreVirtualTuple s))
        | _ =>
          Except.ok ({ ss_ScanTupleSlot := clearedSlot node.ss_ScanTupleSlot,
                       fdw_state := some { lua := { heap := heap, stack := ss.lua.stack } } },
                     clearedSlot node.ss_ScanTupleSlot)
      | CallOutcome.raised err _ => Except.error (Failure.lua_error (err.tostring E))
      | CallOutcome.ereported message => Except.error (Failure.ereport message) := by
  unfold luaIterateForeignScan
  simp only [hstate]
  have hf : lua_isfunction (lua_getglobal ss.lua "ScanIterate") (-1) = true := by
    simp [lua_isfunction, lua_getglobal, lua_State.push, hg]
  rw [hf]
  have hcl : ExecClearTuple (TupleTableSlot.mk node.ss_ScanTupleSlot.tts_isempty
      node.ss_ScanTupleSlot.tts_tupleDescriptor
      (List.replicate node.ss_ScanTupleSlot.tts_tupleDescriptor.natts (Datum.word 0))
      (List.replicate node.ss_ScanTupleSlot.tts_tupleDescriptor.natts true)) =
      clearedSlot node.ss_ScanTupleSlot := rfl
  simp only [if_true, lua_pcall, lua_getglobal, lua_State.push, hg, List.drop_zero,
    List.take_zero, List.reverse_nil, hcl]
  cases hc : E.call f [] ss.lua.heap with
  | ereported message => rfl
  | raised err heap =>
    simp [bind, Except.bind, lua_tostring]
  | returned results heap =>
    simp only [bind, Except.bind, adjustResults_one, List.reverse_cons, List.reverse_nil,
      List.nil_append, List.singleton_append]
    cases hv : firstResult results with
    | table r =>
      have hst : (lua_State.mk heap (LuaValue.table r :: ss.lua.stack)).stack =
        LuaValue.table r :: ss.lua.stack := rfl
      simp only [lua_istable, index2adr_neg1, List.getElem?_cons_zero, if_true,
        show ((0 : Int) ≠ 0) = False from by simp, if_false]
      rw [iterateColumns_eq k B E r ss.lua.stack _ 0 _ _ hst]
      cases hfc : fillColumns k B E heap r node.ss_ScanTupleSlot.tts_tupleDescriptor.attrs 0
          (clearedSlot node.ss_ScanTupleSlot) with
      | error e =>
        simp [Except.map, Except.bind]
      | ok s =>
        simp [Except.map, Except.bind, pure, Except.pure, lua_pop]
    | nil | boolean _ | number _ | string _ | function _ | userdata _ =>
      simp [lua_istable, pure, Except.pure, lua_pop, Except.bind]

theorem fillColumns_error (k : PgConsts) (B : Backend) (E : LuaEngine) (h : LuaHeap) (r : Nat)
    (atts : List FormData_pg_attribute) :
    ∀ (i : Nat) (slot : TupleTableSlot),
      (∃ att ∈ atts, ∃ e, columnValue k B E h r att = Except.error e) →
      ∃ e, fillColumns k B E h r atts i slot = Except.error e := by
  induction atts with
  | nil =>
    intro i slot hbad
    obtain ⟨att, hmem, _⟩ := hbad
    cases hmem
  | cons a rest ih =>
    intro i slot hbad
    unfold fillColumns
    cases hv : columnValue k B E h r a with
    | error e => exact ⟨e, rfl⟩
    | ok v =>
      have hrest : ∃ att ∈ rest, ∃ e, columnValue k B E h r att = Except.error e := by
        obtain ⟨att, hmem, e, he⟩ := hbad
        rcases List.mem_cons.mp hmem with rfl | hm
        · rw [hv] at he; cases he
        · exact ⟨att, hm, e, he⟩
      cases v with
      | none => exact ih _ _ hrest
      | some d => exact ih _ _ hrest

theorem fillColumns_ok (k : PgConsts) (B : Backend) (E : LuaEngine) (h : LuaHeap) (r : Nat)
    (atts : List FormData_pg_attribute) :
    ∀ (i : Nat) (slot : TupleTableSlot),
      (∀ att ∈ atts, ∃ v, columnValue k B E h r att = Except.ok v) →
      ∃ s, fillColumns k B E h r atts i slot = Except.ok s := by
  induction atts with
  | nil => intro i slot _; exact ⟨slot, rfl⟩
  | cons a rest ih =>
    intro i slot hall
    obtain ⟨v, hv⟩ := hall a (List.mem_cons_self a rest)
    have hrest : ∀ att ∈ rest, ∃ v, columnValue k B E h r att = Except.ok v :=
      fun att hm => hall att (List.mem_cons_of_mem a hm)
    unfold fillColumns
    rw [hv]
    cases v with
    | none => exact ih _ _ hrest
    | some d => exact ih _ _ hrest

/-- What the slot looks like after the rounds `i, i+1, ...` over `atts`. -/
theorem fillColumns_post (k : PgConsts) (B : Backend) (E : LuaEngine) (h : LuaHeap) (r : Nat)
    (atts : List FormData_pg_attribute) :
    ∀ (i : Nat) (slot s : TupleTableSlot), fillColumns k B E h r atts i slot = Except.ok s →
      s.tts_isempty = slot.tts_isempty ∧
      s.tts_isnull.length = slot.tts_isnull.length ∧
      s.tts_values.length = slot.tts_values.length ∧
      (∀ j, j < i → s.tts_isnull[j]? = slot.tts_isnull[j]? ∧
        s.tts_values[j]? = slot.tts_values[j]?) ∧
      (∀ (j : Nat) (hj : j < atts.length), i + j < slot.tts_isnull.length →
        i + j < slot.tts_values.length →
        ∃ v, columnValue k B E h r (atts.get ⟨j, hj⟩) = Except.ok v ∧
          s.tts_isnull[i + j]? = some v.isNone ∧
          ∀ d, v = some d → s.tts_values[i + j]? = some d) := by
  induction atts with
  | nil =>
    intro i slot s hs
    cases hs
    exact ⟨rfl, rfl, rfl, fun _ _ => ⟨rfl, rfl⟩, fun j hj => absurd hj (Nat.not_lt_zero j)⟩
  | cons a rest ih =>
    intro i slot s hs
    unfold fillColumns at hs
    cases hv : columnValue k B E h r a with
    | error e => rw [hv] at hs; cases hs
    | ok v =>
      rw [hv] at hs
      cases v with
      | none =>
        simp only at hs
        obtain ⟨h1, h2, h3, h4, h5⟩ := ih _ _ _ hs
        simp only [List.length_set] at h2 h3
        refine ⟨h1, h2, h3, ?_, ?_⟩
        · intro j hj
          obtain ⟨e1, e2⟩ := h4 j (by omega)
          refine ⟨?_, e2⟩
          rw [e1, List.getElem?_set_ne (by omega)]
        · intro j hj hn hvl
          cases j with
          | zero =>
            obtain ⟨e1, _⟩ := h4 i (by omega)
            refine ⟨none, hv, ?_, fun d hd => by cases hd⟩
            rw [Nat.add_zero, e1, List.getElem?_set_self (by simpa using hn)]
            rfl
          | succ j =>
            have := h5 j (by simpa using hj) (by simp only [List.length_set]; omega)
              (by show i + 1 + j < slot.tts_values.length; omega)
            have e : i + 1 + j = i + (j + 1) := by omega
            rw [e] at this
            exact this
      | some d =>
        simp only at hs
        obtain ⟨h1, h2, h3, h4, h5⟩ := ih _ _ _ hs
        simp only [List.length_set] at h2 h3
        refine ⟨h1, h2, h3, ?_, ?_⟩
        · intro j hj
          obtain ⟨e1, e2⟩ := h4 j (by omega)
          constructor
          · rw [e1, List.getElem?_set_ne (by omega), List.getElem?_set_ne (by omega)]
          · rw [e2, List.getElem?_set_ne (by omega)]
        · intro j hj hn hvl
          cases j with
          | zero =>
            obtain ⟨e1, e2⟩ := h4 i (by omega)
            refine ⟨some d, hv, ?_, ?_⟩
            · rw [Nat.add_zero, e1, List.getElem?_set_self (by simpa using hn)]
              rfl
            · intro d2 hd
              cases hd
              rw [Nat.add_zero, e2, List.getElem?_set_self (by simpa using hvl)]
          | succ j =>
            have := h5 j (by simpa using hj) (by simp only [List.length_set]; omega)
              (by simp only [List.length_set]; omega)
            have e : i + 1 + j = i + (j + 1) := by omega
            rw [e] at this
            exact this

/-! ### The codec: decimal text and the integer parsers -/

theorem isDigit_digitChar (d : Nat) (h : d < 10) :
    isDigit (digitChar d) = true ∧ digitValue (digitChar d) = d := by
  interval_cases d <;> exact ⟨rfl, rfl⟩

theorem digitsValue_append (ds : List Char) (c : Char) :
    digitsValue (ds ++ [c]) = digitsValue ds * 10 + digitValue c := by
  simp [digitsValue, List.foldl_append]

theorem natDigits_spec (fuel : Nat) :
    ∀ (n : Nat) (acc : List Char), n < 10 ^ fuel →
      ∃ ds, natDigits fuel n acc = ds ++ acc ∧ (∀ c ∈ ds, isDigit c = true) ∧
        digitsValue ds = n ∧ (0 < fuel → ds ≠ []) := by
  induction fuel with
  | zero =>
    intro n acc h
    have : n = 0 := by simpa using h
    subst this
    exact ⟨[], rfl, fun c hc => absurd hc (List.not_mem_nil c), rfl,
      fun h => absurd h (Nat.lt_irrefl 0)⟩
  | succ fuel ih =>
    intro n acc h
    unfold natDigits
    by_cases h10 : n < 10
    · rw [if_pos h10]
      obtain ⟨hd, hv⟩ := isDigit_digitChar n h10
      refine ⟨[digitChar n], rfl, ?_, ?_, fun _ => by simp⟩
      · intro c hc
        rw [List.mem_singleton.mp hc]
        exact hd
      · simp [digitsValue, hv]
    · rw [if_neg h10]
      have hlt : n / 10 < 10 ^ fuel := by
        rw [Nat.div_lt_iff_lt_mul (by decide)]
        calc n < 10 ^ (fuel + 1) := h
          _ = 10 ^ fuel * 10 := by ring
      obtain ⟨ds, hds, hall, hval, _⟩ := ih (n / 10) (digitChar (n % 10) :: acc) hlt
      obtain ⟨hd, hv⟩ := isDigit_digitChar (n % 10) (Nat.mod_lt n (by decide))
      refine ⟨ds ++ [digitChar (n % 10)], by rw [hds]; simp, ?_, ?_, fun _ => by simp⟩
      · intro c hc
        rcases List.mem_append.mp hc with hc | hc
        · exact hall c hc
        · rw [List.mem_singleton.mp hc]
          exact hd
      · rw [digitsValue_append, hval, hv]
        omega

theorem isDigit_not_other (c : Char) (h : isDigit c = true) :
    isSpace c = false ∧ c ≠ '-' ∧ c ≠ '+' := by
  have hb : 48 ≤ c.toNat ∧ c.toNat ≤ 57 := by simpa [isDigit] using h
  refine ⟨?_, ?_, ?_⟩
  · simp only [isSpace, Bool.or_eq_false_iff, decide_eq_false_iff_not]
    refine ⟨⟨⟨⟨⟨?_, ?_⟩, ?_⟩, ?_⟩, ?_⟩, ?_⟩
    · rintro rfl; revert hb; decide
    · rintro rfl; revert hb; decide
    · rintro rfl; revert hb; decide
    · rintro rfl; revert hb; decide
    · omega
    · omega
  · rintro rfl; revert hb; decide
  · rintro rfl; revert hb; decide

theorem parseInteger_digits (lo hi : Int) (ds : List Char) (negative : Bool)
    (hne : ds ≠ []) (hall : ∀ c ∈ ds, isDigit c = true)
    (h1 : lo ≤ (if negative then -(digitsValue ds : Int) else (digitsValue ds : Int)))
    (h2 : (if negative then -(digitsValue ds : Int) else (digitsValue ds : Int)) ≤ hi) :
    parseInteger lo hi (String.mk (if negative then '-' :: ds else ds)) =
      Except.ok (if negative then -(digitsValue ds : Int) else (digitsValue ds : Int)) := by
  obtain ⟨c, ds2, rfl⟩ := List.exists_cons_of_ne_nil hne
  obtain ⟨hsp, hminus, hplus⟩ := isDigit_not_other c (hall c (List.mem_cons_self c ds2))
  have htake : List.takeWhile isDigit (c :: ds2) = c :: ds2 :=
    List.takeWhile_eq_self_iff.mpr hall
  have hdrop : List.dropWhile isDigit (c :: ds2) = [] :=
    List.dropWhile_eq_nil_iff.mpr hall
  unfold parseInteger
  cases negative with
  | false =>
    have hd : List.dropWhile isSpace (c :: ds2) = c :: ds2 := by
      simp [List.dropWhile_cons, hsp]
    simp only [Bool.false_eq_true, if_false] at h1 h2 ⊢
    simp only [hd, List.head?_cons, Option.some.injEq, hminus, hplus, or_self, if_false, htake,
      hdrop, List.dropWhile_nil, ne_eq, not_true_eq_false, or_false, reduceCtorEq]
    rw [if_neg (by omega)]
  | true =>
    have hd : List.dropWhile isSpace ('-' :: c :: ds2) = '-' :: c :: ds2 := by
      rw [List.dropWhile_cons]
      rfl
    simp only [if_true] at h1 h2 ⊢
    simp only [hd, List.head?_cons, true_or, if_true, List.tail_cons, htake,
      hdrop, List.dropWhile_nil, ne_eq, not_true_eq_false, or_false, reduceCtorEq, if_false]
    rw [if_neg (by omega)]

theorem parseInteger_fmt_d (lo hi v : Int) (h1 : lo ≤ v) (h2 : v ≤ hi) :
    parseInteger lo hi (String.mk (fmt_d v)) = Except.ok v := by
  have hlt : v.natAbs < 10 ^ (v.natAbs + 1) :=
    Nat.lt_of_lt_of_le (Nat.lt_pow_self (by decide) v.natAbs)
      (Nat.pow_le_pow_right (by decide) (Nat.le_succ _))
  obtain ⟨ds, hds, hall, hval, hne⟩ := natDigits_spec (v.natAbs + 1) v.natAbs [] hlt
  rw [List.append_nil] at hds
  have hne2 : ds ≠ [] := hne (Nat.succ_pos _)
  by_cases hv : v < 0
  · have e : (if (true : Bool) then -(digitsValue ds : Int) else (digitsValue ds : Int)) = v := by
      rw [hval]; simp only [if_true]; omega
    have := parseInteger_digits lo hi ds true hne2 hall (by rw [e]; exact h1) (by rw [e]; exact h2)
    rw [e] at this
    simpa [fmt_d, hv, hds] using this
  · have e : (if (false : Bool) then -(digitsValue ds : Int) else (digitsValue ds : Int)) = v := by
      rw [hval]; simp only [Bool.false_eq_true, if_false]; omega
    have := parseInteger_digits lo hi ds false hne2 hall (by rw [e]; exact h1) (by rw [e]; exact h2)
    rw [e] at this
    simpa [fmt_d, hv, hds] using this

theorem snprintf_d_eq_fmt_d (v : Int) (h1 : -2 ^ 63 ≤ v) (h2 : v < 2 ^ 63) :
    snprintf_d 50 v = String.mk (fmt_d v) := by
  unfold snprintf_d
  rw [List.take_of_length_le (by have := fmt_d_length v h1 h2; omega)]

theorem columnValue_text (k : PgConsts) (B : Backend) (E : LuaEngine) (h : LuaHeap) (r : Nat)
    (att : FormData_pg_attribute) (tuple : Form_pg_type) (text : String)
    (hty : B.SearchSysCache1 att.atttypid = some tuple)
    (hv : (h.tables r (LuaValue.string att.attname)).tostring E = some text) :
    columnValue k B E h r att = (decodeField k B tuple text).map some := by
  simp [columnValue, hty, hv]

theorem decodeField_int4 (k : PgConsts) (tsOut : Datum → Except String String)
    (tsIn : String → Except String Datum) (typmod : Int) (v : Int)
    (h1 : -2 ^ 31 ≤ v) (h2 : v < 2 ^ 31) :
    decodeField k (stdBackend k tsOut tsIn) { typinput := 42, typtypmod := typmod } (snprintf_d 50 v) =
      Except.ok (Int32GetDatum v) := by
  rw [snprintf_d_eq_fmt_d v (by omega) (by omega)]
  show Backend.lift (int4in (String.mk (fmt_d v))) = _
  unfold int4in
  rw [parseInteger_fmt_d (-2 ^ 31) (2 ^ 31 - 1) v h1 (by omega)]
  rfl

theorem decodeField_int8 (k : PgConsts) (tsOut : Datum → Except String String)
    (tsIn : String → Except String Datum) (typmod : Int) (v : Int)
    (h1 : -2 ^ 63 ≤ v) (h2 : v < 2 ^ 63) :
    decodeField k (stdBackend k tsOut tsIn) { typinput := 460, typtypmod := typmod } (snprintf_d 50 v) =
      Except.ok (Int64GetDatum v) := by
  rw [snprintf_d_eq_fmt_d v h1 h2]
  show Backend.lift (int8in (String.mk (fmt_d v))) = _
  unfold int8in
  rw [parseInteger_fmt_d (-2 ^ 63) (2 ^ 63 - 1) v h1 (by omega)]
  rfl

theorem columnValue_error_ereport (k : PgConsts) (B : Backend) (E : LuaEngine) (h : LuaHeap)
    (r : Nat) (att : FormData_pg_attribute) (e : Failure)
    (he : columnValue k B E h r att = Except.error e) : ∃ m, e = Failure.ereport m := by
  unfold columnValue at he
  cases hty : B.SearchSysCache1 att.atttypid with
  | none =>
    rw [hty] at he
    cases he
    exact ⟨_, rfl⟩
  | some tuple =>
    rw [hty] at he
    cases hv : (h.tables r (LuaValue.string att.attname)).tostring E with
    | none => rw [hv] at he; cases he
    | some value =>
      rw [hv] at he
      simp only [decodeField] at he
      cases hd : B.OidFunctionCall3 tuple.typinput value k.InvalidOid tuple.typtypmod with
      | ok d => rw [hd] at he; cases he
      | error m =>
        rw [hd] at he
        cases he
        exact ⟨m, rfl⟩

theorem fillColumns_error_ereport (k : PgConsts) (B : Backend) (E : LuaEngine) (h : LuaHeap)
    (r : Nat) (atts : List FormData_pg_attribute) :
    ∀ (i : Nat) (slot : TupleTableSlot) (e : Failure),
      fillColumns k B E h r atts i slot = Except.error e → ∃ m, e = Failure.ereport m := by
  induction atts with
  | nil => intro i slot e he; cases he
  | cons a rest ih =>
    intro i slot e he
    unfold fillColumns at he
    cases hv : columnValue k B E h r a with
    | error e2 =>
      rw [hv] at he
      cases he
      exact columnValue_error_ereport k B E h r a e hv
    | ok v =>
      rw [hv] at he
      cases v with
      | none => exact ih _ _ e he
      | some d => exact ih _ _ e he

theorem row_eq_none (slot : TupleTableSlot) : slot.row = none ↔ slot.tts_isempty = true := by
  unfold TupleTableSlot.row
  cases slot.tts_isempty <;> simp

theorem next_table (k : PgConsts) (B : Backend) (E : LuaEngine) (node : ForeignScanState)
    (ss : LuaFdwScanState) (f : Nat) (results : List LuaValue) (heap : LuaHeap) (r : Nat)
    (hstate : node.fdw_state = some ss)
    (hg : ss.lua.heap.globals "ScanIterate" = LuaValue.function f)
    (hc : E.call f [] ss.lua.heap = CallOutcome.returned results heap)
    (hr : firstResult results = LuaValue.table r) :
    luaIterateForeignScan k B E node =
      (fillColumns k B E heap r node.ss_ScanTupleSlot.tts_tupleDescriptor.attrs 0
        (clearedSlot node.ss_ScanTupleSlot)).map (fun s =>
          ({ ss_ScanTupleSlot := ExecStoreVirtualTuple s,
             fdw_state := some { lua := { heap := heap, stack := ss.lua.stack } } },
           ExecStoreVirtualTuple s)) := by
  rw [next_called k B E node ss f hstate hg, hc]
  simp only [hr]

/-! ### The optional callbacks -/

theorem isfunction_getglobal_false (L : lua_State) (name : String)
    (hg : ∀ f, L.heap.globals name ≠ LuaValue.function f) :
    lua_isfunction (lua_getglobal L name) (-1) = false := by
  simp only [lua_isfunction, lua_getglobal, lua_State.push, index2adr_neg1,
    List.getElem?_cons_zero]
  cases hv : L.heap.globals name <;> first | rfl | exact absurd hv (hg _)

theorem isfunction_getglobal_true (L : lua_State) (name : String) (f : Nat)
    (hg : L.heap.globals name = LuaValue.function f) :
    lua_isfunction (lua_getglobal L name) (-1) = true := by
  simp only [lua_isfunction, lua_getglobal, lua_State.push, index2adr_neg1,
    List.getElem?_cons_zero, hg]

theorem pcall_getglobal (E : LuaEngine) (L : lua_State) (name : String) (f n : Nat)
    (hg : L.heap.globals name = LuaValue.function f) :
    lua_pcall E (lua_getglobal L name) 0 n =
      match E.call f [] L.heap with
      | CallOutcome.returned results heap =>
        Except.ok (0, { heap := heap, stack := (adjustResults n results).reverse ++ L.stack })
      | CallOutcome.raised err heap => Except.ok (2, { heap := heap, stack := err :: L.stack })
      | CallOutcome.ereported message => Except.error (Failure.ereport message) := by
  simp only [lua_pcall, lua_getglobal, lua_State.push, List.drop_zero, hg, List.take_zero,
    List.reverse_nil]

theorem adjustResults_zero (results : List LuaValue) : adjustResults 0 results = [] := by
  simp [adjustResults]

/-! ### lua_start -/

theorem setLevel_ok (lua : lua_State) (r : Nat) (rest : List LuaValue) (name : String)
    (level : Int) (hs : lua.stack = LuaValue.table r :: rest) :
    ∃ lua1, setLevel lua name level = Except.ok lua1 ∧ lua1.stack = lua.stack ∧
      lua1.heap.globals = lua.heap.globals ∧ lua1.heap.ntables = lua.heap.ntables := by
  refine ⟨{ heap := lua.heap.setTable r ((lua.heap.tables r).set (LuaValue.string name)
    (LuaValue.number level)), stack := lua.stack }, ?_, rfl, rfl, rfl⟩
  simp [setLevel, lua_settable, lua_pushnumber, lua_pushstring, lua_State.push, hs]

theorem foldlM_setLevel (levels : List (String × Int)) :
    ∀ (lua : lua_State) (r : Nat) (rest : List LuaValue), lua.stack = LuaValue.table r :: rest →
      ∃ lua1, levels.foldlM (fun lua level => setLevel lua level.1 level.2) lua = Except.ok lua1 ∧
        lua1.stack = lua.stack ∧ lua1.heap.globals = lua.heap.globals ∧
        lua1.heap.ntables = lua.heap.ntables := by
  induction levels with
  | nil => intro lua r rest _; exact ⟨lua, rfl, rfl, rfl, rfl⟩
  | cons p ps ih =>
    intro lua r rest hs
    obtain ⟨l1, h1, hs1, hg1, hn1⟩ := setLevel_ok lua r rest p.1 p.2 hs
    obtain ⟨l2, h2, hs2, hg2, hn2⟩ := ih l1 r rest (hs1.trans hs)
    refine ⟨l2, ?_, hs2.trans hs1, hg2.trans hg1, hn2.trans hn1⟩
    simp only [List.foldlM_cons, h1, bind, Except.bind]
    exact h2

/-- The two loading steps of `lua_start` on the state `base`, in which the global `fdw` has
been set. -/
theorem lua_start_setup (lv : ElogLevels) (Lib : LuaLib) :
    ∃ base : lua_State, base.stack = [] ∧
      (∀ name, base.heap.globals name =
        if name = "fdw" then LuaValue.table Lib.openlibs.ntables else Lib.openlibs.globals name) ∧
      base.heap.ntables = Lib.openlibs.ntables + 1 ∧
      ∀ (E : LuaEngine) (script inject : Option String),
        lua_start lv Lib E script inject =
          (match script with
            | some filename => luaL_dofile Lib base filename
            | none => pure (0, base)) >>= fun r =>
          if r.1 ≠ 0 then Except.error (Failure.lua_error (lua_tostring E r.2 (-1)))
          else
            (match inject with
              | some text => luaL_dostring Lib r.2 text
              | none => pure (0, r.2)) >>= fun r =>
            if r.1 ≠ 0 then Except.error (Failure.lua_error (lua_tostring E r.2 (-1)))
            else pure r.2 := by
  obtain ⟨l0, h0, hs0, hg0, hn0⟩ : ∃ l0, lua_settable (lua_pushcfunction (lua_pushstring
      (lua_createtable (lua_State.mk Lib.openlibs [])) "ereport") Lib.lua_ereport) (-3) =
      Except.ok l0 ∧ l0.stack = [LuaValue.table Lib.openlibs.ntables] ∧
      l0.heap.globals = Lib.openlibs.globals ∧ l0.heap.ntables = Lib.openlibs.ntables + 1 := by
    refine ⟨lua_State.mk ((lua_createtable (lua_State.mk Lib.openlibs [])).heap.setTable
      Lib.openlibs.ntables (((lua_createtable (lua_State.mk Lib.openlibs [])).heap.tables
        Lib.openlibs.ntables).set (LuaValue.string "ereport")
        (LuaValue.function Lib.lua_ereport))) [LuaValue.table Lib.openlibs.ntables],
      ?_, rfl, rfl, rfl⟩
    simp [lua_settable, lua_pushcfunction, lua_pushstring, lua_createtable, lua_State.push]
  obtain ⟨l1, h1, hs1, hg1, hn1⟩ :=
    foldlM_setLevel (levelConstants lv) l0 Lib.openlibs.ntables [] hs0
  rw [hs0] at hs1
  rw [hg0] at hg1
  rw [hn0] at hn1
  refine ⟨lua_State.mk (LuaHeap.mk l1.heap.tables l1.heap.ntables (fun x =>
      if x = "fdw" then LuaValue.table Lib.openlibs.ntables else l1.heap.globals x)) [],
    rfl, ?_, ?_, ?_⟩
  · intro name
    show (if name = "fdw" then _ else l1.heap.globals name) = _
    rw [hg1]
  · exact hn1
  · intro E script inject
    have h2 : lua_setglobal l1 "fdw" = Except.ok (lua_State.mk (LuaHeap.mk l1.heap.tables
        l1.heap.ntables (fun x =>
          if x = "fdw" then LuaValue.table Lib.openlibs.ntables else l1.heap.globals x)) []) := by
      simp only [lua_setglobal]
      rw [hs1]
    unfold lua_start
    simp only [h0, h1, h2, bind, Except.bind]
    cases script <;> cases inject <;> rfl

/-! ### The validator -/

theorem is_valid_option_iff (F : Oid) (name : String) (catalog : Oid) :
    is_valid_option F name catalog = true ↔
      (name = "script" ∨ name = "inject") ∧ catalog = F := by
  simp only [is_valid_option, valid_options, isValidIn]
  by_cases hc : catalog = F
  · by_cases h1 : "script" = name
    · simp [hc, h1.symm]
    · by_cases h2 : "inject" = name
      · simp [hc, h2.symm]
      · have h1b : ¬ name = "script" := fun h => h1 h.symm
        have h2b : ¬ name = "inject" := fun h => h2 h.symm
        simp [hc, h1, h2, h1b, h2b]
  · simp [hc]

theorem invalidOption_hint (F : Oid) (name : String) (catalog : Oid) :
    (invalidOption F name catalog).hint =
      if catalog = F then "Valid options in this context are: script, inject"
      else "There are no valid options in this context." := by
  by_cases hc : catalog = F
  · simp only [invalidOption, valid_options, List.foldl, hintStep, hc, if_true]
    decide
  · simp only [invalidOption, valid_options, List.foldl, hintStep, hc, if_false]
    decide

theorem validator_ok_iff (F : Oid) (catalog : Oid) (opts : List DefElem) :
    lua_fdw_validator F opts catalog = Except.ok () ↔
      ∀ d ∈ opts, (d.defname = "script" ∨ d.defname = "inject") ∧ catalog = F := by
  induction opts with
  | nil => simp [lua_fdw_validator, pure, Except.pure]
  | cons d rest ih =>
    simp only [lua_fdw_validator, List.mem_cons, forall_eq_or_imp]
    by_cases hv : is_valid_option F d.defname catalog = true
    · rw [if_pos hv, ih]
      have := (is_valid_option_iff F d.defname catalog).1 hv
      exact ⟨fun h => ⟨this, h⟩, fun h => h.2⟩
    · rw [if_neg hv]
      have := mt (is_valid_option_iff F d.defname catalog).2 hv
      exact ⟨fun h => (by cases h), fun h => absurd h.1 this⟩

theorem validator_error (F : Oid) (catalog : Oid) (opts : List DefElem) :
    ∀ e, lua_fdw_validator F opts catalog = Except.error e →
      ∃ pre d post, opts = pre ++ d :: post ∧
        (∀ x ∈ pre, (x.defname = "script" ∨ x.defname = "inject") ∧ catalog = F) ∧
        ¬ ((d.defname = "script" ∨ d.defname = "inject") ∧ catalog = F) ∧
        e = invalidOption F d.defname catalog := by
  induction opts with
  | nil => intro e h; simp [lua_fdw_validator, pure, Except.pure] at h
  | cons d rest ih =>
    intro e h
    simp only [lua_fdw_validator] at h
    by_cases hv : is_valid_option F d.defname catalog = true
    · rw [if_pos hv] at h
      obtain ⟨pre, d1, post, hsplit, hpre, hd, he⟩ := ih e h
      refine ⟨d :: pre, d1, post, by rw [hsplit]; rfl, ?_, hd, he⟩
      intro x hx
      rcases List.mem_cons.1 hx with rfl | hx
      · exact (is_valid_option_iff F _ catalog).1 hv
      · exact hpre x hx
    · rw [if_neg hv] at h
      cases h
      exact ⟨[], d, rest, rfl, fun x hx => absurd hx (List.not_mem_nil x),
        mt (is_valid_option_iff F d.defname catalog).2 hv, rfl⟩

/-! ### The scan: begin, rescan, end -/

theorem lua_tostring_top (E : LuaEngine) (h : LuaHeap) (v : LuaValue) (S : List LuaValue) :
    lua_tostring E { heap := h, stack := v :: S } (-1) = v.tostring E := by
  simp [lua_tostring]

theorem begin_no_function (E : LuaEngine) (plan : ForeignScan) (node : ForeignScanState)
    (hg : ∀ f, plan.fdw_private.heap.globals "ScanStart" ≠ LuaValue.function f) :
    luaBeginForeignScan E plan node =
      Except.ok { node with fdw_state := some { lua := plan.fdw_private } } := by
  unfold luaBeginForeignScan
  simp only [isfunction_getglobal_false _ _ hg]
  rfl

theorem begin_called (E : LuaEngine) (plan : ForeignScan) (node : ForeignScanState) (f : Nat)
    (hg : plan.fdw_private.heap.globals "ScanStart" = LuaValue.function f) :
    luaBeginForeignScan E plan node =
      match E.call f [] plan.fdw_private.heap with
      | CallOutcome.returned _ heap =>
        Except.ok { node with
          fdw_state := some { lua := { heap := heap, stack := plan.fdw_private.stack } } }
      | CallOutcome.raised err _ => Except.error (Failure.lua_error (err.tostring E))
      | CallOutcome.ereported message => Except.error (Failure.ereport message) := by
  unfold luaBeginForeignScan
  simp only [isfunction_getglobal_true _ _ f hg, pcall_getglobal E _ _ f 0 hg, if_true]
  cases E.call f [] plan.fdw_private.heap <;>
    simp [bind, Except.bind, pure, Except.pure, adjustResults_zero, lua_tostring_top]

theorem rescan_no_function (E : LuaEngine) (node : ForeignScanState) (ss : LuaFdwScanState)
    (hstate : node.fdw_state = some ss)
    (hg : ∀ f, ss.lua.heap.globals "ScanRestart" ≠ LuaValue.function f) :
    luaReScanForeignScan E node =
      Except.ok { node with fdw_state := some { lua := lua_getglobal ss.lua "ScanRestart" } } := by
  unfold luaReScanForeignScan
  simp only [hstate, isfunction_getglobal_false _ _ hg]
  rfl

theorem rescan_called (E : LuaEngine) (node : ForeignScanState) (ss : LuaFdwScanState) (f : Nat)
    (hstate : node.fdw_state = some ss)
    (hg : ss.lua.heap.globals "ScanRestart" = LuaValue.function f) :
    luaReScanForeignScan E node =
      match E.call f [] ss.lua.heap with
      | CallOutcome.returned _ heap =>
        Except.ok { node with fdw_state := some { lua := { heap := heap, stack := ss.lua.stack } } }
      | CallOutcome.raised err _ => Except.error (Failure.lua_error (err.tostring E))
      | CallOutcome.ereported message => Except.error (Failure.ereport message) := by
  unfold luaReScanForeignScan
  simp only [hstate, isfunction_getglobal_true _ _ f hg, pcall_getglobal E _ _ f 0 hg, if_true]
  cases E.call f [] ss.lua.heap <;>
    simp [bind, Except.bind, pure, Except.pure, adjustResults_zero, lua_tostring_top]

theorem end_no_function (E : LuaEngine) (node : ForeignScanState) (ss : LuaFdwScanState)
    (hstate : node.fdw_state = some ss)
    (hg : ∀ f, ss.lua.heap.globals "ScanEnd" ≠ LuaValue.function f) :
    luaEndForeignScan E node =
      Except.ok ({ node with fdw_state := none },
        [SessionEvent.stopped (lua_getglobal ss.lua "ScanEnd")]) := by
  unfold luaEndForeignScan
  simp only [hstate, isfunction_getglobal_false _ _ hg]
  rfl

theorem end_called (E : LuaEngine) (node : ForeignScanState) (ss : LuaFdwScanState) (f : Nat)
    (hstate : node.fdw_state = some ss)
    (hg : ss.lua.heap.globals "ScanEnd" = LuaValue.function f) :
    luaEndForeignScan E node =
      match E.call f [] ss.lua.heap with
      | CallOutcome.returned _ heap =>
        Except.ok ({ node with fdw_state := none },
          [SessionEvent.stopped { heap := heap, stack := ss.lua.stack }])
      | CallOutcome.raised err _ => Except.error (Failure.lua_error (err.tostring E))
      | CallOutcome.ereported message => Except.error (Failure.ereport message) := by
  unfold luaEndForeignScan
  simp only [hstate, isfunction_getglobal_true _ _ f hg, pcall_getglobal E _ _ f 0 hg, if_true]
  cases E.call f [] ss.lua.heap <;>
    simp [bind, Except.bind, pure, Except.pure, adjustResults_zero, lua_tostring_top, lua_stop]

theorem begin_state (E : LuaEngine) (plan : ForeignScan) (node out : ForeignScanState)
    (h : luaBeginForeignScan E plan node = Except.ok out) : ∃ ss, out.fdw_state = some ss := by
  by_cases hg : ∃ f, plan.fdw_private.heap.globals "ScanStart" = LuaValue.function f
  · obtain ⟨f, hf⟩ := hg
    rw [begin_called E plan node f hf] at h
    cases hc : E.call f [] plan.fdw_private.heap <;> rw [hc] at h <;> cases h
    exact ⟨_, rfl⟩
  · rw [begin_no_function E plan node (fun f hf => hg ⟨f, hf⟩)] at h
    cases h
    exact ⟨_, rfl⟩

theorem rescan_state (E : LuaEngine) (node out : ForeignScanState)
    (h : luaReScanForeignScan E node = Except.ok out) : ∃ ss, out.fdw_state = some ss := by
  cases hstate : node.fdw_state with
  | none => simp [luaReScanForeignScan, hstate] at h
  | some ss =>
    by_cases hg : ∃ f, ss.lua.heap.globals "ScanRestart" = LuaValue.function f
    · obtain ⟨f, hf⟩ := hg
      rw [rescan_called E node ss f hstate hf] at h
      cases hc : E.call f [] ss.lua.heap <;> rw [hc] at h <;> cases h
      exact ⟨_, rfl⟩
    · rw [rescan_no_function E node ss hstate (fun f hf => hg ⟨f, hf⟩)] at h
      cases h
      exact ⟨_, rfl⟩

theorem next_state (k : PgConsts) (B : Backend) (E : LuaEngine) (node : ForeignScanState)
    (out : ForeignScanState × TupleTableSlot)
    (h : luaIterateForeignScan k B E node = Except.ok out) : ∃ ss, out.1.fdw_state = some ss := by
  cases hstate : node.fdw_state with
  | none => simp [luaIterateForeignScan, hstate] at h
  | some ss =>
    by_cases hg : ∃ f, ss.lua.heap.globals "ScanIterate" = LuaValue.function f
    · obtain ⟨f, hf⟩ := hg
      rw [next_called k B E node ss f hstate hf] at h
      cases hc : E.call f [] ss.lua.heap with
      | returned results heap =>
        rw [hc] at h
        cases hr : firstResult results <;> simp only [hr] at h <;>
          first
          | (cases h; exact ⟨_, rfl⟩)
          | (cases hfill : fillColumns k B E heap _
                node.ss_ScanTupleSlot.tts_tupleDescriptor.attrs 0
                (clearedSlot node.ss_ScanTupleSlot) <;> rw [hfill] at h <;> cases h
             exact ⟨_, rfl⟩)
      | raised err heap => rw [hc] at h; cases h
      | ereported m => rw [hc] at h; cases h
    · rw [next_no_function k B E node ss hstate (fun f hf => hg ⟨f, hf⟩)] at h
      cases h
      exact ⟨_, rfl⟩

theorem scanCalls_state (k : PgConsts) (B : Backend) (E : LuaEngine) (calls : List ScanCall) :
    ∀ (node out : ForeignScanState), (∃ ss, node.fdw_state = some ss) →
      scanCalls k B E calls node = Except.ok out → ∃ ss, out.fdw_state = some ss := by
  induction calls with
  | nil => intro node out hs h; cases h; exact hs
  | cons c rest ih =>
    intro node out _ h
    cases c with
    | next =>
      simp only [scanCalls, bind, Except.bind] at h
      cases hn : luaIterateForeignScan k B E node with
      | error e => rw [hn] at h; cases h
      | ok r =>
        rw [hn] at h
        exact ih r.1 out (next_state k B E node r hn) h
    | rescan =>
      simp only [scanCalls, bind, Except.bind] at h
      cases hn : luaReScanForeignScan E node with
      | error e => rw [hn] at h; cases h
      | ok r =>
        rw [hn] at h
        exact ih r out (rescan_state E node r hn) h

/-! ### Modifying the foreign table -/

theorem modifyCallback_no_function (E : LuaEngine) (L : lua_State) (name : String)
    (hg : ∀ f, L.heap.globals name ≠ LuaValue.function f) :
    modifyCallback E L name = Except.ok (lua_getglobal L name) := by
  unfold modifyCallback
  simp only [isfunction_getglobal_false _ _ hg]
  rfl

theorem modifyCallback_called (E : LuaEngine) (L : lua_State) (name : String) (f : Nat)
    (hg : L.heap.globals name = LuaValue.function f) :
    modifyCallback E L name =
      match E.call f [] L.heap with
      | CallOutcome.returned _ heap => Except.ok { heap := heap, stack := L.stack }
      | CallOutcome.raised err _ => Except.error (Failure.elog name (err.tostring E))
      | CallOutcome.ereported message => Except.error (Failure.ereport message) := by
  unfold modifyCallback
  simp only [isfunction_getglobal_true _ _ f hg, pcall_getglobal E _ _ f 0 hg, if_true]
  cases E.call f [] L.heap <;>
    simp [bind, Except.bind, pure, Except.pure, adjustResults_zero, lua_tostring_top]

/-- A callback of the modify functions that returns, or is absent, lets the lines go on. -/
theorem modifyCallback_returns (E : LuaEngine) (L : lua_State) (name : String)
    (h : callbackReturns E L name) :
    ∃ L1, modifyCallback E L name = Except.ok L1 ∧ L1.heap = heapAfter E L name := by
  by_cases hg : ∃ f, L.heap.globals name = LuaValue.function f
  · obtain ⟨f, hf⟩ := hg
    have hret := h f hf
    rw [modifyCallback_called E L name f hf]
    cases hc : E.call f [] L.heap with
    | returned rs heap => exact ⟨_, rfl, by simp only [heapAfter, hf, hc]⟩
    | raised err heap => rw [hc] at hret; cases hret
    | ereported m => rw [hc] at hret; cases hret
  · have hnf : ∀ f, L.heap.globals name ≠ LuaValue.function f := fun f hf => hg ⟨f, hf⟩
    refine ⟨_, modifyCallback_no_function E L name hnf, ?_⟩
    show L.heap = _
    unfold heapAfter
    cases hv : L.heap.globals name <;> first | rfl | exact absurd hv (hnf _)

theorem modifyCalls_events (E : LuaEngine) (slot : TupleTableSlot) (calls : List ModifyCall) :
    ∀ (rinfo out : ResultRelInfo), (∃ ms, rinfo.ri_FdwState = some ms) →
      modifyCalls E slot calls rinfo = Except.ok out → ∃ ms, out.ri_FdwState = some ms := by
  induction calls with
  | nil => intro rinfo out hs h; cases h; exact hs
  | cons c rest ih =>
    intro rinfo out hs h
    obtain ⟨ms, hms⟩ := hs
    cases c <;>
      simp only [modifyCalls, luaExecForeignInsert, luaExecForeignUpdate, luaExecForeignDelete,
        hms, bind, Except.bind] at h
    all_goals
      revert h
      generalize modifyCallback E ms.lua _ = r
      cases r with
      | error e => intro h; cases h
      | ok L1 => intro h; exact ih _ out ⟨_, rfl⟩ h

theorem foldl_getglobal_heap (names : List String) :
    ∀ L : lua_State, (names.foldl lua_getglobal L).heap = L.heap := by
  induction names with
  | nil => intro L; rfl
  | cons n rest ih => intro L; exact (ih (lua_getglobal L n)).trans rfl

theorem hook_mem (c : ModifyCall) : c.hook ∈ modifyHooks := by
  cases c <;> simp [ModifyCall.hook, modifyHooks]

theorem modifyCalls_no_function (E : LuaEngine) (slot : TupleTableSlot) (calls : List ModifyCall) :
    ∀ (rinfo : ResultRelInfo) (ms : LuaFdwModifyState), rinfo.ri_FdwState = some ms →
      (∀ name ∈ modifyHooks, ∀ f, ms.lua.heap.globals name ≠ LuaValue.function f) →
      modifyCalls E slot calls rinfo =
        Except.ok { ri_FdwState := some { lua := (calls.map ModifyCall.hook).foldl lua_getglobal ms.lua } } := by
  induction calls with
  | nil => intro rinfo ms hms _; cases rinfo; cases hms; rfl
  | cons c rest ih =>
    intro rinfo ms hms hg
    have hc := modifyCallback_no_function E ms.lua c.hook (hg _ (hook_mem c))
    have hrest := ih { ri_FdwState := some { lua := lua_getglobal ms.lua c.hook } }
      { lua := lua_getglobal ms.lua c.hook } rfl hg
    cases c <;>
      simp only [modifyCalls, luaExecForeignInsert, luaExecForeignUpdate, luaExecForeignDelete,
        hms, bind, Except.bind, ModifyCall.hook] at hc ⊢ <;>
      simp only [hc, pure, Except.pure] <;>
      exact hrest

theorem modifyLifecycle_no_function (lv : ElogLevels) (Lib : LuaLib) (slot : TupleTableSlot)
    (calls : List ModifyCall) (rinfo : ResultRelInfo)
    (hlib : ∀ name ∈ modifyHooks, ∀ f, Lib.openlibs.globals name ≠ LuaValue.function f) :
    ∃ base L : lua_State, L.heap = base.heap ∧ ∀ E : LuaEngine,
      lua_start lv Lib E none none = Except.ok base ∧
      modifyLifecycle lv Lib E rinfo slot calls =
        Except.ok ({ ri_FdwState := some { lua := L } }, [SessionEvent.started base]) := by
  obtain ⟨base, -, hglob, -, heq⟩ := lua_start_setup lv Lib
  have hbase : ∀ name ∈ modifyHooks, ∀ f, base.heap.globals name ≠ LuaValue.function f := by
    intro name hn f
    rw [hglob name]
    have hne : name ≠ "fdw" := by
      intro he
      subst he
      revert hn
      decide
    rw [if_neg hne]
    exact hlib name hn f
  refine ⟨base, lua_getglobal ((calls.map ModifyCall.hook).foldl lua_getglobal
    (lua_getglobal base "BeginForeignModify")) "EndForeignModify", ?_, ?_⟩
  · show ((calls.map ModifyCall.hook).foldl lua_getglobal _).heap = _
    rw [foldl_getglobal_heap]
    rfl
  · intro E
    have hstart : lua_start lv Lib E none none = Except.ok base := by rw [heq]; rfl
    refine ⟨hstart, ?_⟩
    have hb := modifyCallback_no_function E base "BeginForeignModify"
      (hbase _ (by decide))
    have hcalls := modifyCalls_no_function E slot calls
      { ri_FdwState := some { lua := lua_getglobal base "BeginForeignModify" } }
      { lua := lua_getglobal base "BeginForeignModify" } rfl hbase
    have hheap : ((calls.map ModifyCall.hook).foldl lua_getglobal
        (lua_getglobal base "BeginForeignModify")).heap = base.heap := by
      rw [foldl_getglobal_heap]; rfl
    have he := modifyCallback_no_function E ((calls.map ModifyCall.hook).foldl lua_getglobal
        (lua_getglobal base "BeginForeignModify")) "EndForeignModify"
      (by rw [hheap]; exact hbase _ (by decide))
    simp only [modifyLifecycle, luaBeginForeignModify, luaEndForeignModify, hstart, hb, hcalls,
      he, bind, Except.bind, pure, Except.pure]
    rfl

/-! ### Planning -/

theorem publishColumns_ok (k : PgConsts) (attrs : List FormData_pg_attribute) :
    ∀ (lua : lua_State) (c : Nat) (rest : List LuaValue), lua.stack = LuaValue.table c :: rest →
      publishColumns k attrs lua =
        Except.ok (lua_State.mk (lua.heap.setTable c (columnsTable k attrs (lua.heap.tables c)))
          lua.stack) := by
  induction attrs with
  | nil =>
    intro lua c rest _
    have : lua.heap.setTable c (lua.heap.tables c) = lua.heap := by
      cases hh : lua.heap
      simp only [LuaHeap.setTable, LuaHeap.mk.injEq, and_true, true_and]
      funext x
      split <;> simp_all
    simp only [publishColumns, columnsTable, this]
    rfl
  | cons att rest ih =>
    intro lua c S hs
    have hstep : lua_settable (if att.atttypid = k.INT4OID ∨ att.atttypid = k.INT8OID then
          lua_pushstring (lua_pushstring lua att.attname) "integer"
        else lua_pushstring (lua_pushstring lua att.attname) "text") (-3) =
        Except.ok (lua_State.mk (lua.heap.setTable c ((lua.heap.tables c).set
            (LuaValue.string att.attname) (LuaValue.string (columnTypeName k att.atttypid))))
          lua.stack) := by
      unfold columnTypeName
      split <;> simp [lua_settable, lua_pushstring, lua_State.push, hs]
    simp only [publishColumns, hstep, bind, Except.bind]
    rw [ih (lua_State.mk (lua.heap.setTable c ((lua.heap.tables c).set
      (LuaValue.string att.attname) (LuaValue.string (columnTypeName k att.atttypid))))
      lua.stack) c S hs]
    simp only [columnsTable, LuaHeap.setTable, if_true, Except.ok.injEq, lua_State.mk.injEq,
      LuaHeap.mk.injEq, and_true, true_and]
    funext x
    split <;> rfl

theorem adjustResults_two (results : List LuaValue) :
    adjustResults 2 results = [firstResult results, secondResult results] := by
  cases results with
  | nil => rfl
  | cons a rest =>
    cases rest with
    | nil => rfl
    | cons b rest => simp [adjustResults, firstResult, secondResult]

theorem number_on_top (Lib : LuaLib) (h : LuaHeap) (v : LuaValue) (S : List LuaValue) :
    (if lua_isnumber Lib { heap := h, stack := v :: S } (-1) = true then
      some (lua_tonumber Lib { heap := h, stack := v :: S } (-1)) else none) = v.tonumber Lib := by
  simp only [lua_isnumber, lua_tonumber, index2adr_neg1, List.getElem?_cons_zero]
  cases v.tonumber Lib <;> simp

theorem estimateCallback_no_function (Lib : LuaLib) (E : LuaEngine) (L : lua_State)
    (name : String) (hg : ∀ f, L.heap.globals name ≠ LuaValue.function f) :
    estimateCallback Lib E L name = Except.ok (lua_getglobal L name, none) := by
  unfold estimateCallback
  simp only [isfunction_getglobal_false _ _ hg]
  rfl

theorem estimateCallback_called (Lib : LuaLib) (E : LuaEngine) (L : lua_State) (name : String)
    (f : Nat) (hg : L.heap.globals name = LuaValue.function f) :
    estimateCallback Lib E L name =
      match E.call f [] L.heap with
      | CallOutcome.returned results heap =>
        Except.ok ({ heap := heap, stack := L.stack }, (firstResult results).tonumber Lib)
      | CallOutcome.raised err _ => Except.error (Failure.lua_error (err.tostring E))
      | CallOutcome.ereported message => Except.error (Failure.ereport message) := by
  unfold estimateCallback
  simp only [isfunction_getglobal_true _ _ f hg, pcall_getglobal E _ _ f 1 hg, if_true]
  cases E.call f [] L.heap with
  | returned rs heap =>
    simp only [bind, Except.bind, adjustResults_one, List.reverse_cons, List.reverse_nil,
      List.nil_append, List.singleton_append, ne_eq, not_true_eq_false, if_false, pure,
      Except.pure, number_on_top]
    rfl
  | raised err heap => simp [bind, Except.bind, lua_tostring_top]
  | ereported m => simp [bind, Except.bind]

theorem costCallback_no_function (Lib : LuaLib) (E : LuaEngine) (L : lua_State)
    (name : String) (hg : ∀ f, L.heap.globals name ≠ LuaValue.function f) :
    costCallback Lib E L name = Except.ok (L, none) := by
  unfold costCallback
  simp only [isfunction_getglobal_false _ _ hg]
  rfl

theorem costCallback_called (Lib : LuaLib) (E : LuaEngine) (L : lua_State) (name : String)
    (f : Nat) (hg : L.heap.globals name = LuaValue.function f) :
    costCallback Lib E L name =
      match E.call f [] L.heap with
      | CallOutcome.returned results heap =>
        Except.ok ({ heap := heap, stack := firstResult results :: L.stack },
          (secondResult results).tonumber Lib)
      | CallOutcome.raised err _ => Except.error (Failure.lua_error (err.tostring E))
      | CallOutcome.ereported message => Except.error (Failure.ereport message) := by
  unfold costCallback
  simp only [isfunction_getglobal_true _ _ f hg, pcall_getglobal E _ _ f 2 hg, if_true]
  cases E.call f [] L.heap with
  | returned rs heap =>
    simp only [bind, Except.bind, adjustResults_two, List.reverse_cons, List.reverse_nil,
      List.nil_append, List.singleton_append, List.cons_append, ne_eq, not_true_eq_false,
      if_false, pure, Except.pure, number_on_top]
    rfl
  | raised err heap => simp [bind, Except.bind, lua_tostring_top]
  | ereported m => simp [bind, Except.bind]

theorem publishSchema_eq (k : PgConsts) (L : lua_State) (rf : Nat) (relname : String)
    (desc : TupleDesc) (hfdw : L.heap.globals "fdw" = LuaValue.table rf) :
    publishSchema k L relname desc = Except.ok (schemaPublished k L rf relname desc) := by
  unfold publishSchema
  have h1 : lua_settable (lua_pushstring (lua_pushstring (lua_getglobal L "fdw") "table") relname)
      (-3) = Except.ok (lua_State.mk (L.heap.setTable rf
        ((L.heap.tables rf).set (LuaValue.string "table") (LuaValue.string relname)))
        (LuaValue.table rf :: L.stack)) := by
    simp [lua_settable, lua_pushstring, lua_getglobal, lua_State.push, hfdw]
  simp only [h1, bind, Except.bind]
  rw [publishColumns_ok k desc.attrs _ L.heap.ntables
    (LuaValue.string "columns" :: LuaValue.table rf :: L.stack) rfl]
  simp only []
  have h2 : ∀ (h : LuaHeap) (n : Nat), lua_settable (lua_State.mk h (LuaValue.table n ::
      LuaValue.string "columns" :: LuaValue.table rf :: L.stack)) (-3) =
      Except.ok (lua_State.mk (h.setTable rf ((h.tables rf).set (LuaValue.string "columns")
        (LuaValue.table n))) (LuaValue.table rf :: L.stack)) := by
    intro h n
    simp [lua_settable]
  simp only [lua_createtable, lua_pushstring, lua_State.push]
  rw [h2]
  rfl

theorem luaGetForeignRelSize_eq (k : PgConsts) (lv : ElogLevels) (Lib : LuaLib) (E : LuaEngine)
    (baserel : RelOptInfo) (relname : String) (desc : TupleDesc) (table : ForeignTable)
    (L : lua_State) (rf : Nat)
    (hstart : lua_start lv Lib E (tableScripts table).1 (tableScripts table).2 = Except.ok L)
    (hfdw : L.heap.globals "fdw" = LuaValue.table rf) :
    luaGetForeignRelSize k lv Lib E baserel relname desc table =
      estimateCallback Lib E (schemaPublished k L rf relname desc) "EstimateRowCount" >>= fun r1 =>
      estimateCallback Lib E r1.1 "EstimateRowWidth" >>= fun r2 =>
      pure (RelOptInfo.mk (r1.2.getD 0) (r2.2.getD baserel.width) (some { lua := r2.1 }),
        [SessionEvent.started L]) := by
  unfold luaGetForeignRelSize
  have hopt : table.options.foldl optionStep (none, none) =
      ((tableScripts table).1, (tableScripts table).2) := rfl
  rw [hopt]
  simp only [hstart, publishSchema_eq k L rf relname desc hfdw, bind, Except.bind]
  cases estimateCallback Lib E (schemaPublished k L rf relname desc) "EstimateRowCount" with
  | error e => rfl
  | ok r1 =>
    simp only []
    cases estimateCallback Lib E r1.1 "EstimateRowWidth" with
    | error e => rfl
    | ok r2 =>
      obtain ⟨l1, o1⟩ := r1
      obtain ⟨l2, o2⟩ := r2
      cases o1 <;> cases o2 <;> rfl

theorem luaGetForeignPaths_eq (Lib : LuaLib) (E : LuaEngine) (baserel : RelOptInfo)
    (ps : LuaFdwPlanState) (hp : baserel.fdw_private = some ps) :
    luaGetForeignPaths Lib E baserel =
      costCallback Lib E ps.lua "EstimateStartupCost" >>= fun r1 =>
      costCallback Lib E r1.1 "EstimateTotalCost" >>= fun r2 =>
      pure ({ baserel with fdw_private := some { lua := r2.1 } },
        ForeignPath.mk baserel.rows (r1.2.getD 0) (r2.2.getD (0 + baserel.rows))) := by
  unfold luaGetForeignPaths
  simp only [hp, bind, Except.bind]

theorem schemaPublished_globals (k : PgConsts) (L : lua_State) (rf : Nat) (relname : String)
    (desc : TupleDesc) : (schemaPublished k L rf relname desc).heap.globals = L.heap.globals :=
  rfl

theorem schemaPublished_stack (k : PgConsts) (L : lua_State) (rf : Nat) (relname : String)
    (desc : TupleDesc) : (schemaPublished k L rf relname desc).stack = L.stack :=
  rfl

/-- Size estimation when neither `EstimateRowCount` nor `EstimateRowWidth` is a function. -/
theorem relSize_no_function (k : PgConsts) (lv : ElogLevels) (Lib : LuaLib) (E : LuaEngine)
    (baserel : RelOptInfo) (relname : String) (desc : TupleDesc) (table : ForeignTable)
    (L : lua_State) (rf : Nat)
    (hstart : lua_start lv Lib E (tableScripts table).1 (tableScripts table).2 = Except.ok L)
    (hfdw : L.heap.globals "fdw" = LuaValue.table rf)
    (h1 : notFunction L "EstimateRowCount") (h2 : notFunction L "EstimateRowWidth") :
    luaGetForeignRelSize k lv Lib E baserel relname desc table =
      Except.ok (RelOptInfo.mk 0 baserel.width (some { lua := lua_getglobal (lua_getglobal
        (schemaPublished k L rf relname desc) "EstimateRowCount") "EstimateRowWidth" }),
        [SessionEvent.started L]) := by
  rw [luaGetForeignRelSize_eq k lv Lib E baserel relname desc table L rf hstart hfdw,
    estimateCallback_no_function Lib E (schemaPublished k L rf relname desc) _ h1]
  simp only [bind, Except.bind]
  rw [estimateCallback_no_function Lib E
    (lua_getglobal (schemaPublished k L rf relname desc) "EstimateRowCount") _ h2]
  rfl

/-- Path costing when neither `EstimateStartupCost` nor `EstimateTotalCost` is a function. -/
theorem paths_no_function (Lib : LuaLib) (E : LuaEngine) (baserel : RelOptInfo)
    (ps : LuaFdwPlanState) (hp : baserel.fdw_private = some ps)
    (h1 : notFunction ps.lua "EstimateStartupCost") (h2 : notFunction ps.lua "EstimateTotalCost") :
    luaGetForeignPaths Lib E baserel =
      Except.ok ({ baserel with fdw_private := some { lua := ps.lua } },
        ForeignPath.mk baserel.rows 0 (0 + baserel.rows)) := by
  rw [luaGetForeignPaths_eq Lib E baserel ps hp, costCallback_no_function Lib E _ _ h1]
  simp only [bind, Except.bind]
  rw [costCallback_no_function Lib E _ _ h2]
  rfl

theorem notFunction_of_nil (L : lua_State) (name : String)
    (h : L.heap.globals name = LuaValue.nil) : notFunction L name := by
  intro f hf
  rw [h] at hf
  cases hf

/-! ### The translator: operators and column lookup -/

theorem clauseArgs_guard (k : PgConsts) (r : RestrictInfo) (a : Oid × Int × Oid × Datum)
    (h : clauseArgs k r = some a) : (is_eq k a.1 || is_like k a.1) = true := by
  unfold clauseArgs at h
  split at h
  · split at h
    · split at h
      · split at h
        · simp only [] at h
          split at h
          · cases h
            simp_all
          · cases h
        · cases h
      · cases h
    · cases h
  · cases h

theorem operatorString_eq_or_like (k : PgConsts) (opno : Oid)
    (hdisj : is_eq k opno = true → is_lt k opno = false)
    (hguard : (is_eq k opno || is_like k opno) = true) :
    operatorString k opno = "eq" ∨ operatorString k opno = "like" := by
  unfold operatorString
  by_cases hl : is_like k opno = true
  · simp [hl]
  · have he : is_eq k opno = true := by
      cases h1 : is_eq k opno
      · simp [h1] at hguard; exact absurd hguard hl
      · rfl
    simp [hl, hdisj he, is_gt]

theorem attr_in_bounds (desc : TupleDesc) (a : Int) (h1 : 1 ≤ a) (h2 : a ≤ desc.natts) :
    ∃ att, desc.attrs[(a - 1).toNat]? = some att ∧ desc.attr (a - 1) = Except.ok att := by
  have hlt : (a - 1).toNat < desc.attrs.length := by
    unfold TupleDesc.natts at h2
    omega
  refine ⟨desc.attrs[(a - 1).toNat], List.getElem?_eq_getElem hlt, ?_⟩
  unfold TupleDesc.attr
  rw [if_pos (by omega), List.getElem?_eq_getElem hlt]
  rfl

theorem attr_out_of_bounds (desc : TupleDesc) (a : Int) :
    (∃ e, desc.attr (a - 1) = Except.error e) ↔ a ≤ 0 ∨ (desc.natts : Int) < a := by
  constructor
  · rintro ⟨e, he⟩
    by_contra hcon
    obtain ⟨att, -, hatt⟩ := attr_in_bounds desc a (by omega) (by omega)
    rw [hatt] at he
    cases he
  · intro h
    unfold TupleDesc.attr
    by_cases h0 : 0 ≤ a - 1
    · rw [if_pos h0]
      have hge : desc.attrs.length ≤ (a - 1).toNat := by
        unfold TupleDesc.natts at h
        omega
      rw [List.getElem?_eq_none hge]
      exact ⟨_, rfl⟩
    · rw [if_neg h0]
      exact ⟨_, rfl⟩

/-! ### The Session through the scan -/

theorem heapAfter_no_function (E : LuaEngine) (L : lua_State) (name : String)
    (hg : ∀ f, L.heap.globals name ≠ LuaValue.function f) : heapAfter E L name = L.heap := by
  unfold heapAfter
  cases hv : L.heap.globals name <;> first | rfl | exact absurd hv (hg _)

theorem heapAfter_returned (E : LuaEngine) (L : lua_State) (name : String) (f : Nat)
    (rs : List LuaValue) (h : LuaHeap) (hg : L.heap.globals name = LuaValue.function f)
    (hc : E.call f [] L.heap = CallOutcome.returned rs h) : heapAfter E L name = h := by
  simp only [heapAfter, hg, hc]

theorem begin_session (E : LuaEngine) (plan : ForeignScan) (node out : ForeignScanState)
    (h : luaBeginForeignScan E plan node = Except.ok out) :
    ∃ ss, out.fdw_state = some ss ∧ ss.lua.stack = plan.fdw_private.stack ∧
      ss.lua.heap = heapAfter E plan.fdw_private "ScanStart" := by
  by_cases hg : ∃ f, plan.fdw_private.heap.globals "ScanStart" = LuaValue.function f
  · obtain ⟨f, hf⟩ := hg
    rw [begin_called E plan node f hf] at h
    cases hc : E.call f [] plan.fdw_private.heap <;> rw [hc] at h <;> cases h
    exact ⟨_, rfl, rfl, (heapAfter_returned E _ _ f _ _ hf hc).symm⟩
  · have hnf : ∀ f, plan.fdw_private.heap.globals "ScanStart" ≠ LuaValue.function f :=
      fun f hf => hg ⟨f, hf⟩
    rw [begin_no_function E plan node hnf] at h
    cases h
    exact ⟨_, rfl, rfl, (heapAfter_no_function E _ _ hnf).symm⟩

theorem rescan_session (E : LuaEngine) (node out : ForeignScanState) (ss : LuaFdwScanState)
    (hstate : node.fdw_state = some ss) (h : luaReScanForeignScan E node = Except.ok out) :
    ∃ ss1, out.fdw_state = some ss1 ∧ ss1.lua.heap = heapAfter E ss.lua "ScanRestart" ∧
      ((∀ f, ss.lua.heap.globals "ScanRestart" ≠ LuaValue.function f) →
        ss1.lua.stack.length = ss.lua.stack.length + 1) ∧
      ((∃ f, ss.lua.heap.globals "ScanRestart" = LuaValue.function f) →
        ss1.lua.stack = ss.lua.stack) := by
  by_cases hg : ∃ f, ss.lua.heap.globals "ScanRestart" = LuaValue.function f
  · obtain ⟨f, hf⟩ := hg
    rw [rescan_called E node ss f hstate hf] at h
    cases hc : E.call f [] ss.lua.heap <;> rw [hc] at h <;> cases h
    exact ⟨_, rfl, (heapAfter_returned E _ _ f _ _ hf hc).symm,
      fun hnf => absurd hf (hnf f), fun _ => rfl⟩
  · have hnf : ∀ f, ss.lua.heap.globals "ScanRestart" ≠ LuaValue.function f :=
      fun f hf => hg ⟨f, hf⟩
    rw [rescan_no_function E node ss hstate hnf] at h
    cases h
    exact ⟨_, rfl, (heapAfter_no_function E _ _ hnf).symm, fun _ => rfl, fun hex => absurd hex hg⟩

theorem next_session (k : PgConsts) (B : Backend) (E : LuaEngine) (node : ForeignScanState)
    (ss : LuaFdwScanState) (out : ForeignScanState × TupleTableSlot)
    (hstate : node.fdw_state = some ss)
    (h : luaIterateForeignScan k B E node = Except.ok out) :
    ∃ ss1, out.1.fdw_state = some ss1 ∧ ss1.lua.stack = ss.lua.stack ∧
      ss1.lua.heap = heapAfter E ss.lua "ScanIterate" := by
  by_cases hg : ∃ f, ss.lua.heap.globals "ScanIterate" = LuaValue.function f
  · obtain ⟨f, hf⟩ := hg
    rw [next_called k B E node ss f hstate hf] at h
    cases hc : E.call f [] ss.lua.heap with
    | returned results heap =>
      rw [hc] at h
      have hh := (heapAfter_returned E _ _ f _ _ hf hc).symm
      cases hr : firstResult results <;> simp only [hr] at h <;>
        first
        | (cases h; exact ⟨_, rfl, rfl, hh⟩)
        | (cases hfill : fillColumns k B E heap _
              node.ss_ScanTupleSlot.tts_tupleDescriptor.attrs 0
              (clearedSlot node.ss_ScanTupleSlot) <;> rw [hfill] at h <;> cases h
           exact ⟨_, rfl, rfl, hh⟩)
    | raised err heap => rw [hc] at h; cases h
    | ereported m => rw [hc] at h; cases h
  · have hnf : ∀ f, ss.lua.heap.globals "ScanIterate" ≠ LuaValue.function f :=
      fun f hf => hg ⟨f, hf⟩
    rw [next_no_function k B E node ss hstate hnf] at h
    cases h
    exact ⟨ss, rfl, rfl, (heapAfter_no_function E _ _ hnf).symm⟩

theorem rescans_grow_stack (k : PgConsts) (B : Backend) (E : LuaEngine) (n : Nat) :
    ∀ (node : ForeignScanState) (ss : LuaFdwScanState), node.fdw_state = some ss →
      (∀ f, ss.lua.heap.globals "ScanRestart" ≠ LuaValue.function f) →
      ∃ out ss1, scanCalls k B E (List.replicate n ScanCall.rescan) node = Except.ok out ∧
        out.fdw_state = some ss1 ∧ ss1.lua.heap = ss.lua.heap ∧
        ss1.lua.stack.length = ss.lua.stack.length + n := by
  induction n with
  | zero => intro node ss hs _; exact ⟨node, ss, rfl, hs, rfl, rfl⟩
  | succ n ih =>
    intro node ss hs hnf
    obtain ⟨out, ss1, hrun, hout, hheap, hlen⟩ :=
      ih { node with fdw_state := some { lua := lua_getglobal ss.lua "ScanRestart" } }
        { lua := lua_getglobal ss.lua "ScanRestart" } rfl hnf
    refine ⟨out, ss1, ?_, hout, hheap, ?_⟩
    · simp only [List.replicate_succ, scanCalls, rescan_no_function E node ss hs hnf, bind,
        Except.bind]
      exact hrun
    · rw [hlen]
      simp only [lua_getglobal, lua_State.push, List.length_cons]
      omega

/-! ### The published schema -/

theorem columnsTable_other (k : PgConsts) (attrs : List FormData_pg_attribute) :
    ∀ (t : LuaTable) (key : LuaValue), (∀ att ∈ attrs, key ≠ LuaValue.string att.attname) →
      columnsTable k attrs t key = t key := by
  induction attrs with
  | nil => intro t key _; rfl
  | cons a rest ih =>
    intro t key h
    simp only [columnsTable]
    rw [ih _ key (fun att hatt => h att (List.mem_cons_of_mem a hatt))]
    simp only [LuaTable.set, if_neg (h a (List.mem_cons_self a rest))]

theorem columnsTable_mem (k : PgConsts) (attrs : List FormData_pg_attribute) :
    ∀ (t : LuaTable), (attrs.map (fun a => a.attname)).Nodup →
      ∀ att ∈ attrs, columnsTable k attrs t (LuaValue.string att.attname) =
        LuaValue.string (columnTypeName k att.atttypid) := by
  induction attrs with
  | nil => intro t _ att hatt; exact absurd hatt (List.not_mem_nil att)
  | cons a rest ih =>
    intro t hnd att hatt
    simp only [List.map_cons, List.nodup_cons, List.mem_map, not_exists, not_and] at hnd
    simp only [columnsTable]
    rcases List.mem_cons.1 hatt with rfl | hrest
    · rw [columnsTable_other k rest _ _ (fun b hb hne =>
        hnd.1 b hb (LuaValue.string.inj hne).symm)]
      simp [LuaTable.set]
    · exact ih _ hnd.2 att hrest

theorem schemaPublished_tables (k : PgConsts) (L : lua_State) (rf : Nat) (relname : String)
    (desc : TupleDesc) (hrf : rf < L.heap.ntables) :
    (schemaPublished k L rf relname desc).heap.tables rf (LuaValue.string "columns") =
      LuaValue.table L.heap.ntables ∧
    (schemaPublished k L rf relname desc).heap.tables rf (LuaValue.string "table") =
      LuaValue.string relname ∧
    (schemaPublished k L rf relname desc).heap.tables L.heap.ntables =
      columnsTable k desc.attrs LuaTable.empty := by
  have hne : rf ≠ L.heap.ntables := Nat.ne_of_lt hrf
  have hne2 : L.heap.ntables ≠ rf := fun h => hne h.symm
  refine ⟨?_, ?_, ?_⟩
  · simp [schemaPublished, LuaHeap.setTable, LuaTable.set]
  · simp [schemaPublished, LuaHeap.setTable, LuaTable.set, hne]
  · simp [schemaPublished, LuaHeap.setTable, hne2]

/-! ## The claims -/

/-- C1. Translator soundness: restrictions that are not of the shape `column OP literal`
(non-OR, binary operator expression, a column and a literal, recognized operator, supported
literal type) can be removed from the list without changing the outcome of
`luaGetForeignPlan` in any way (no entry, no error), and every condition published in
`fdw.clauses` is the entry of a restriction of the list that has this shape. -/
theorem translator_soundness (k : PgConsts) (B : Backend) (baserel : RelOptInfo)
    (desc : TupleDesc) (rs : List RestrictInfo) (ps : LuaFdwPlanState) (rf : Nat)
    (hp : baserel.fdw_private = some ps)
    (hfdw : ps.lua.heap.globals "fdw" = LuaValue.table rf) (hrf : rf < ps.lua.heap.ntables) :
    luaGetForeignPlan k B baserel desc rs =
      luaGetForeignPlan k B baserel desc (rs.filter (ColumnOpLiteral k)) ∧
    ∀ out, luaGetForeignPlan k B baserel desc rs = Except.ok out →
      ∀ (i : Int) (c : Condition), publishedCondition out.2.fdw_private i = some c →
        ∃ r ∈ rs, ColumnOpLiteral k r = true ∧ conditionOf k B desc r = some (Except.ok c) := by
  refine ⟨luaGetForeignPlan_filter k B baserel desc _
    (fun r h => clauseArgs_none_of_not_shape k r h) rs, ?_⟩
  intro out hrun i c hc
  obtain ⟨r, hr, hacc, hcr⟩ :=
    published_origin k B baserel desc rs ps rf hp hfdw hrf out hrun i c hc
  exact ⟨r, hr, accepts_shape k r hacc, hcr⟩

/-- C1 on the worked example: the condition under key 2 comes from `name LIKE 'A%'`. -/
theorem translator_soundness_witness :
    ∃ r ∈ [ageEq30, nameLikeA, ageOr], ColumnOpLiteral pg r = true ∧
      conditionOf pg noBackend ageName r =
        some (Except.ok { column := "name", operator := "like", type := "text", constant := "A%" }) :=
  (translator_soundness pg noBackend (planning freshState) ageName [ageEq30, nameLikeA, ageOr]
    { lua := freshState } 0 rfl rfl (by decide)).2 _ rfl 2 _ rfl

/-- C2, counterexample: `age < 5` (operator `Int4LessOperator`, which `is_lt` recognizes) and
`age > 5` on an integer column: the run returns and nothing is published under key 1. -/
theorem lt_gt_counterexample :
    is_lt pg 97 = true ∧
    (planLua (luaGetForeignPlan pg noBackend (planning freshState) ageName [ageLt5])).map
      (fun L => publishedCondition L 1) = some none ∧
    (planLua (luaGetForeignPlan pg noBackend (planning freshState) ageName [ageGt5])).map
      (fun L => publishedCondition L 1) = some none := by
  decide

/-- C2, amended: a non-OR restriction `column OP literal` whose operator is in the equality
set of `is_eq` or is the text LIKE operator, with a literal of a supported type, gets exactly
one entry: after the entries of the restrictions before it and before those of the
restrictions after it; its operator is "like" for LIKE and "eq" for an equality operator;
and no published condition ever has the operator "gt". -/
theorem equality_and_like_are_translated (k : PgConsts) (B : Backend) (baserel : RelOptInfo)
    (desc : TupleDesc) (pre post : List RestrictInfo) (ps : LuaFdwPlanState) (rf : Nat)
    (opno : Oid) (varattno : Int) (id : Oid) (cv : Datum)
    (hp : baserel.fdw_private = some ps)
    (hfdw : ps.lua.heap.globals "fdw" = LuaValue.table rf) (hrf : rf < ps.lua.heap.ntables)
    (hop : is_eq k opno = true ∨ is_like k opno = true) (hty : supportedType k id = true)
    (hren : ∀ x ∈ pre ++ { clause := Node.OpExpr opno [Node.Var varattno, Node.Const id cv],
                           orclause := none } :: post, renders k B desc x = true) :
    ∃ (out : RelOptInfo × ForeignScan) (c : Condition) (t : LuaTable),
      luaGetForeignPlan k B baserel desc
        (pre ++ { clause := Node.OpExpr opno [Node.Var varattno, Node.Const id cv],
                  orclause := none } :: post) = Except.ok out ∧
      publishedCondition out.2.fdw_private (acceptedCount k pre + 1) = some c ∧
      fdwClauses out.2.fdw_private = some t ∧
      (∀ key, t key ≠ LuaValue.nil ↔
        ∃ i : Int, 1 ≤ i ∧ i ≤ acceptedCount k pre + 1 + acceptedCount k post ∧
          key = LuaValue.number i) ∧
      (is_like k opno = true → c.operator = "like") ∧
      (is_like k opno = false → is_lt k opno = false → c.operator = "eq") ∧
      (∀ (i : Int) (c2 : Condition),
        publishedCondition out.2.fdw_private i = some c2 → c2.operator ≠ "gt") := by
  have ha := clauseArgs_column_literal k opno varattno id cv hop hty
  obtain ⟨out, c, t, hrun, he, hpub, ht, hkeys⟩ :=
    entry_in_context k B baserel desc pre post _ _ ps rf hp hfdw hrf hren ha
  obtain ⟨_, hopr, _, _⟩ := entryOf_ok k B desc _ c he
  refine ⟨out, c, t, hrun, hpub, ht, hkeys, ?_, ?_, ?_⟩
  · intro h
    rw [hopr]
    simp [operatorString, h]
  · intro h1 h2
    rw [hopr]
    simp [operatorString, h1, h2, is_gt]
  · intro i c2 hc2
    obtain ⟨r, _, hacc, hcr⟩ :=
      published_origin k B baserel desc _ ps rf hp hfdw hrf out hrun i c2 hc2
    unfold conditionOf at hcr
    cases ha2 : clauseArgs k r with
    | none => rw [ha2] at hcr; cases hcr
    | some a2 =>
      rw [ha2] at hcr
      simp only [Option.map_some', Option.some.injEq] at hcr
      obtain ⟨_, hopr2, _, _⟩ := entryOf_ok k B desc a2 c2 hcr
      rw [hopr2]
      exact operatorString_ne_gt k a2.1

/-- C2 as amended, for `name LIKE 'A%'` between other restrictions. -/
theorem equality_and_like_are_translated_witness :
    ∃ (out : RelOptInfo × ForeignScan) (c : Condition) (t : LuaTable),
      luaGetForeignPlan pg noBackend (planning freshState) ageName
        ([ageEq30, ageLt5] ++ nameLikeA :: [ageEq30]) = Except.ok out ∧
      publishedCondition out.2.fdw_private (acceptedCount pg [ageEq30, ageLt5] + 1) = some c ∧
      fdwClauses out.2.fdw_private = some t ∧
      (∀ key, t key ≠ LuaValue.nil ↔
        ∃ i : Int, 1 ≤ i ∧ i ≤ acceptedCount pg [ageEq30, ageLt5] + 1 + acceptedCount pg [ageEq30] ∧
          key = LuaValue.number i) ∧
      (is_like pg 1209 = true → c.operator = "like") ∧
      (is_like pg 1209 = false → is_lt pg 1209 = false → c.operator = "eq") ∧
      (∀ (i : Int) (c2 : Condition),
        publishedCondition out.2.fdw_private i = some c2 → c2.operator ≠ "gt") :=
  equality_and_like_are_translated pg noBackend (planning freshState) ageName [ageEq30, ageLt5]
    [ageEq30] { lua := freshState } 0 1209 2 25 (Datum.text "A%") rfl rfl (by decide)
    (by decide) (by decide) (by decide)

/-- C3, counterexample: `30 = age`, the literal on the left, has the shape of the claim, and
nothing is published for it, while `age = 30` is published under key 1. -/
theorem operand_order_counterexample :
    ColumnOpLiteral pg thirtyEqAge = true ∧
    (planLua (luaGetForeignPlan pg noBackend (planning freshState) ageName [thirtyEqAge])).map
      (fun L => publishedCondition L 1) = some none ∧
    (planLua (luaGetForeignPlan pg noBackend (planning freshState) ageName [ageEq30])).map
      (fun L => publishedCondition L 1) =
      some (some { column := "age", operator := "eq", type := "integer", constant := "30" }) := by
  decide

/-- C3, amended: the operand order is not normalized.  A restriction with the literal on the
left and the column on the right is skipped: the outcome is that of the list without it.
With the column on the left and the literal on the right, the same operator, column and
literal give an entry whose column field is the name of that column and whose constant field
is the text of the literal. -/
theorem operand_order (k : PgConsts) (B : Backend) (baserel : RelOptInfo)
    (desc : TupleDesc) (pre post : List RestrictInfo) (ps : LuaFdwPlanState) (rf : Nat)
    (opno : Oid) (varattno : Int) (id : Oid) (cv : Datum)
    (hp : baserel.fdw_private = some ps)
    (hfdw : ps.lua.heap.globals "fdw" = LuaValue.table rf) (hrf : rf < ps.lua.heap.ntables)
    (hop : is_eq k opno = true ∨ is_like k opno = true) (hty : supportedType k id = true)
    (hren : ∀ x ∈ pre ++ { clause := Node.OpExpr opno [Node.Var varattno, Node.Const id cv],
                           orclause := none } :: post, renders k B desc x = true) :
    luaGetForeignPlan k B baserel desc
        (pre ++ { clause := Node.OpExpr opno [Node.Const id cv, Node.Var varattno],
                  orclause := none } :: post) =
      luaGetForeignPlan k B baserel desc (pre ++ post) ∧
    ∃ (out : RelOptInfo × ForeignScan) (c : Condition) (att : FormData_pg_attribute),
      luaGetForeignPlan k B baserel desc
        (pre ++ { clause := Node.OpExpr opno [Node.Var varattno, Node.Const id cv],
                  orclause := none } :: post) = Except.ok out ∧
      publishedCondition out.2.fdw_private (acceptedCount k pre + 1) = some c ∧
      desc.attr (varattno - 1) = Except.ok att ∧ c.column = att.attname ∧
      constantString k B id cv = Except.ok c.constant := by
  refine ⟨luaGetForeignPlan_skip k B baserel desc pre post _
    (clauseArgs_literal_first k opno id cv _ none), ?_⟩
  have ha := clauseArgs_column_literal k opno varattno id cv hop hty
  obtain ⟨out, c, t, hrun, he, hpub, _, _⟩ :=
    entry_in_context k B baserel desc pre post _ _ ps rf hp hfdw hrf hren ha
  obtain ⟨⟨att, hatt, hcol⟩, _, _, hcs⟩ := entryOf_ok k B desc _ c he
  exact ⟨out, c, att, hrun, hpub, hatt, hcol, hcs⟩

/-- C3 as amended, for `30 = age` and `age = 30` between other restrictions. -/
theorem operand_order_witness :
    luaGetForeignPlan pg noBackend (planning freshState) ageName
        ([nameLikeA] ++ thirtyEqAge :: [ageOr]) =
      luaGetForeignPlan pg noBackend (planning freshState) ageName ([nameLikeA] ++ [ageOr]) ∧
    ∃ (out : RelOptInfo × ForeignScan) (c : Condition) (att : FormData_pg_attribute),
      luaGetForeignPlan pg noBackend (planning freshState) ageName
        ([nameLikeA] ++ ageEq30 :: [ageOr]) = Except.ok out ∧
      publishedCondition out.2.fdw_private (acceptedCount pg [nameLikeA] + 1) = some c ∧
      ageName.attr (1 - 1) = Except.ok att ∧ c.column = att.attname ∧
      constantString pg noBackend 23 (Int32GetDatum 30) = Except.ok c.constant :=
  operand_order pg noBackend (planning freshState) ageName [nameLikeA] [ageOr]
    { lua := freshState } 0 96 1 23 (Int32GetDatum 30) rfl rfl (by decide) (by decide)
    (by decide) (by decide)

/-- C4. The worked example: for the columns age (integer) and name (text) and the
restrictions `age = 30`, `name LIKE 'A%'`, `age > 10 OR age < 5`, the run returns and
`fdw.clauses` has exactly the keys 1 and 2, with the conditions of the first two restrictions
in this order; the OR clause has no entry. -/
theorem translator_worked_example (B : Backend) :
    ∃ (out : RelOptInfo × ForeignScan) (t : LuaTable),
      luaGetForeignPlan pg B (planning freshState) ageName [ageEq30, nameLikeA, ageOr] =
        Except.ok out ∧
      fdwClauses out.2.fdw_private = some t ∧
      (∀ key, t key ≠ LuaValue.nil ↔ key = LuaValue.number 1 ∨ key = LuaValue.number 2) ∧
      publishedCondition out.2.fdw_private 1 =
        some { column := "age", operator := "eq", type := "integer", constant := "30" } ∧
      publishedCondition out.2.fdw_private 2 =
        some { column := "name", operator := "like", type := "text", constant := "A%" } := by
  have ht : translate pg B ageName [ageEq30, nameLikeA, ageOr] =
      Except.ok [{ column := "age", operator := "eq", type := "integer", constant := "30" },
        { column := "name", operator := "like", type := "text", constant := "A%" }] := rfl
  have P := published_post freshState 0
    [{ column := "age", operator := "eq", type := "integer", constant := "30" },
      { column := "name", operator := "like", type := "text", constant := "A%" }]
    (by decide : 0 < freshState.heap.ntables)
  refine ⟨_, _, luaGetForeignPlan_ok pg B (planning freshState) ageName _ { lua := freshState } 0
    _ rfl rfl ht, P.fdwClauses_eq rfl, ?_, P.published_get rfl 0 (by decide),
    P.published_get rfl 1 (by decide)⟩
  intro key
  rw [P.key_iff key]
  constructor
  · rintro ⟨i, h1, h2, rfl⟩
    simp only [List.length_cons, List.length_nil] at h2
    have : i = 1 ∨ i = 2 := by omega
    rcases this with h | h <;> simp [h]
  · rintro (h | h)
    · exact ⟨1, by decide, by decide, h⟩
    · exact ⟨2, by decide, by decide, h⟩

/-- C5. Condition order and numbering: when every entry can be built, `luaGetForeignPlan`
returns and the keys of `fdw.clauses` are exactly the integers 1..N, N the number of accepted
restrictions; the condition under key j+1 is the j-th element of the filter-map of the input
list, in input order; a restriction listed twice gives two entries with the same condition. -/
theorem condition_order_and_numbering (k : PgConsts) (B : Backend) (baserel : RelOptInfo)
    (desc : TupleDesc) (rs : List RestrictInfo) (ps : LuaFdwPlanState) (rf : Nat)
    (hp : baserel.fdw_private = some ps)
    (hfdw : ps.lua.heap.globals "fdw" = LuaValue.table rf) (hrf : rf < ps.lua.heap.ntables)
    (hren : ∀ r ∈ rs, renders k B desc r = true) :
    ∃ (out : RelOptInfo × ForeignScan) (cs : List Condition) (t : LuaTable),
      luaGetForeignPlan k B baserel desc rs = Except.ok out ∧
      rs.filterMap (conditionOf k B desc) = cs.map Except.ok ∧
      cs.length = acceptedCount k rs ∧
      fdwClauses out.2.fdw_private = some t ∧
      (∀ key, t key ≠ LuaValue.nil ↔
        ∃ i : Int, 1 ≤ i ∧ i ≤ cs.length ∧ key = LuaValue.number i) ∧
      (∀ (j : Nat) (h : j < cs.length),
        publishedCondition out.2.fdw_private (j + 1) = some (cs.get ⟨j, h⟩)) ∧
      (∀ r c, rs = [r, r] → conditionOf k B desc r = some (Except.ok c) →
        publishedCondition out.2.fdw_private 1 = some c ∧
        publishedCondition out.2.fdw_private 2 = some c) := by
  obtain ⟨cs, ht⟩ := translate_of_renders k B desc rs hren
  have P := published_post ps.lua rf cs hrf
  have hfm := translate_filterMap k B desc rs cs ht
  have hget : ∀ (j : Nat) (h : j < cs.length),
      publishedCondition (published ps.lua rf cs) (j + 1) = some (cs.get ⟨j, h⟩) := by
    intro j h
    have := P.published_get hfdw j h
    rwa [add_comm] at this
  refine ⟨_, cs, _, luaGetForeignPlan_ok k B baserel desc rs ps rf cs hp hfdw ht, hfm,
    translate_length k B desc rs cs ht, P.fdwClauses_eq hfdw, fun key => P.key_iff key, hget, ?_⟩
  intro r c hrs hc
  subst hrs
  have hcs : cs = [c, c] := by
    simp only [List.filterMap_cons_some hc, List.filterMap_nil] at hfm
    match cs, hfm with
    | [a, b], hfm =>
      simp only [List.map_cons, List.map_nil, List.cons.injEq, Except.ok.injEq, and_true] at hfm
      rw [← hfm.1, ← hfm.2]
  subst hcs
  exact ⟨hget 0 (by simp), hget 1 (by simp)⟩

/-- C5 on a list with an OR clause in the middle and `age = 30` twice. -/
theorem condition_order_and_numbering_witness :
    ∃ (out : RelOptInfo × ForeignScan) (cs : List Condition) (t : LuaTable),
      luaGetForeignPlan pg noBackend (planning freshState) ageName
        [ageEq30, ageOr, nameLikeA, ageEq30] = Except.ok out ∧
      [ageEq30, ageOr, nameLikeA, ageEq30].filterMap (conditionOf pg noBackend ageName) =
        cs.map Except.ok ∧
      cs.length = acceptedCount pg [ageEq30, ageOr, nameLikeA, ageEq30] ∧
      fdwClauses out.2.fdw_private = some t ∧
      (∀ key, t key ≠ LuaValue.nil ↔
        ∃ i : Int, 1 ≤ i ∧ i ≤ cs.length ∧ key = LuaValue.number i) ∧
      (∀ (j : Nat) (h : j < cs.length),
        publishedCondition out.2.fdw_private (j + 1) = some (cs.get ⟨j, h⟩)) ∧
      (∀ r c, [ageEq30, ageOr, nameLikeA, ageEq30] = [r, r] →
        conditionOf pg noBackend ageName r = some (Except.ok c) →
        publishedCondition out.2.fdw_private 1 = some c ∧
        publishedCondition out.2.fdw_private 2 = some c) :=
  condition_order_and_numbering pg noBackend (planning freshState) ageName
    [ageEq30, ageOr, nameLikeA, ageEq30] { lua := freshState } 0 rfl rfl (by decide) (by decide)

/-- C6. Literal encoding: the entry of an accepted restriction (published under its key, after
the entries of the restrictions before it) has the type field "integer" for a 32-bit or 64-bit
integer literal, "timestamp" for a timestamp and "text" for text; its constant field is the
signed decimal numeral of the value for every 32-bit integer and every 64-bit integer, and
the raw text for a text literal. -/
theorem literal_encoding (k : PgConsts) (B : Backend) (baserel : RelOptInfo)
    (desc : TupleDesc) (pre post : List RestrictInfo) (r : RestrictInfo)
    (ps : LuaFdwPlanState) (rf : Nat) (opno : Oid) (attno : Int) (id : Oid) (cv : Datum)
    (hk : k.typesDistinct) (hp : baserel.fdw_private = some ps)
    (hfdw : ps.lua.heap.globals "fdw" = LuaValue.table rf) (hrf : rf < ps.lua.heap.ntables)
    (hren : ∀ x ∈ pre ++ r :: post, renders k B desc x = true)
    (ha : clauseArgs k r = some (opno, attno, id, cv)) :
    ∃ (out : RelOptInfo × ForeignScan) (c : Condition),
      luaGetForeignPlan k B baserel desc (pre ++ r :: post) = Except.ok out ∧
      publishedCondition out.2.fdw_private (acceptedCount k pre + 1) = some c ∧
      (id = k.INT4OID ∨ id = k.INT8OID → c.type = "integer") ∧
      (id = k.TIMESTAMPOID → c.type = "timestamp") ∧
      (id = k.TEXTOID → c.type = "text") ∧
      (∀ v : Int, id = k.INT4OID → -2 ^ 31 ≤ v → v < 2 ^ 31 → cv = Int32GetDatum v →
        c.constant = toString v) ∧
      (∀ v : Int, id = k.INT8OID → -2 ^ 63 ≤ v → v < 2 ^ 63 → cv = Int64GetDatum v →
        c.constant = toString v) ∧
      (∀ s : String, id = k.TEXTOID → cv = Datum.text s → c.constant = s) := by
  obtain ⟨out, c, t, hrun, he, hpub, _, _⟩ :=
    entry_in_context k B baserel desc pre post r _ ps rf hp hfdw hrf hren ha
  obtain ⟨_, _, hty, hcs⟩ := entryOf_ok k B desc _ c he
  simp only at hty hcs
  refine ⟨out, c, hrun, hpub, ?_, ?_, ?_, ?_, ?_, ?_⟩
  · intro h
    rw [hty]
    exact typeString_integer k id h
  · intro h
    rw [hty, h]
    exact typeString_timestamp k hk
  · intro h
    rw [hty, h]
    exact typeString_text k hk
  · intro v hid h1 h2 hv
    rw [hid, hv, constantString_int4 k B v h1 h2] at hcs
    exact (Except.ok.inj hcs).symm
  · intro v hid h1 h2 hv
    rw [hid, hv, constantString_int8 k B hk v h1 h2] at hcs
    exact (Except.ok.inj hcs).symm
  · intro s hid hv
    rw [hid, hv, constantString_text k B hk s] at hcs
    exact (Except.ok.inj hcs).symm

/-- C6 for `age = 30` after `name LIKE 'A%'`. -/
theorem literal_encoding_witness :
    ∃ (out : RelOptInfo × ForeignScan) (c : Condition),
      luaGetForeignPlan pg noBackend (planning freshState) ageName
        ([nameLikeA] ++ ageEq30 :: [ageOr]) = Except.ok out ∧
      publishedCondition out.2.fdw_private (acceptedCount pg [nameLikeA] + 1) = some c ∧
      ((23 : Oid) = pg.INT4OID ∨ (23 : Oid) = pg.INT8OID → c.type = "integer") ∧
      ((23 : Oid) = pg.TIMESTAMPOID → c.type = "timestamp") ∧
      ((23 : Oid) = pg.TEXTOID → c.type = "text") ∧
      (∀ v : Int, (23 : Oid) = pg.INT4OID → -2 ^ 31 ≤ v → v < 2 ^ 31 →
        Int32GetDatum 30 = Int32GetDatum v → c.constant = toString v) ∧
      (∀ v : Int, (23 : Oid) = pg.INT8OID → -2 ^ 63 ≤ v → v < 2 ^ 63 →
        Int32GetDatum 30 = Int64GetDatum v → c.constant = toString v) ∧
      (∀ s : String, (23 : Oid) = pg.TEXTOID → Int32GetDatum 30 = Datum.text s → c.constant = s) :=
  literal_encoding pg noBackend (planning freshState) ageName [nameLikeA] [ageOr] ageEq30
    { lua := freshState } 0 96 0 23 (Int32GetDatum 30) (by decide) rfl rfl (by decide)
    (by decide) rfl

/-- C7. Codec round trip, with the input parsers modelled from the spec (`stdBackend`): the
text `luaGetForeignPlan` renders for a literal of a type (`constantString`) is decoded, the
way `luaIterateForeignScan` decodes a string field of a column of that type (the input
function of the type's catalog row, called through `decodeField`), to the value it came from:
for every 32-bit integer, every 64-bit integer and every text; for a timestamp it is so
whenever PostgreSQL's own timestamp_in inverts its timestamp_out, which the bridge calls
unchanged. -/
theorem codec_round_trip (k : PgConsts) (tsOut : Datum → Except String String)
    (tsIn : String → Except String Datum) (hk : k.typesDistinct)
    (hts : ∀ d s, tsOut d = Except.ok s → tsIn s = Except.ok d) :
    (∀ v : Int, -2 ^ 31 ≤ v → v < 2 ^ 31 →
      ∃ s tuple,
        constantString k (stdBackend k tsOut tsIn) k.INT4OID (Int32GetDatum v) = Except.ok s ∧
        (stdBackend k tsOut tsIn).SearchSysCache1 k.INT4OID = some tuple ∧
        decodeField k (stdBackend k tsOut tsIn) tuple s = Except.ok (Int32GetDatum v)) ∧
    (∀ v : Int, -2 ^ 63 ≤ v → v < 2 ^ 63 →
      ∃ s tuple,
        constantString k (stdBackend k tsOut tsIn) k.INT8OID (Int64GetDatum v) = Except.ok s ∧
        (stdBackend k tsOut tsIn).SearchSysCache1 k.INT8OID = some tuple ∧
        decodeField k (stdBackend k tsOut tsIn) tuple s = Except.ok (Int64GetDatum v)) ∧
    (∀ text : String,
      ∃ s tuple,
        constantString k (stdBackend k tsOut tsIn) k.TEXTOID (Datum.text text) = Except.ok s ∧
        (stdBackend k tsOut tsIn).SearchSysCache1 k.TEXTOID = some tuple ∧
        decodeField k (stdBackend k tsOut tsIn) tuple s = Except.ok (Datum.text text)) ∧
    (∀ (d : Datum) (s : String),
      constantString k (stdBackend k tsOut tsIn) k.TIMESTAMPOID d = Except.ok s →
      ∃ tuple, (stdBackend k tsOut tsIn).SearchSysCache1 k.TIMESTAMPOID = some tuple ∧
        decodeField k (stdBackend k tsOut tsIn) tuple s = Except.ok d) := by
  obtain ⟨n48, nt4, nt8, nx4, nx8, nxt⟩ := hk
  refine ⟨?_, ?_, ?_, ?_⟩
  · intro v h1 h2
    refine ⟨_, { typinput := 42, typtypmod := -1 }, constantString_int4 k _ v h1 h2, ?_, ?_⟩
    · simp [stdBackend]
    · rw [← snprintf_d_eq_toString v (by omega) (by omega)]
      exact decodeField_int4 k tsOut tsIn (-1) v h1 h2
  · intro v h1 h2
    refine ⟨_, { typinput := 460, typtypmod := -1 },
      constantString_int8 k _ ⟨n48, nt4, nt8, nx4, nx8, nxt⟩ v h1 h2, ?_, ?_⟩
    · simp [stdBackend, Ne.symm n48]
    · rw [← snprintf_d_eq_toString v h1 h2]
      exact decodeField_int8 k tsOut tsIn (-1) v h1 h2
  · intro text
    refine ⟨_, { typinput := 46, typtypmod := -1 },
      constantString_text k _ ⟨n48, nt4, nt8, nx4, nx8, nxt⟩ text, ?_, rfl⟩
    simp [stdBackend, nx4, nx8]
  · intro d s hcs
    have hout : tsOut d = Except.ok s := by
      unfold constantString at hcs
      rw [if_neg nt4, if_neg nt8, if_pos rfl] at hcs
      show (stdBackend k tsOut tsIn).timestamp_out d = Except.ok s
      cases hto : (stdBackend k tsOut tsIn).timestamp_out d with
      | error e => rw [hto] at hcs; cases hcs
      | ok s2 => rw [hto] at hcs; cases hcs; rfl
    refine ⟨{ typinput := 1312, typtypmod := -1 }, ?_, ?_⟩
    · simp [stdBackend, nt4, nt8, Ne.symm nxt]
    · simp [decodeField, stdBackend, hts d s hout, Backend.lift]

/-- C7 at PostgreSQL's constants, for the integer -7. -/
theorem codec_round_trip_witness :
    ∃ s tuple,
      constantString pg (stdBackend pg plainOut plainIn) pg.INT4OID (Int32GetDatum (-7)) =
        Except.ok s ∧
      (stdBackend pg plainOut plainIn).SearchSysCache1 pg.INT4OID = some tuple ∧
      decodeField pg (stdBackend pg plainOut plainIn) tuple s = Except.ok (Int32GetDatum (-7)) :=
  (codec_round_trip pg plainOut plainIn (by decide)
    (by intro d s h; cases d <;> simp_all [plainOut, plainIn])).1 (-7) (by decide) (by decide)

/-- C8, counterexample: `ScanIterate` returns the table with id = 1, a number and not a
string, and name = "Alice"; the row has id = 1 and not NULL, while a boolean under id gives
NULL. -/
theorem null_propagation_counterexample :
    returnedRow (luaIterateForeignScan pg pgBackend demoEngine
      (demoNode (demoHeap (LuaValue.function 0) (LuaValue.number 1)))) =
      some (some [some (Int32GetDatum 1), some (Datum.text "Alice")]) ∧
    returnedRow (luaIterateForeignScan pg pgBackend demoEngine
      (demoNode (demoHeap (LuaValue.function 0) (LuaValue.boolean true)))) =
      some (some [none, some (Datum.text "Alice")]) := by
  decide

/-- C8, amended: when `ScanIterate` returns a table and every column can be decoded,
`luaIterateForeignScan` returns; and whenever it returns, the slot holds a row in which a
declared column is NULL if the table's entry under the column's name is neither a string nor a
number (nil, i.e. no entry, boolean, table, function, userdata), is the decoded string if the
entry is a string, and is the decoded text of the number if the entry is a number. -/
theorem null_propagation (k : PgConsts) (B : Backend) (E : LuaEngine) (node : ForeignScanState)
    (ss : LuaFdwScanState) (f : Nat) (results : List LuaValue) (heap : LuaHeap) (r : Nat)
    (hstate : node.fdw_state = some ss)
    (hg : ss.lua.heap.globals "ScanIterate" = LuaValue.function f)
    (hc : E.call f [] ss.lua.heap = CallOutcome.returned results heap)
    (hr : firstResult results = LuaValue.table r) :
    ((∀ att ∈ node.ss_ScanTupleSlot.tts_tupleDescriptor.attrs,
        ∃ v, columnValue k B E heap r att = Except.ok v) →
      ∃ out, luaIterateForeignScan k B E node = Except.ok out) ∧
    ∀ out, luaIterateForeignScan k B E node = Except.ok out →
      out.2.tts_isempty = false ∧
      ∀ (i : Nat) (hi : i < node.ss_ScanTupleSlot.tts_tupleDescriptor.attrs.length),
        ((∀ s, heap.tables r (LuaValue.string
              (node.ss_ScanTupleSlot.tts_tupleDescriptor.attrs.get ⟨i, hi⟩).attname) ≠
            LuaValue.string s) →
          (∀ n, heap.tables r (LuaValue.string
              (node.ss_ScanTupleSlot.tts_tupleDescriptor.attrs.get ⟨i, hi⟩).attname) ≠
            LuaValue.number n) →
          out.2.tts_isnull[i]? = some true) ∧
        (∀ s, heap.tables r (LuaValue.string
              (node.ss_ScanTupleSlot.tts_tupleDescriptor.attrs.get ⟨i, hi⟩).attname) =
            LuaValue.string s →
          ∃ tuple d, B.SearchSysCache1
              (node.ss_ScanTupleSlot.tts_tupleDescriptor.attrs.get ⟨i, hi⟩).atttypid = some tuple ∧
            decodeField k B tuple s = Except.ok d ∧
            out.2.tts_isnull[i]? = some false ∧ out.2.tts_values[i]? = some d) ∧
        (∀ n, heap.tables r (LuaValue.string
              (node.ss_ScanTupleSlot.tts_tupleDescriptor.attrs.get ⟨i, hi⟩).attname) =
            LuaValue.number n →
          ∃ tuple d, B.SearchSysCache1
              (node.ss_ScanTupleSlot.tts_tupleDescriptor.attrs.get ⟨i, hi⟩).atttypid = some tuple ∧
            decodeField k B tuple (E.number_tostring n) = Except.ok d ∧
            out.2.tts_isnull[i]? = some false ∧ out.2.tts_values[i]? = some d) := by
  have hrun := next_table k B E node ss f results heap r hstate hg hc hr
  constructor
  · intro hall
    obtain ⟨s, hs⟩ := fillColumns_ok k B E heap r _ 0 (clearedSlot node.ss_ScanTupleSlot) hall
    rw [hrun, hs]
    exact ⟨_, rfl⟩
  · intro out hout
    rw [hrun] at hout
    cases hfc : fillColumns k B E heap r node.ss_ScanTupleSlot.tts_tupleDescriptor.attrs 0
        (clearedSlot node.ss_ScanTupleSlot) with
    | error e => rw [hfc] at hout; cases hout
    | ok s =>
      rw [hfc] at hout
      cases hout
      obtain ⟨_, _, _, _, h5⟩ := fillColumns_post k B E heap r _ 0 _ s hfc
      refine ⟨rfl, ?_⟩
      intro i hi
      obtain ⟨v, hv, hnull, hval⟩ := h5 i hi
        (by simpa [clearedSlot, TupleDesc.natts] using hi)
        (by simpa [clearedSlot, TupleDesc.natts] using hi)
      rw [Nat.zero_add] at hnull hval
      have hnull2 : (ExecStoreVirtualTuple s).tts_isnull[i]? = some v.isNone := hnull
      have hval2 : ∀ d, v = some d → (ExecStoreVirtualTuple s).tts_values[i]? = some d := hval
      unfold columnValue at hv
      cases hty : B.SearchSysCache1
          (node.ss_ScanTupleSlot.tts_tupleDescriptor.attrs.get ⟨i, hi⟩).atttypid with
      | none => rw [hty] at hv; cases hv
      | some tuple =>
        rw [hty] at hv
        simp only at hv
        have hdec : ∀ text, (heap.tables r (LuaValue.string
            (node.ss_ScanTupleSlot.tts_tupleDescriptor.attrs.get ⟨i, hi⟩).attname)).tostring E =
            some text →
            ∃ tuple2 d, some tuple = some tuple2 ∧ decodeField k B tuple2 text = Except.ok d ∧
              (ExecStoreVirtualTuple s).tts_isnull[i]? = some false ∧
              (ExecStoreVirtualTuple s).tts_values[i]? = some d := by
          intro text htext
          rw [htext] at hv
          simp only at hv
          cases hd : decodeField k B tuple text with
          | error e => rw [hd] at hv; cases hv
          | ok d =>
            rw [hd] at hv
            cases hv
            exact ⟨tuple, d, rfl, hd, hnull2, hval2 d rfl⟩
        refine ⟨?_, ?_, ?_⟩
        · intro hs hn
          have hnone : (heap.tables r (LuaValue.string
              (node.ss_ScanTupleSlot.tts_tupleDescriptor.attrs.get ⟨i, hi⟩).attname)).tostring E =
              none := by
            cases hx : heap.tables r (LuaValue.string
              (node.ss_ScanTupleSlot.tts_tupleDescriptor.attrs.get ⟨i, hi⟩).attname) with
            | string s => exact absurd hx (hs s)
            | number n => exact absurd hx (hn n)
            | nil | boolean _ | table _ | function _ | userdata _ => rfl
          rw [hnone] at hv
          simp only [pure, Except.pure, Except.ok.injEq] at hv
          rw [← hv] at hnull2
          exact hnull2
        · intro s hs
          exact hdec s (by rw [hs]; rfl)
        · intro n hn
          exact hdec (E.number_tostring n) (by rw [hn]; rfl)

/-- C8 as amended, for a table with id = "1" and name = "Alice". -/
theorem null_propagation_witness :
    ∃ out, luaIterateForeignScan pg pgBackend demoEngine
      (demoNode (demoHeap (LuaValue.function 0) (LuaValue.string "1"))) = Except.ok out :=
  (null_propagation pg pgBackend demoEngine
    (demoNode (demoHeap (LuaValue.function 0) (LuaValue.string "1")))
    { lua := { heap := demoHeap (LuaValue.function 0) (LuaValue.string "1"), stack := [] } }
    0 [LuaValue.table 1] (demoHeap (LuaValue.function 0) (LuaValue.string "1")) 1
    rfl rfl rfl rfl).1 (by
      intro att hatt
      simp only [demoNode, idName, List.mem_cons, List.mem_nil_iff, or_false] at hatt
      rcases hatt with rfl | rfl <;> exact ⟨_, rfl⟩)

/-- C9. End of scan: with no `ScanIterate` function, and when `ScanIterate` returns a value
that is not a table, `luaIterateForeignScan` returns an empty slot (no row, not a row of
NULLs); and whenever it returns, the slot holds a row exactly when `ScanIterate` is a function
whose call returned a table. -/
theorem end_of_scan (k : PgConsts) (B : Backend) (E : LuaEngine) (node : ForeignScanState)
    (ss : LuaFdwScanState) (hstate : node.fdw_state = some ss) :
    ((∀ f, ss.lua.heap.globals "ScanIterate" ≠ LuaValue.function f) →
      ∃ out, luaIterateForeignScan k B E node = Except.ok out ∧ out.2.tts_isempty = true ∧
        out.2.row = none) ∧
    (∀ f results heap, ss.lua.heap.globals "ScanIterate" = LuaValue.function f →
      E.call f [] ss.lua.heap = CallOutcome.returned results heap →
      (∀ r, firstResult results ≠ LuaValue.table r) →
      ∃ out, luaIterateForeignScan k B E node = Except.ok out ∧ out.2.tts_isempty = true ∧
        out.2.row = none) ∧
    (∀ out, luaIterateForeignScan k B E node = Except.ok out →
      (out.2.row ≠ none ↔
        ∃ f results heap r, ss.lua.heap.globals "ScanIterate" = LuaValue.function f ∧
          E.call f [] ss.lua.heap = CallOutcome.returned results heap ∧
          firstResult results = LuaValue.table r)) := by
  have hnot : ∀ f results heap, ss.lua.heap.globals "ScanIterate" = LuaValue.function f →
      E.call f [] ss.lua.heap = CallOutcome.returned results heap →
      (∀ r, firstResult results ≠ LuaValue.table r) →
      luaIterateForeignScan k B E node =
        Except.ok ({ ss_ScanTupleSlot := clearedSlot node.ss_ScanTupleSlot,
                     fdw_state := some { lua := { heap := heap, stack := ss.lua.stack } } },
                   clearedSlot node.ss_ScanTupleSlot) := by
    intro f results heap hg hc hr
    rw [next_called k B E node ss f hstate hg, hc]
    cases hv : firstResult results with
    | table r => exact absurd hv (hr r)
    | nil | boolean _ | number _ | string _ | function _ | userdata _ => simp only [hv]
  refine ⟨?_, ?_, ?_⟩
  · intro hg
    exact ⟨_, next_no_function k B E node ss hstate hg, rfl, rfl⟩
  · intro f results heap hg hc hr
    exact ⟨_, hnot f results heap hg hc hr, rfl, rfl⟩
  · intro out hrun
    by_cases hg : ∃ f, ss.lua.heap.globals "ScanIterate" = LuaValue.function f
    · obtain ⟨f, hg⟩ := hg
      have hrun2 := hrun
      rw [next_called k B E node ss f hstate hg] at hrun2
      cases hc : E.call f [] ss.lua.heap with
      | ereported m => rw [hc] at hrun2; cases hrun2
      | raised err heap => rw [hc] at hrun2; cases hrun2
      | returned results heap =>
        by_cases hr : ∃ r, firstResult results = LuaValue.table r
        · obtain ⟨r, hr⟩ := hr
          rw [hc] at hrun2
          simp only [hr] at hrun2
          cases hfc : fillColumns k B E heap r node.ss_ScanTupleSlot.tts_tupleDescriptor.attrs 0
              (clearedSlot node.ss_ScanTupleSlot) with
          | error e => rw [hfc] at hrun2; cases hrun2
          | ok s =>
            rw [hfc] at hrun2
            cases hrun2
            constructor
            · intro _
              exact ⟨f, results, heap, r, hg, hc, hr⟩
            · intro _ hnone
              rw [row_eq_none] at hnone
              cases hnone
        · have hr2 : ∀ r, firstResult results ≠ LuaValue.table r := fun r h => hr ⟨r, h⟩
          rw [hnot f results heap hg hc hr2] at hrun
          cases hrun
          constructor
          · intro h
            exact absurd rfl h
          · rintro ⟨f2, results2, heap2, r2, hg2, hc2, hr3⟩
            rw [hg] at hg2
            cases hg2
            rw [hc] at hc2
            cases hc2
            exact absurd hr3 (hr2 r2)
    · have hg2 : ∀ f, ss.lua.heap.globals "ScanIterate" ≠ LuaValue.function f :=
        fun f h => hg ⟨f, h⟩
      rw [next_no_function k B E node ss hstate hg2] at hrun
      cases hrun
      constructor
      · intro h
        exact absurd rfl h
      · rintro ⟨f, _, _, _, hgf, _, _⟩
        exact absurd hgf (hg2 f)

/-- C9 for a `ScanIterate` that returns nothing. -/
theorem end_of_scan_witness :
    ∃ out, luaIterateForeignScan pg pgBackend demoEngine
        (demoNode (demoHeap (LuaValue.function 1) LuaValue.nil)) = Except.ok out ∧
      out.2.tts_isempty = true ∧ out.2.row = none :=
  (end_of_scan pg pgBackend demoEngine (demoNode (demoHeap (LuaValue.function 1) LuaValue.nil))
    { lua := { heap := demoHeap (LuaValue.function 1) LuaValue.nil, stack := [] } } rfl).2.1 1 []
    (demoHeap (LuaValue.function 1) LuaValue.nil) rfl rfl (by intro r h; cases h)

/-- C10. Codec errors are not swallowed: when `ScanIterate` returns a table in which a
declared column maps to a string that the input function of the column's type rejects,
`luaIterateForeignScan` fails with an `ereport(ERROR)`: it returns no slot at all. -/
theorem codec_errors_abort (k : PgConsts) (B : Backend) (E : LuaEngine) (node : ForeignScanState)
    (ss : LuaFdwScanState) (f : Nat) (results : List LuaValue) (heap : LuaHeap) (r : Nat)
    (att : FormData_pg_attribute) (tuple : Form_pg_type) (s message : String)
    (hstate : node.fdw_state = some ss)
    (hg : ss.lua.heap.globals "ScanIterate" = LuaValue.function f)
    (hc : E.call f [] ss.lua.heap = CallOutcome.returned results heap)
    (hr : firstResult results = LuaValue.table r)
    (hatt : att ∈ node.ss_ScanTupleSlot.tts_tupleDescriptor.attrs)
    (hty : B.SearchSysCache1 att.atttypid = some tuple)
    (hs : heap.tables r (LuaValue.string att.attname) = LuaValue.string s)
    (hrej : B.OidFunctionCall3 tuple.typinput s k.InvalidOid tuple.typtypmod =
      Except.error message) :
    ∃ m, luaIterateForeignScan k B E node = Except.error (Failure.ereport m) := by
  have hbad : columnValue k B E heap r att = Except.error (Failure.ereport message) := by
    rw [columnValue_text k B E heap r att tuple s hty (by rw [hs]; rfl)]
    simp [decodeField, hrej, Backend.lift, Except.map]
  obtain ⟨e, he⟩ := fillColumns_error k B E heap r _ 0 (clearedSlot node.ss_ScanTupleSlot)
    ⟨att, hatt, _, hbad⟩
  obtain ⟨m, hm⟩ := fillColumns_error_ereport k B E heap r _ 0 _ e he
  rw [next_table k B E node ss f results heap r hstate hg hc hr, he, hm]
  exact ⟨m, rfl⟩

/-- C10 for the string "abc" under the integer column id. -/
theorem codec_errors_abort_witness :
    ∃ m, luaIterateForeignScan pg pgBackend demoEngine
      (demoNode (demoHeap (LuaValue.function 0) (LuaValue.string "abc"))) =
        Except.error (Failure.ereport m) :=
  codec_errors_abort pg pgBackend demoEngine
    (demoNode (demoHeap (LuaValue.function 0) (LuaValue.string "abc")))
    { lua := { heap := demoHeap (LuaValue.function 0) (LuaValue.string "abc"), stack := [] } }
    0 [LuaValue.table 1] (demoHeap (LuaValue.function 0) (LuaValue.string "abc")) 1
    { attname := "id", atttypid := 23 } { typinput := 42, typtypmod := -1 } "abc"
    "invalid input syntax for integer: abc" rfl rfl rfl rfl (by decide) rfl rfl rfl

/-- C11. Scan end stops the Session exactly once: when `luaBeginForeignScan` and then any
calls of next and rescan have returned, and the callback `ScanEnd` (if there is one) does
not raise, `luaEndForeignScan` returns, and the record of the whole scan (begin, the calls,
end) is the single stop of the Session, made by end after the optional callback (the state
stopped has the heap the callback left); the scan state is cleared.  The list of calls may
be empty. -/
theorem scan_end_stops_session_once (k : PgConsts) (B : Backend) (E : LuaEngine)
    (plan : ForeignScan) (node mid : ForeignScanState) (calls : List ScanCall)
    (hpre : (luaBeginForeignScan E plan node >>= scanCalls k B E calls) = Except.ok mid)
    (hend : ∀ ss, mid.fdw_state = some ss → callbackReturns E ss.lua "ScanEnd") :
    ∃ ss L, mid.fdw_state = some ss ∧
      luaEndForeignScan E mid =
        Except.ok ({ mid with fdw_state := none }, [SessionEvent.stopped L]) ∧
      scanLifecycle k B E plan node calls =
        Except.ok ({ mid with fdw_state := none }, [SessionEvent.stopped L]) ∧
      stopCount [SessionEvent.stopped L] = 1 ∧
      L.heap = heapAfter E ss.lua "ScanEnd" := by
  have hsplit : ∃ n1, luaBeginForeignScan E plan node = Except.ok n1 ∧
      scanCalls k B E calls n1 = Except.ok mid := by
    cases hb : luaBeginForeignScan E plan node with
    | error e => rw [hb] at hpre; cases hpre
    | ok n1 => rw [hb] at hpre; exact ⟨n1, rfl, hpre⟩
  obtain ⟨n1, hb, hc⟩ := hsplit
  obtain ⟨ss, hss⟩ := scanCalls_state k B E calls n1 mid (begin_state E plan node n1 hb) hc
  have hlife : scanLifecycle k B E plan node calls = luaEndForeignScan E mid := by
    simp only [scanLifecycle, hb, hc, bind, Except.bind]
  rw [hlife]
  by_cases hg : ∃ f, ss.lua.heap.globals "ScanEnd" = LuaValue.function f
  · obtain ⟨f, hf⟩ := hg
    have hret := hend ss hss f hf
    rw [end_called E mid ss f hss hf]
    cases hcall : E.call f [] ss.lua.heap with
    | returned rs heap =>
      refine ⟨ss, { heap := heap, stack := ss.lua.stack }, hss, rfl, rfl, rfl, ?_⟩
      simp only [heapAfter, hf, hcall]
    | raised err heap => rw [hcall] at hret; cases hret
    | ereported m => rw [hcall] at hret; cases hret
  · have hnf : ∀ f, ss.lua.heap.globals "ScanEnd" ≠ LuaValue.function f := fun f hf => hg ⟨f, hf⟩
    rw [end_no_function E mid ss hss hnf]
    refine ⟨ss, lua_getglobal ss.lua "ScanEnd", hss, rfl, rfl, rfl, ?_⟩
    show ss.lua.heap = _
    unfold heapAfter
    cases hv : ss.lua.heap.globals "ScanEnd" <;> first | rfl | exact absurd hv (hnf _)

/-- C11 on examples: begin immediately followed by end, and begin, next, rescan, end, for a
script without callbacks: each scan stops one Session. -/
theorem scan_end_stops_session_once_witness :
    (∃ out L, scanLifecycle pg pgBackend demoEngine { fdw_private := freshState } newNode [] =
      Except.ok (out, [SessionEvent.stopped L])) ∧
    (∃ out L, scanLifecycle pg pgBackend demoEngine { fdw_private := freshState } newNode
      [ScanCall.next, ScanCall.rescan] = Except.ok (out, [SessionEvent.stopped L])) := by
  constructor
  · obtain ⟨_, L, _, _, h, _⟩ :=
      scan_end_stops_session_once pg pgBackend demoEngine { fdw_private := freshState } newNode
        _ [] rfl (by
          intro ss hs f hg
          cases hs
          simp [freshState, newNode, luaBeginForeignScan, lua_getglobal, lua_State.push,
            lua_pop] at hg)
    exact ⟨_, L, h⟩
  · obtain ⟨_, L, _, _, h, _⟩ :=
      scan_end_stops_session_once pg pgBackend demoEngine { fdw_private := freshState } newNode
        _ [ScanCall.next, ScanCall.rescan] rfl (by
          intro ss hs f hg
          cases hs
          simp [freshState, lua_getglobal, lua_State.push, lua_pop] at hg)
    exact ⟨_, L, h⟩

/-- C12, counterexample: after begin and end on a script without callbacks, the scan state
is cleared, and a second end does not return the state after the first end: it reads the
cleared state. -/
theorem scan_end_twice_counterexample :
    ∃ out events,
      scanLifecycle pg pgBackend demoEngine { fdw_private := freshState } newNode [] =
        Except.ok (out, events) ∧
      out.fdw_state = none ∧
      luaEndForeignScan demoEngine out = Except.error Failure.undefined ∧
      luaEndForeignScan demoEngine out ≠ Except.ok (out, []) :=
  ⟨_, _, rfl, rfl, rfl, fun h => by cases h⟩

/-- C12, amended: `luaEndForeignScan`, when it returns, has stopped the Session once and
cleared the scan state; a second call on the node it returned does not return: it reads the
cleared state (a NULL pointer in the C code), whatever the script engine, so it reaches no
callback and stops nothing. -/
theorem scan_end_twice (E : LuaEngine) (node out : ForeignScanState) (events : List SessionEvent)
    (h : luaEndForeignScan E node = Except.ok (out, events)) :
    out.fdw_state = none ∧ stopCount events = 1 ∧
      ∀ E1 : LuaEngine, luaEndForeignScan E1 out = Except.error Failure.undefined := by
  have hout : out.fdw_state = none ∧ stopCount events = 1 := by
    cases hstate : node.fdw_state with
    | none => simp [luaEndForeignScan, hstate] at h
    | some ss =>
      by_cases hg : ∃ f, ss.lua.heap.globals "ScanEnd" = LuaValue.function f
      · obtain ⟨f, hf⟩ := hg
        rw [end_called E node ss f hstate hf] at h
        cases hc : E.call f [] ss.lua.heap <;> rw [hc] at h <;> cases h
        exact ⟨rfl, rfl⟩
      · rw [end_no_function E node ss hstate (fun f hf => hg ⟨f, hf⟩)] at h
        cases h
        exact ⟨rfl, rfl⟩
  refine ⟨hout.1, hout.2, fun E1 => ?_⟩
  simp [luaEndForeignScan, hout.1]

/-- C12 on an example: the node a scan without callbacks ends with cannot be ended again. -/
theorem scan_end_twice_witness :
    luaEndForeignScan demoEngine { newNode with fdw_state := none } =
      Except.error Failure.undefined :=
  (scan_end_twice demoEngine { newNode with fdw_state := some { lua := freshState } }
    { newNode with fdw_state := none } _ rfl).2.2 demoEngine

/-- C13. The end of a modification does not stop the Session: whenever a modification
(begin, any calls of insert, update and delete, end) returns, its record holds the start of
one Session by `luaBeginForeignModify` and no stop, and the node still holds the modify
state with that Session; `luaEndForeignModify` itself records nothing. -/
theorem modify_end_never_stops (lv : ElogLevels) (Lib : LuaLib) (E : LuaEngine)
    (rinfo out : ResultRelInfo) (slot : TupleTableSlot) (calls : List ModifyCall)
    (events : List SessionEvent)
    (h : modifyLifecycle lv Lib E rinfo slot calls = Except.ok (out, events)) :
    startCount events = 1 ∧ stopCount events = 0 ∧ (∃ ms, out.ri_FdwState = some ms) ∧
      ∀ (r r1 : ResultRelInfo) (ended : List SessionEvent),
        luaEndForeignModify E r = Except.ok (r1, ended) → ended = [] := by
  have hend : ∀ (r r1 : ResultRelInfo) (ended : List SessionEvent),
      luaEndForeignModify E r = Except.ok (r1, ended) →
        ended = [] ∧ ∃ ms, r1.ri_FdwState = some ms := by
    intro r r1 ended he
    unfold luaEndForeignModify at he
    cases hs : r.ri_FdwState with
    | none => simp [hs] at he
    | some ms =>
      simp only [hs, bind, Except.bind] at he
      revert he
      generalize modifyCallback E ms.lua _ = c
      cases c with
      | error e => intro he; cases he
      | ok L1 => intro he; cases he; exact ⟨rfl, _, rfl⟩
  refine ⟨?_, ?_, ?_, fun r r1 ended he => (hend r r1 ended he).1⟩ <;>
  · unfold modifyLifecycle luaBeginForeignModify at h
    simp only [bind, Except.bind] at h
    revert h
    cases lua_start lv Lib E none none with
    | error e => intro h; cases h
    | ok L =>
      simp only []
      cases modifyCallback E L "BeginForeignModify" with
      | error e => intro h; cases h
      | ok L1 =>
        simp only [pure, Except.pure]
        cases modifyCalls E slot calls _ with
        | error e => intro h; cases h
        | ok r2 =>
          simp only []
          cases he : luaEndForeignModify E r2 with
          | error e => intro h; cases h
          | ok p =>
            obtain ⟨r3, ended⟩ := p
            obtain ⟨hnil, hms⟩ := hend r2 r3 ended he
            subst hnil
            intro h
            cases h
            first | rfl | exact hms

/-- C13 on an example: begin, insert, end with the empty standard library: one Session is
started and none is stopped. -/
theorem modify_end_never_stops_witness :
    ∃ out L, modifyLifecycle pgLevels demoLib demoEngine newResultRel newNode.ss_ScanTupleSlot
        [ModifyCall.insert] = Except.ok (out, [SessionEvent.started L]) ∧
      stopCount [SessionEvent.started L] = 0 :=
  ⟨_, _, rfl, (modify_end_never_stops pgLevels demoLib demoEngine newResultRel _
    newNode.ss_ScanTupleSlot [ModifyCall.insert] _ rfl).2.1⟩

/-- C14. Planning defaults: when the state `lua_start` returns for the table's script and
inline text has the table `fdw` and none of the four estimate callbacks as a function,
`luaGetForeignRelSize` returns with 0 rows and the width it was given, and
`luaGetForeignPaths` on its result returns the path with 0 rows, startup cost 0 and total
cost 0. -/
theorem planning_defaults (k : PgConsts) (lv : ElogLevels) (Lib : LuaLib) (E : LuaEngine)
    (baserel : RelOptInfo) (relname : String) (desc : TupleDesc) (table : ForeignTable)
    (L : lua_State) (rf : Nat)
    (hstart : lua_start lv Lib E (tableScripts table).1 (tableScripts table).2 = Except.ok L)
    (hfdw : L.heap.globals "fdw" = LuaValue.table rf)
    (hnone : ∀ name ∈ estimateHooks, notFunction L name) :
    ∃ rel rel1 path, luaGetForeignRelSize k lv Lib E baserel relname desc table =
        Except.ok (rel, [SessionEvent.started L]) ∧
      rel.rows = 0 ∧ rel.width = baserel.width ∧
      luaGetForeignPaths Lib E rel = Except.ok (rel1, path) ∧
      planPath k lv Lib E baserel relname desc table = Except.ok (rel1, path) ∧
      rel1.rows = 0 ∧ rel1.width = baserel.width ∧
      path.rows = 0 ∧ path.startup_cost = 0 ∧ path.total_cost = 0 := by
  have hsize := relSize_no_function k lv Lib E baserel relname desc table L rf hstart hfdw
    (hnone _ (by decide)) (hnone _ (by decide))
  have hpath := paths_no_function Lib E (RelOptInfo.mk 0 baserel.width (some
    (LuaFdwPlanState.mk (lua_getglobal (lua_getglobal (schemaPublished k L rf relname desc)
      "EstimateRowCount") "EstimateRowWidth")))) _ rfl (hnone _ (by decide))
    (hnone _ (by decide))
  refine ⟨_, _, _, hsize, rfl, rfl, hpath, ?_, rfl, rfl, rfl, rfl, rfl⟩
  simp only [planPath, hsize, bind, Except.bind]
  exact hpath

/-- C14 on an example: the script "plain.lua" defines no callback; planning a table the
planner took for 100 rows of width 32 gives 0 rows, costs 0 and width 32. -/
theorem planning_defaults_witness :
    ∃ rel path, planPath pg pgLevels demoLib costEngine freshRel "people" idName
        (scripted "plain.lua") = Except.ok (rel, path) ∧
      rel.rows = 0 ∧ rel.width = 32 ∧
      path.rows = 0 ∧ path.startup_cost = 0 ∧ path.total_cost = 0 := by
  obtain ⟨rel, rel1, path, -, -, -, -, h, h1, h2, h3, h4, h5⟩ :=
    planning_defaults pg pgLevels demoLib costEngine freshRel "people" idName
      (scripted "plain.lua") _ 0 rfl rfl (by
        intro name hn
        simp only [estimateHooks, List.mem_cons, List.mem_singleton, List.not_mem_nil,
          or_false] at hn
        rcases hn with rfl | rfl | rfl | rfl <;> exact notFunction_of_nil _ _ rfl)
  exact ⟨rel1, path, h, h1, h2, h3, h4, h5⟩

/-- C15. The default total cost is computed before `EstimateStartupCost` runs: whenever
`luaGetForeignPaths` returns and `EstimateTotalCost` is not a function after the first
callback, the total cost handed to the planner is 0 + rows, whatever startup cost is handed
over with it. -/
theorem default_total_cost_ignores_startup (Lib : LuaLib) (E : LuaEngine) (baserel : RelOptInfo)
    (ps : LuaFdwPlanState) (out : RelOptInfo × ForeignPath)
    (hp : baserel.fdw_private = some ps)
    (hrun : luaGetForeignPaths Lib E baserel = Except.ok out)
    (htotal : ∀ r1, costCallback Lib E ps.lua "EstimateStartupCost" = Except.ok r1 →
      notFunction r1.1 "EstimateTotalCost") :
    out.2.total_cost = 0 + baserel.rows ∧ out.2.rows = baserel.rows := by
  rw [luaGetForeignPaths_eq Lib E baserel ps hp] at hrun
  cases h1 : costCallback Lib E ps.lua "EstimateStartupCost" with
  | error e => rw [h1] at hrun; cases hrun
  | ok r1 =>
    rw [h1] at hrun
    simp only [bind, Except.bind] at hrun
    rw [costCallback_no_function Lib E r1.1 _ (htotal r1 h1)] at hrun
    cases hrun
    exact ⟨rfl, rfl⟩

/-- C15 on the failing input: `EstimateStartupCost` returns 0 and 5 and there is no
`EstimateTotalCost`; with 0 rows the planner gets startup cost 5 and total cost 0, not 5;
the same from the script file "pair.lua" through the whole of planning. -/
theorem default_total_cost_ignores_startup_witness :
    (∃ out, luaGetForeignPaths demoLib costEngine
        (planning (costState (LuaValue.function 3) LuaValue.nil)) = Except.ok out ∧
      out.2.startup_cost = 5 ∧ out.2.total_cost = 0 ∧
      out.2.total_cost ≠ out.2.startup_cost + out.2.rows) ∧
    pathOf (planPath pg pgLevels demoLib costEngine freshRel "people" idName
      (scripted "pair.lua")) = some { rows := 0, startup_cost := 5, total_cost := 0 } := by
  refine ⟨⟨_, rfl, rfl, ?_, by decide⟩, rfl⟩
  exact (default_total_cost_ignores_startup demoLib costEngine
    (planning (costState (LuaValue.function 3) LuaValue.nil)) _ _ rfl rfl
    (by intro r1 h1; cases h1; exact notFunction_of_nil _ _ rfl)).1

/-- C16. The cost callbacks are called for two results and the second is read: when
`EstimateStartupCost` and `EstimateTotalCost` are functions that each return a single value,
`luaGetForeignPaths` hands the planner the defaults, startup cost 0 and total cost 0 + rows,
whatever the values returned are. -/
theorem single_cost_result_is_ignored (Lib : LuaLib) (E : LuaEngine) (baserel : RelOptInfo)
    (ps : LuaFdwPlanState) (f g : Nat) (s t : LuaValue) (h1 h2 : LuaHeap)
    (hp : baserel.fdw_private = some ps)
    (hf : ps.lua.heap.globals "EstimateStartupCost" = LuaValue.function f)
    (hs : E.call f [] ps.lua.heap = CallOutcome.returned [s] h1)
    (hg : h1.globals "EstimateTotalCost" = LuaValue.function g)
    (ht : E.call g [] h1 = CallOutcome.returned [t] h2) :
    ∃ rel, luaGetForeignPaths Lib E baserel =
      Except.ok (rel, { rows := baserel.rows, startup_cost := 0, total_cost := 0 + baserel.rows }) := by
  rw [luaGetForeignPaths_eq Lib E baserel ps hp, costCallback_called Lib E _ _ f hf, hs]
  simp only [bind, Except.bind]
  rw [costCallback_called Lib E _ _ g hg, ht]
  exact ⟨_, rfl⟩

/-- C16 on the failing input: both cost callbacks return the single number 7, and the planner
gets startup cost 0 and total cost 0; the same from the script file "single.lua" through the
whole of planning. -/
theorem single_cost_result_is_ignored_witness :
    (∃ rel, luaGetForeignPaths demoLib costEngine
        (planning (costState (LuaValue.function 2) (LuaValue.function 2))) =
      Except.ok (rel, { rows := 0, startup_cost := 0, total_cost := 0 })) ∧
    pathOf (planPath pg pgLevels demoLib costEngine freshRel "people" idName
      (scripted "single.lua")) = some { rows := 0, startup_cost := 0, total_cost := 0 } :=
  ⟨single_cost_result_is_ignored demoLib costEngine
    (planning (costState (LuaValue.function 2) (LuaValue.function 2))) _ 2 2 (LuaValue.number 7)
    (LuaValue.number 7) _ _ rfl rfl rfl rfl rfl, rfl⟩

/-- C17. Absent or non-invocable callbacks are not errors: for size estimation, path costing,
scan begin, next, rescan and end, and for modify begin, insert, update, delete and end, when
the global named for the callback is not a function (undefined, or a value of another type)
the operation returns its default result, which does not depend on the script engine:
0 rows and the width given; startup cost 0 and total cost 0 + rows; the scan state on the
plan's Session; the cleared slot (no row); the node; the cleared node and the stop of the
Session; the modify state; the slot given. -/
theorem absent_callbacks_are_not_errors (k : PgConsts) (B : Backend) (Lib : LuaLib)
    (E : LuaEngine) :
    (∀ lv baserel relname desc table L rf,
      lua_start lv Lib E (tableScripts table).1 (tableScripts table).2 = Except.ok L →
      L.heap.globals "fdw" = LuaValue.table rf →
      notFunction L "EstimateRowCount" → notFunction L "EstimateRowWidth" →
      ∃ lua, luaGetForeignRelSize k lv Lib E baserel relname desc table =
        Except.ok ({ rows := 0, width := baserel.width, fdw_private := some { lua := lua } },
          [SessionEvent.started L])) ∧
    (∀ baserel ps, baserel.fdw_private = some ps →
      notFunction ps.lua "EstimateStartupCost" → notFunction ps.lua "EstimateTotalCost" →
      luaGetForeignPaths Lib E baserel =
        Except.ok ({ baserel with fdw_private := some { lua := ps.lua } },
          { rows := baserel.rows, startup_cost := 0, total_cost := 0 + baserel.rows })) ∧
    (∀ plan node, notFunction plan.fdw_private "ScanStart" →
      luaBeginForeignScan E plan node =
        Except.ok { node with fdw_state := some { lua := plan.fdw_private } }) ∧
    (∀ node ss, node.fdw_state = some ss → notFunction ss.lua "ScanIterate" →
      luaIterateForeignScan k B E node =
        Except.ok ({ ss_ScanTupleSlot := clearedSlot node.ss_ScanTupleSlot, fdw_state := some ss },
          clearedSlot node.ss_ScanTupleSlot)) ∧
    (∀ node ss, node.fdw_state = some ss → notFunction ss.lua "ScanRestart" →
      luaReScanForeignScan E node =
        Except.ok { node with fdw_state := some { lua := lua_getglobal ss.lua "ScanRestart" } }) ∧
    (∀ node ss, node.fdw_state = some ss → notFunction ss.lua "ScanEnd" →
      luaEndForeignScan E node =
        Except.ok ({ node with fdw_state := none },
          [SessionEvent.stopped (lua_getglobal ss.lua "ScanEnd")])) ∧
    (∀ lv rinfo base, lua_start lv Lib E none none = Except.ok base →
      notFunction base "BeginForeignModify" →
      luaBeginForeignModify lv Lib E rinfo =
        Except.ok ({ ri_FdwState := some { lua := lua_getglobal base "BeginForeignModify" } },
          [SessionEvent.started base])) ∧
    (∀ rinfo ms slot, rinfo.ri_FdwState = some ms → notFunction ms.lua "ExecForeignInsert" →
      luaExecForeignInsert E rinfo slot =
        Except.ok ({ ri_FdwState := some { lua := lua_getglobal ms.lua "ExecForeignInsert" } },
          slot)) ∧
    (∀ rinfo ms slot, rinfo.ri_FdwState = some ms → notFunction ms.lua "ExecForeignUpdate" →
      luaExecForeignUpdate E rinfo slot =
        Except.ok ({ ri_FdwState := some { lua := lua_getglobal ms.lua "ExecForeignUpdate" } },
          slot)) ∧
    (∀ rinfo ms slot, rinfo.ri_FdwState = some ms → notFunction ms.lua "ExecForeignDelete" →
      luaExecForeignDelete E rinfo slot =
        Except.ok ({ ri_FdwState := some { lua := lua_getglobal ms.lua "ExecForeignDelete" } },
          slot)) ∧
    (∀ rinfo ms, rinfo.ri_FdwState = some ms → notFunction ms.lua "EndForeignModify" →
      luaEndForeignModify E rinfo =
        Except.ok ({ ri_FdwState := some { lua := lua_getglobal ms.lua "EndForeignModify" } },
          [])) := by
  refine ⟨?_, ?_, ?_, ?_, ?_, ?_, ?_, ?_, ?_, ?_, ?_⟩
  · intro lv baserel relname desc table L rf hstart hfdw h1 h2
    exact ⟨_, relSize_no_function k lv Lib E baserel relname desc table L rf hstart hfdw h1 h2⟩
  · intro baserel ps hp h1 h2
    exact paths_no_function Lib E baserel ps hp h1 h2
  · intro plan node h
    exact begin_no_function E plan node h
  · intro node ss hs h
    exact next_no_function k B E node ss hs h
  · intro node ss hs h
    exact rescan_no_function E node ss hs h
  · intro node ss hs h
    exact end_no_function E node ss hs h
  · intro lv rinfo base hstart h
    simp only [luaBeginForeignModify, hstart, modifyCallback_no_function E base _ h, bind,
      Except.bind]
    rfl
  · intro rinfo ms slot hs h
    simp only [luaExecForeignInsert, hs, modifyCallback_no_function E ms.lua _ h, bind,
      Except.bind]
    rfl
  · intro rinfo ms slot hs h
    simp only [luaExecForeignUpdate, hs, modifyCallback_no_function E ms.lua _ h, bind,
      Except.bind]
    rfl
  · intro rinfo ms slot hs h
    simp only [luaExecForeignDelete, hs, modifyCallback_no_function E ms.lua _ h, bind,
      Except.bind]
    rfl
  · intro rinfo ms hs h
    simp only [luaEndForeignModify, hs, modifyCallback_no_function E ms.lua _ h, bind,
      Except.bind]
    rfl

/-- C17 on an example: in a Session where `ScanStart` is the number 3 and `ScanIterate` the
string "rows", begin and next return, and next gives no row. -/
theorem absent_callbacks_are_not_errors_witness :
    (∃ node, luaBeginForeignScan demoEngine
      { fdw_private := { heap := (freshState.heap.setGlobal "ScanStart" (LuaValue.number 3)),
                         stack := [] } } newNode = Except.ok node) ∧
    returnedRow (luaIterateForeignScan pg pgBackend demoEngine
      (demoNode (freshState.heap.setGlobal "ScanIterate" (LuaValue.string "rows")))) =
      some none := by
  have h := absent_callbacks_are_not_errors pg pgBackend demoLib demoEngine
  refine ⟨⟨_, h.2.2.1 _ newNode ?_⟩, ?_⟩
  · intro f hf
    cases hf
  · rw [h.2.2.2.1 (demoNode (freshState.heap.setGlobal "ScanIterate" (LuaValue.string "rows")))
      _ rfl (by intro f hf; cases hf)]
    rfl

/-- C18, counterexample: `ScanIterate` is a function that returns (a table whose id is the
string "abc") without raising, and next fails all the same, in the decoding of the integer
column id. -/
theorem script_errors_counterexample :
    (demoHeap (LuaValue.function 0) (LuaValue.string "abc")).globals "ScanIterate" =
      LuaValue.function 0 ∧
    (demoEngine.call 0 [] (demoHeap (LuaValue.function 0) (LuaValue.string "abc"))).failed = false ∧
    returnedRow (luaIterateForeignScan pg pgBackend demoEngine
      (demoNode (demoHeap (LuaValue.function 0) (LuaValue.string "abc")))) = none :=
  ⟨rfl, rfl, rfl⟩

/-- C18, amended: scan begin, rescan and end, and each estimate and cost callback of planning,
fail exactly when the named global is a function and its call raises a Lua error or reports
one through `fdw.ereport`; the failure is then the text `lua_tostring` gives for the error
value (the script's message when that value is a string or a number), or the script's report.
For next the same call failing makes next fail in this way and return no row; next can fail
for other reasons. -/
theorem script_errors_abort (k : PgConsts) (B : Backend) (Lib : LuaLib) (E : LuaEngine) :
    (∀ plan node e, luaBeginForeignScan E plan node = Except.error e ↔
      ∃ f, plan.fdw_private.heap.globals "ScanStart" = LuaValue.function f ∧
        callbackFailure E (E.call f [] plan.fdw_private.heap) = some e) ∧
    (∀ node ss e, node.fdw_state = some ss →
      (luaReScanForeignScan E node = Except.error e ↔
        ∃ f, ss.lua.heap.globals "ScanRestart" = LuaValue.function f ∧
          callbackFailure E (E.call f [] ss.lua.heap) = some e)) ∧
    (∀ node ss e, node.fdw_state = some ss →
      (luaEndForeignScan E node = Except.error e ↔
        ∃ f, ss.lua.heap.globals "ScanEnd" = LuaValue.function f ∧
          callbackFailure E (E.call f [] ss.lua.heap) = some e)) ∧
    (∀ L name e, estimateCallback Lib E L name = Except.error e ↔
      ∃ f, L.heap.globals name = LuaValue.function f ∧
        callbackFailure E (E.call f [] L.heap) = some e) ∧
    (∀ L name e, costCallback Lib E L name = Except.error e ↔
      ∃ f, L.heap.globals name = LuaValue.function f ∧
        callbackFailure E (E.call f [] L.heap) = some e) ∧
    (∀ node ss f e, node.fdw_state = some ss →
      ss.lua.heap.globals "ScanIterate" = LuaValue.function f →
      callbackFailure E (E.call f [] ss.lua.heap) = some e →
      luaIterateForeignScan k B E node = Except.error e ∧
        returnedRow (luaIterateForeignScan k B E node) = none) := by
  refine ⟨?_, ?_, ?_, ?_, ?_, ?_⟩
  · intro plan node e
    by_cases hg : ∃ f, plan.fdw_private.heap.globals "ScanStart" = LuaValue.function f
    · obtain ⟨f, hf⟩ := hg
      rw [begin_called E plan node f hf]
      constructor
      · intro h
        refine ⟨f, hf, ?_⟩
        cases hc : E.call f [] plan.fdw_private.heap <;> rw [hc] at h <;> cases h <;> rfl
      · rintro ⟨g, hgf, h⟩
        rw [hf] at hgf
        cases hgf
        cases hc : E.call f [] plan.fdw_private.heap <;> rw [hc] at h <;> cases h <;> rfl
    · rw [begin_no_function E plan node (fun f hf => hg ⟨f, hf⟩)]
      exact ⟨fun h => (by cases h), fun ⟨f, hf, _⟩ => absurd ⟨f, hf⟩ hg⟩
  · intro node ss e hs
    by_cases hg : ∃ f, ss.lua.heap.globals "ScanRestart" = LuaValue.function f
    · obtain ⟨f, hf⟩ := hg
      rw [rescan_called E node ss f hs hf]
      constructor
      · intro h
        refine ⟨f, hf, ?_⟩
        cases hc : E.call f [] ss.lua.heap <;> rw [hc] at h <;> cases h <;> rfl
      · rintro ⟨g, hgf, h⟩
        rw [hf] at hgf
        cases hgf
        cases hc : E.call f [] ss.lua.heap <;> rw [hc] at h <;> cases h <;> rfl
    · rw [rescan_no_function E node ss hs (fun f hf => hg ⟨f, hf⟩)]
      exact ⟨fun h => (by cases h), fun ⟨f, hf, _⟩ => absurd ⟨f, hf⟩ hg⟩
  · intro node ss e hs
    by_cases hg : ∃ f, ss.lua.heap.globals "ScanEnd" = LuaValue.function f
    · obtain ⟨f, hf⟩ := hg
      rw [end_called E node ss f hs hf]
      constructor
      · intro h
        refine ⟨f, hf, ?_⟩
        cases hc : E.call f [] ss.lua.heap <;> rw [hc] at h <;> cases h <;> rfl
      · rintro ⟨g, hgf, h⟩
        rw [hf] at hgf
        cases hgf
        cases hc : E.call f [] ss.lua.heap <;> rw [hc] at h <;> cases h <;> rfl
    · rw [end_no_function E node ss hs (fun f hf => hg ⟨f, hf⟩)]
      exact ⟨fun h => (by cases h), fun ⟨f, hf, _⟩ => absurd ⟨f, hf⟩ hg⟩
  · intro L name e
    by_cases hg : ∃ f, L.heap.globals name = LuaValue.function f
    · obtain ⟨f, hf⟩ := hg
      rw [estimateCallback_called Lib E L name f hf]
      constructor
      · intro h
        refine ⟨f, hf, ?_⟩
        cases hc : E.call f [] L.heap <;> rw [hc] at h <;> cases h <;> rfl
      · rintro ⟨g, hgf, h⟩
        rw [hf] at hgf
        cases hgf
        cases hc : E.call f [] L.heap <;> rw [hc] at h <;> cases h <;> rfl
    · rw [estimateCallback_no_function Lib E L name (fun f hf => hg ⟨f, hf⟩)]
      exact ⟨fun h => (by cases h), fun ⟨f, hf, _⟩ => absurd ⟨f, hf⟩ hg⟩
  · intro L name e
    by_cases hg : ∃ f, L.heap.globals name = LuaValue.function f
    · obtain ⟨f, hf⟩ := hg
      rw [costCallback_called Lib E L name f hf]
      constructor
      · intro h
        refine ⟨f, hf, ?_⟩
        cases hc : E.call f [] L.heap <;> rw [hc] at h <;> cases h <;> rfl
      · rintro ⟨g, hgf, h⟩
        rw [hf] at hgf
        cases hgf
        cases hc : E.call f [] L.heap <;> rw [hc] at h <;> cases h <;> rfl
    · rw [costCallback_no_function Lib E L name (fun f hf => hg ⟨f, hf⟩)]
      exact ⟨fun h => (by cases h), fun ⟨f, hf, _⟩ => absurd ⟨f, hf⟩ hg⟩
  · intro node ss f e hs hf h
    rw [next_called k B E node ss f hs hf]
    cases hc : E.call f [] ss.lua.heap <;> rw [hc] at h <;> cases h <;> exact ⟨rfl, rfl⟩

/-- C18 on an example: `ScanStart` is function 5, whose call raises "attempt to call a nil
value"; begin fails with that text. -/
theorem script_errors_abort_witness :
    luaBeginForeignScan demoEngine
      { fdw_private := { heap := freshState.heap.setGlobal "ScanStart" (LuaValue.function 5),
                         stack := [] } } newNode =
      Except.error (Failure.lua_error (some "attempt to call a nil value")) :=
  ((script_errors_abort pg pgBackend demoLib demoEngine).1 _ newNode _).2 ⟨5, rfl, rfl⟩

/-- C19. Session start, load order and failure: there is a state `base` (the standard library
and the global `fdw`, nothing on the stack) such that `lua_start` with neither script nor
inline text returns `base`; `lua_start` fails exactly when the script file is present and
its load on `base` fails, or the script is absent or loaded and the inline text is present
and fails on the state the script left; when the script file fails the inline text plays no
part (the outcome is that of the call without it); and when start succeeds with an inline
text, the heap it returns is the one the inline text left when run on the heap the script
left. -/
theorem session_start_load_order (lv : ElogLevels) (Lib : LuaLib) (E : LuaEngine) :
    ∃ base : lua_State, base.stack = [] ∧
      lua_start lv Lib E none none = Except.ok base ∧
      (∀ script inject, (∃ e, lua_start lv Lib E script inject = Except.error e) ↔
        ((∃ f, script = some f ∧ (Lib.dofile f base.heap).failed = true) ∨
         (∃ mid t, scriptLoaded Lib base script = some mid ∧ inject = some t ∧
            (Lib.dostring t mid.heap).failed = true))) ∧
      (∀ f inject, (Lib.dofile f base.heap).failed = true →
        lua_start lv Lib E (some f) inject = lua_start lv Lib E (some f) none) ∧
      (∀ script t mid out, scriptLoaded Lib base script = some mid →
        lua_start lv Lib E script (some t) = Except.ok out →
        ∃ results, Lib.dostring t mid.heap = CallOutcome.returned results out.heap) := by
  obtain ⟨base, hs, -, -, heq⟩ := lua_start_setup lv Lib
  refine ⟨base, hs, ?_, ?_, ?_, ?_⟩
  · rw [heq]; rfl
  · intro script inject
    rw [heq]
    cases script with
    | none =>
      cases inject with
      | none => simp [scriptLoaded, bind, Except.bind, pure, Except.pure]
      | some t =>
        cases hd : Lib.dostring t base.heap <;>
          simp [scriptLoaded, bind, Except.bind, pure, Except.pure, luaL_dostring, chunkResult,
            hd, CallOutcome.failed]
    | some f =>
      cases hf : Lib.dofile f base.heap with
      | returned rs h =>
        cases inject with
        | none =>
          simp [scriptLoaded, bind, Except.bind, pure, Except.pure, luaL_dofile, chunkResult,
            hf, CallOutcome.failed]
        | some t =>
          cases hd : Lib.dostring t h <;>
            simp [scriptLoaded, bind, Except.bind, pure, Except.pure, luaL_dofile,
              luaL_dostring, chunkResult, hf, hd, CallOutcome.failed]
      | raised err h =>
        simp [scriptLoaded, bind, Except.bind, pure, Except.pure, luaL_dofile, chunkResult,
          hf, CallOutcome.failed]
      | ereported m =>
        simp [scriptLoaded, bind, Except.bind, pure, Except.pure, luaL_dofile, chunkResult,
          hf, CallOutcome.failed]
  · intro f inject hfail
    rw [heq, heq]
    cases hf : Lib.dofile f base.heap with
    | returned rs h => rw [hf] at hfail; cases hfail
    | raised err h => simp [bind, Except.bind, luaL_dofile, chunkResult, hf]
    | ereported m => simp [bind, Except.bind, luaL_dofile, chunkResult, hf]
  · intro script t mid out hmid hrun
    rw [heq] at hrun
    cases script with
    | none =>
      cases hmid
      cases hd : Lib.dostring t base.heap <;>
        simp [bind, Except.bind, pure, Except.pure, luaL_dostring, chunkResult, hd] at hrun
      subst hrun
      exact ⟨_, rfl⟩
    | some f =>
      cases hf : Lib.dofile f base.heap with
      | returned rs h =>
        simp only [scriptLoaded, hf] at hmid
        cases hmid
        cases hd : Lib.dostring t h <;>
          simp [bind, Except.bind, pure, Except.pure, luaL_dofile, luaL_dostring, chunkResult,
            hf, hd] at hrun
        subst hrun
        exact ⟨_, rfl⟩
      | raised err h => simp [scriptLoaded, hf] at hmid
      | ereported m => simp [scriptLoaded, hf] at hmid

/-- C19 on an example: a script file that cannot be opened makes start fail, with or without
an inline text, and with the same outcome. -/
theorem session_start_load_order_witness :
    (∃ e, lua_start pgLevels demoLib demoEngine (some "missing.lua") (some "x = 1") =
      Except.error e) ∧
    lua_start pgLevels demoLib demoEngine (some "missing.lua") (some "x = 1") =
      lua_start pgLevels demoLib demoEngine (some "missing.lua") none := by
  obtain ⟨base, -, -, hiff, hskip, -⟩ := session_start_load_order pgLevels demoLib demoEngine
  exact ⟨(hiff _ _).2 (Or.inl ⟨_, rfl, rfl⟩), hskip _ _ rfl⟩

/-- C20. Option validation: `lua_fdw_validator` succeeds exactly when every option of the list
has the name script or inject and the catalog is that of foreign tables (so always on the
empty list); otherwise it reports, for the first option of the list that is not valid, the
error ERRCODE_FDW_INVALID_OPTION_NAME with the message `invalid option "name"` and the hint
"Valid options in this context are: script, inject" for the catalog of foreign tables and
"There are no valid options in this context." for any other catalog. -/
theorem option_validation (ForeignTableRelationId : Oid) (options : List DefElem) (catalog : Oid) :
    (lua_fdw_validator ForeignTableRelationId options catalog = Except.ok () ↔
      ∀ d ∈ options, (d.defname = "script" ∨ d.defname = "inject") ∧
        catalog = ForeignTableRelationId) ∧
    (∀ e, lua_fdw_validator ForeignTableRelationId options catalog = Except.error e →
      ∃ pre d post, options = pre ++ d :: post ∧
        (∀ x ∈ pre, (x.defname = "script" ∨ x.defname = "inject") ∧
          catalog = ForeignTableRelationId) ∧
        ¬ ((d.defname = "script" ∨ d.defname = "inject") ∧ catalog = ForeignTableRelationId) ∧
        e.sqlerrcode = SqlErrorCode.ERRCODE_FDW_INVALID_OPTION_NAME ∧
        e.message = "invalid option " ++ dquote ++ d.defname ++ dquote ∧
        e.hint = if catalog = ForeignTableRelationId then
            "Valid options in this context are: script, inject"
          else "There are no valid options in this context.") ∧
    lua_fdw_validator ForeignTableRelationId [] catalog = Except.ok () := by
  refine ⟨validator_ok_iff _ _ _, ?_, rfl⟩
  intro e he
  obtain ⟨pre, d, post, hsplit, hpre, hd, rfl⟩ := validator_error _ _ _ e he
  exact ⟨pre, d, post, hsplit, hpre, hd, rfl, rfl, invalidOption_hint _ _ _⟩

/-- C20 on examples, with 2 for the catalog of foreign tables: the options script and inject
are accepted, and the options script and colour are refused for colour, with the list of
valid options as the hint. -/
theorem option_validation_witness :
    lua_fdw_validator 2 [{ defname := "script", arg := "a.lua" }, { defname := "inject", arg := "x = 1" }] 2 =
      Except.ok () ∧
    lua_fdw_validator 2 [{ defname := "script", arg := "a.lua" }, { defname := "colour", arg := "red" }] 2 =
      Except.error { sqlerrcode := SqlErrorCode.ERRCODE_FDW_INVALID_OPTION_NAME,
                     message := "invalid option " ++ dquote ++ "colour" ++ dquote,
                     hint := "Valid options in this context are: script, inject" } := by
  refine ⟨(option_validation 2 _ 2).1.2 ?_, rfl⟩
  intro d hd
  simp only [List.mem_cons, List.mem_singleton, List.not_mem_nil, or_false] at hd
  rcases hd with rfl | rfl <;> simp

/-- C21. Modify operations return the input row: with a modify state set up, insert, update
and delete each return exactly the slot they were given when their callback is absent, is
not a function, or returns without raising; and whenever one of them returns, what it hands
back is the slot it was given. -/
theorem modify_returns_input_slot (E : LuaEngine) (rinfo : ResultRelInfo)
    (ms : LuaFdwModifyState) (slot : TupleTableSlot) (hstate : rinfo.ri_FdwState = some ms) :
    (callbackReturns E ms.lua "ExecForeignInsert" →
      ∃ r, luaExecForeignInsert E rinfo slot = Except.ok (r, slot)) ∧
    (callbackReturns E ms.lua "ExecForeignUpdate" →
      ∃ r, luaExecForeignUpdate E rinfo slot = Except.ok (r, slot)) ∧
    (callbackReturns E ms.lua "ExecForeignDelete" →
      ∃ r, luaExecForeignDelete E rinfo slot = Except.ok (r, slot)) ∧
    (∀ r out, luaExecForeignInsert E rinfo slot = Except.ok (r, out) → out = slot) ∧
    (∀ r out, luaExecForeignUpdate E rinfo slot = Except.ok (r, out) → out = slot) ∧
    (∀ r out, luaExecForeignDelete E rinfo slot = Except.ok (r, out) → out = slot) := by
  refine ⟨?_, ?_, ?_, ?_, ?_, ?_⟩
  · intro h
    obtain ⟨L1, h1, -⟩ := modifyCallback_returns E ms.lua _ h
    exact ⟨_, by simp only [luaExecForeignInsert, hstate, h1, bind, Except.bind]; rfl⟩
  · intro h
    obtain ⟨L1, h1, -⟩ := modifyCallback_returns E ms.lua _ h
    exact ⟨_, by simp only [luaExecForeignUpdate, hstate, h1, bind, Except.bind]; rfl⟩
  · intro h
    obtain ⟨L1, h1, -⟩ := modifyCallback_returns E ms.lua _ h
    exact ⟨_, by simp only [luaExecForeignDelete, hstate, h1, bind, Except.bind]; rfl⟩
  · intro r out h
    simp only [luaExecForeignInsert, hstate, bind, Except.bind] at h
    revert h
    cases modifyCallback E ms.lua "ExecForeignInsert" with
    | error e => intro h; cases h
    | ok L1 => intro h; cases h; rfl
  · intro r out h
    simp only [luaExecForeignUpdate, hstate, bind, Except.bind] at h
    revert h
    cases modifyCallback E ms.lua "ExecForeignUpdate" with
    | error e => intro h; cases h
    | ok L1 => intro h; cases h; rfl
  · intro r out h
    simp only [luaExecForeignDelete, hstate, bind, Except.bind] at h
    revert h
    cases modifyCallback E ms.lua "ExecForeignDelete" with
    | error e => intro h; cases h
    | ok L1 => intro h; cases h; rfl

/-- C21 on an example: an insert in a Session without callbacks hands back the slot it was
given. -/
theorem modify_returns_input_slot_witness :
    ∃ r, luaExecForeignInsert demoEngine { ri_FdwState := some { lua := freshState } }
      newNode.ss_ScanTupleSlot = Except.ok (r, newNode.ss_ScanTupleSlot) :=
  (modify_returns_input_slot demoEngine { ri_FdwState := some { lua := freshState } }
    { lua := freshState } newNode.ss_ScanTupleSlot rfl).1
    (by intro f hf; simp [freshState] at hf)

/-- C22. Session ownership transfer: `luaGetForeignPlan` clears the planner's private field
and hands the plan node the state of the planning Session (the same stack and globals,
with `fdw.clauses` published in it); the scan state after `luaBeginForeignScan` holds the
state of the plan node, changed only by the callback `ScanStart` if there is one; and next
and rescan keep the scan state on that Session, whose heap changes only by what their
callback does.  None of these functions starts a Session. -/
theorem session_ownership_transfer (k : PgConsts) (B : Backend) (E : LuaEngine) :
    (∀ baserel desc rs ps rf out, baserel.fdw_private = some ps →
      ps.lua.heap.globals "fdw" = LuaValue.table rf → rf < ps.lua.heap.ntables →
      luaGetForeignPlan k B baserel desc rs = Except.ok out →
      out.1.fdw_private = none ∧ out.2.fdw_private.stack = ps.lua.stack ∧
        out.2.fdw_private.heap.globals = ps.lua.heap.globals ∧
        ∃ cs, out.2.fdw_private = published ps.lua rf cs) ∧
    (∀ plan node out, luaBeginForeignScan E plan node = Except.ok out →
      ∃ ss, out.fdw_state = some ss ∧ ss.lua.stack = plan.fdw_private.stack ∧
        ss.lua.heap = heapAfter E plan.fdw_private "ScanStart") ∧
    (∀ node ss out, node.fdw_state = some ss →
      luaIterateForeignScan k B E node = Except.ok out →
      ∃ ss1, out.1.fdw_state = some ss1 ∧ ss1.lua.stack = ss.lua.stack ∧
        ss1.lua.heap = heapAfter E ss.lua "ScanIterate") ∧
    (∀ node ss out, node.fdw_state = some ss → luaReScanForeignScan E node = Except.ok out →
      ∃ ss1, out.fdw_state = some ss1 ∧ ss1.lua.heap = heapAfter E ss.lua "ScanRestart") := by
  refine ⟨?_, begin_session E, ?_, ?_⟩
  · intro baserel desc rs ps rf out hp hfdw hrf hrun
    obtain ⟨cs, -, hout, hrel⟩ := luaGetForeignPlan_inv k B baserel desc rs ps rf out hp hfdw hrun
    have P := published_post ps.lua rf cs hrf
    rw [hout, hrel]
    exact ⟨rfl, P.stack_eq, P.globals_eq, cs, rfl⟩
  · intro node ss out hs h
    exact next_session k B E node ss out hs h
  · intro node ss out hs h
    obtain ⟨ss1, h1, h2, -⟩ := rescan_session E node out ss hs h
    exact ⟨ss1, h1, h2⟩

/-- C22 on an example: planning state, plan node and scan state of a Session without
callbacks: the scan state after begin is the state the plan node carries. -/
theorem session_ownership_transfer_witness :
    ∃ out node, luaGetForeignPlan pg noBackend (planning freshState) ageName [ageEq30] =
        Except.ok out ∧ out.1.fdw_private = none ∧
      luaBeginForeignScan demoEngine out.2 newNode = Except.ok node ∧
      node.fdw_state = some { lua := out.2.fdw_private } := by
  obtain ⟨h1, -, -, -⟩ := (session_ownership_transfer pg noBackend demoEngine).1
    (planning freshState) ageName [ageEq30] { lua := freshState } 0 _ rfl rfl (by decide) rfl
  exact ⟨_, _, rfl, h1, rfl, rfl⟩

/-- C23. Only "eq" and "like" are emitted: when no operator of the equality set of `is_eq` is
in the less-than set of `is_lt`, every condition `luaGetForeignPlan` publishes has the
operator "eq" or "like", never "lt" or "gt". -/
theorem only_eq_and_like_are_emitted (k : PgConsts) (B : Backend) (baserel : RelOptInfo)
    (desc : TupleDesc) (rs : List RestrictInfo) (ps : LuaFdwPlanState) (rf : Nat)
    (out : RelOptInfo × ForeignScan) (i : Int) (c : Condition)
    (hp : baserel.fdw_private = some ps)
    (hfdw : ps.lua.heap.globals "fdw" = LuaValue.table rf) (hrf : rf < ps.lua.heap.ntables)
    (hdisj : ∀ opno, is_eq k opno = true → is_lt k opno = false)
    (hrun : luaGetForeignPlan k B baserel desc rs = Except.ok out)
    (hc : publishedCondition out.2.fdw_private i = some c) :
    (c.operator = "eq" ∨ c.operator = "like") ∧ c.operator ≠ "lt" ∧ c.operator ≠ "gt" := by
  obtain ⟨r, -, -, hcr⟩ := published_origin k B baserel desc rs ps rf hp hfdw hrf out hrun i c hc
  unfold conditionOf at hcr
  cases ha : clauseArgs k r with
  | none => rw [ha] at hcr; cases hcr
  | some a =>
    rw [ha] at hcr
    simp only [Option.map_some', Option.some.injEq] at hcr
    have hop : c.operator = operatorString k a.1 := by
      unfold entryOf at hcr
      cases h1 : desc.attr a.2.1 with
      | error e => simp [h1, bind, Except.bind] at hcr
      | ok att =>
        cases h2 : constantString k B a.2.2.1 a.2.2.2 with
        | error e => simp [h1, h2, bind, Except.bind] at hcr
        | ok s =>
          simp only [h1, h2, bind, Except.bind, pure, Except.pure, Except.ok.injEq] at hcr
          rw [← hcr]
    have h := operatorString_eq_or_like k a.1 (hdisj a.1) (clauseArgs_guard k r a ha)
    rw [← hop] at h
    refine ⟨h, ?_, ?_⟩ <;>
    · intro hne
      rcases h with h | h <;> rw [h] at hne <;> revert hne <;> decide

/-- C23 with PostgreSQL's operator ids: the equality set, the LIKE operator and the less-than
set are pairwise disjoint, and the condition published for `age = 30` has the operator
"eq". -/
theorem only_eq_and_like_are_emitted_witness :
    (∀ opno, is_eq pg opno = true → is_lt pg opno = false) ∧
    (∀ opno, is_eq pg opno = true → is_like pg opno = false) ∧
    (∀ opno, is_like pg opno = true → is_lt pg opno = false) ∧
    ∀ c, (planLua (luaGetForeignPlan pg noBackend (planning freshState) ageName [ageEq30])).bind
        (fun L => publishedCondition L 1) = some c →
      (c.operator = "eq" ∨ c.operator = "like") ∧ c.operator ≠ "lt" ∧ c.operator ≠ "gt" := by
  have hdisj : ∀ opno, is_eq pg opno = true → is_lt pg opno = false := by
    intro opno h
    simp only [is_eq, Bool.or_eq_true, beq_iff_eq] at h
    rcases h with ((h | h) | h) | h <;> subst h <;> rfl
  refine ⟨hdisj, ?_, ?_, ?_⟩
  · intro opno h
    simp only [is_eq, Bool.or_eq_true, beq_iff_eq] at h
    rcases h with ((h | h) | h) | h <;> subst h <;> rfl
  · intro opno h
    simp only [is_like, beq_iff_eq] at h
    subst h
    rfl
  · intro c hc
    exact only_eq_and_like_are_emitted pg noBackend (planning freshState) ageName [ageEq30]
      { lua := freshState } 0 _ 1 c rfl rfl (by decide) hdisj rfl hc

/-- C24. Column lookup is in bounds: for an attribute number a with 1 <= a <= natts the read
`desc->attrs[a - 1]` gives the a-th declared column; the read is outside the array exactly
when a <= 0 or a > natts; and for a restriction that passes the tests with such an a, the
entry is built from that column's name, failing only where the text of the literal
fails. -/
theorem column_lookup_in_bounds (k : PgConsts) (B : Backend) (desc : TupleDesc) (a : Int) :
    (1 ≤ a → a ≤ desc.natts →
      ∃ att, desc.attrs[(a - 1).toNat]? = some att ∧ desc.attr (a - 1) = Except.ok att) ∧
    ((∃ e, desc.attr (a - 1) = Except.error e) ↔ a ≤ 0 ∨ (desc.natts : Int) < a) ∧
    (∀ r opno id cv, 1 ≤ a → a ≤ desc.natts →
      clauseArgs k r = some (opno, a - 1, id, cv) →
      ∃ att, desc.attrs[(a - 1).toNat]? = some att ∧
        conditionOf k B desc r = some ((constantString k B id cv).map (fun constant =>
          { column := att.attname, operator := operatorString k opno, type := typeString k id,
            constant := constant }))) := by
  refine ⟨attr_in_bounds desc a, attr_out_of_bounds desc a, ?_⟩
  intro r opno id cv h1 h2 hr
  obtain ⟨att, hget, hatt⟩ := attr_in_bounds desc a h1 h2
  refine ⟨att, hget, ?_⟩
  simp only [conditionOf, hr, Option.map_some', entryOf, hatt, bind, Except.bind]
  cases constantString k B id cv <;> rfl

/-- C24 on the example: in `age = 30` the column reference has attribute number 1 of 2, and
the entry names the first column, age. -/
theorem column_lookup_in_bounds_witness :
    ∃ att, ageName.attrs[0]? = some att ∧ att.attname = "age" ∧
      (conditionOf pg noBackend ageName ageEq30).map (fun c => c.map (fun x => x.column)) =
        some (Except.ok att.attname) := by
  obtain ⟨att, hget, hc⟩ := (column_lookup_in_bounds pg noBackend ageName 1).2.2 ageEq30 96 23
    (Int32GetDatum 30) (by decide) (by decide) rfl
  refine ⟨att, hget, ?_, ?_⟩
  · cases hget
    rfl
  · rw [hc]
    cases hget
    rfl

/-- C25. The stack of the Session is not balanced: `luaReScanForeignScan` without a function
`ScanRestart` leaves the global it looked up on the stack, so n calls of rescan leave the
stack n values deeper; `luaGetForeignRelSize` leaves one value for each of `EstimateRowCount`
and `EstimateRowWidth` that is not a function; and `luaGetForeignPaths` leaves one value for a
cost callback that returns, having asked for two results and popped one. -/
theorem stack_grows_across_calls (k : PgConsts) (B : Backend) (Lib : LuaLib) (E : LuaEngine) :
    (∀ n node ss, node.fdw_state = some ss → notFunction ss.lua "ScanRestart" →
      ∃ out ss1, scanCalls k B E (List.replicate n ScanCall.rescan) node = Except.ok out ∧
        out.fdw_state = some ss1 ∧ ss1.lua.stack.length = ss.lua.stack.length + n) ∧
    (∀ lv baserel relname desc table L rf,
      lua_start lv Lib E (tableScripts table).1 (tableScripts table).2 = Except.ok L →
      L.heap.globals "fdw" = LuaValue.table rf →
      notFunction L "EstimateRowCount" → notFunction L "EstimateRowWidth" →
      ∃ rel ps, luaGetForeignRelSize k lv Lib E baserel relname desc table =
          Except.ok (rel, [SessionEvent.started L]) ∧
        rel.fdw_private = some ps ∧ ps.lua.stack.length = L.stack.length + 2) ∧
    (∀ baserel ps f results heap, baserel.fdw_private = some ps →
      ps.lua.heap.globals "EstimateStartupCost" = LuaValue.function f →
      E.call f [] ps.lua.heap = CallOutcome.returned results heap →
      notFunction { heap := heap, stack := ps.lua.stack } "EstimateTotalCost" →
      ∃ out ps1, luaGetForeignPaths Lib E baserel = Except.ok out ∧
        out.1.fdw_private = some ps1 ∧ ps1.lua.stack.length = ps.lua.stack.length + 1) := by
  refine ⟨?_, ?_, ?_⟩
  · intro n node ss hs hnf
    obtain ⟨out, ss1, h1, h2, -, h3⟩ := rescans_grow_stack k B E n node ss hs hnf
    exact ⟨out, ss1, h1, h2, h3⟩
  · intro lv baserel relname desc table L rf hstart hfdw h1 h2
    exact ⟨_, _, relSize_no_function k lv Lib E baserel relname desc table L rf hstart hfdw h1 h2,
      rfl, rfl⟩
  · intro baserel ps f results heap hp hf hc hnf
    rw [luaGetForeignPaths_eq Lib E baserel ps hp, costCallback_called Lib E _ _ f hf, hc]
    simp only [bind, Except.bind]
    rw [costCallback_no_function Lib E (lua_State.mk heap (firstResult results :: ps.lua.stack))
      _ hnf]
    exact ⟨_, _, rfl, rfl, rfl⟩

/-- C25 on the failing input: three calls of rescan in a Session without `ScanRestart` leave
three values on a stack that was empty. -/
theorem stack_grows_across_calls_witness :
    ∃ out ss1, scanCalls pg pgBackend demoEngine
        [ScanCall.rescan, ScanCall.rescan, ScanCall.rescan] (demoNode freshState.heap) =
        Except.ok out ∧
      out.fdw_state = some ss1 ∧ ss1.lua.stack.length = 3 := by
  obtain ⟨out, ss1, h1, h2, h3⟩ := (stack_grows_across_calls pg pgBackend demoLib demoEngine).1 3
    (demoNode freshState.heap) { lua := { heap := freshState.heap, stack := [] } } rfl
    (by intro f hf; cases hf)
  exact ⟨out, ss1, h1, h2, h3⟩

/-- C26. The modify lifecycle runs no script code: `luaBeginForeignModify` starts its
Session with neither script file nor inline text, so when the standard library defines none
of the five callbacks of the modify functions as a function, every modification (begin, any
calls, end) returns, with the Session `lua_start` made for no script and no inline text and
the heap of that Session unchanged, and its outcome is the same for every script engine: no
callback is called and no call can fail.  The table options are not read on this path. -/
theorem modify_runs_no_script (lv : ElogLevels) (Lib : LuaLib) (rinfo : ResultRelInfo)
    (slot : TupleTableSlot) (calls : List ModifyCall)
    (hlib : ∀ name ∈ modifyHooks, ∀ f, Lib.openlibs.globals name ≠ LuaValue.function f) :
    ∃ base L : lua_State, L.heap = base.heap ∧
      (∀ name ∈ modifyHooks, ∀ f, base.heap.globals name ≠ LuaValue.function f) ∧
      ∀ E : LuaEngine,
        lua_start lv Lib E none none = Except.ok base ∧
        modifyLifecycle lv Lib E rinfo slot calls =
          Except.ok ({ ri_FdwState := some { lua := L } }, [SessionEvent.started base]) := by
  obtain ⟨base, L, hheap, hall⟩ := modifyLifecycle_no_function lv Lib slot calls rinfo hlib
  refine ⟨base, L, hheap, ?_, hall⟩
  obtain ⟨base1, -, hglob, -, heq⟩ := lua_start_setup lv Lib
  have hb : base = base1 := by
    have h1 := (hall demoEngine).1
    rw [heq] at h1
    cases h1
    rfl
  subst hb
  intro name hn f
  rw [hglob name]
  have hne : name ≠ "fdw" := by
    intro he
    subst he
    revert hn
    decide
  rw [if_neg hne]
  exact hlib name hn f

/-- C26 on an example: with the empty standard library, begin, insert, delete, end return
for the engine whose functions raise. -/
theorem modify_runs_no_script_witness :
    ∃ base L : lua_State, L.heap = base.heap ∧
      modifyLifecycle pgLevels demoLib demoEngine newResultRel newNode.ss_ScanTupleSlot
        [ModifyCall.insert, ModifyCall.delete] =
        Except.ok ({ ri_FdwState := some { lua := L } }, [SessionEvent.started base]) := by
  obtain ⟨base, L, hheap, -, hall⟩ :=
    modify_runs_no_script pgLevels demoLib newResultRel newNode.ss_ScanTupleSlot
      [ModifyCall.insert, ModifyCall.delete] (by intro name _ f hf; cases hf)
  exact ⟨base, L, hheap, (hall demoEngine).2⟩

/-- C27. Published schema type names: with the global `fdw` a table and the declared columns
named apart, `luaGetForeignRelSize` calls its first callback in a state in which
`fdw.table` is the name of the relation and `fdw.columns` is a table with one entry per
declared column, keyed by the column's name, whose value is "integer" exactly for the types
`INT4OID` and `INT8OID` and "text" for every other type, and with no other entry.  With
the type identifiers distinct, this name agrees with the one the translator gives a literal
for the two integer types and for text, and not for timestamp: "text" for the column,
"timestamp" for the literal. -/
theorem published_schema_type_names (k : PgConsts) (L : lua_State) (rf : Nat) (relname : String)
    (desc : TupleDesc) (hfdw : L.heap.globals "fdw" = LuaValue.table rf)
    (hrf : rf < L.heap.ntables) (hnames : (desc.attrs.map (fun a => a.attname)).Nodup) :
    ∃ (P : lua_State) (c : Nat), publishSchema k L relname desc = Except.ok P ∧
      (∀ lv Lib E baserel table,
        lua_start lv Lib E (tableScripts table).1 (tableScripts table).2 = Except.ok L →
        luaGetForeignRelSize k lv Lib E baserel relname desc table =
          estimateCallback Lib E P "EstimateRowCount" >>= fun r1 =>
          estimateCallback Lib E r1.1 "EstimateRowWidth" >>= fun r2 =>
          pure (RelOptInfo.mk (r1.2.getD 0) (r2.2.getD baserel.width) (some { lua := r2.1 }),
            [SessionEvent.started L])) ∧
      P.heap.tables rf (LuaValue.string "table") = LuaValue.string relname ∧
      P.heap.tables rf (LuaValue.string "columns") = LuaValue.table c ∧
      (∀ att ∈ desc.attrs, P.heap.tables c (LuaValue.string att.attname) =
        LuaValue.string (columnTypeName k att.atttypid)) ∧
      (∀ key, (∀ att ∈ desc.attrs, key ≠ LuaValue.string att.attname) →
        P.heap.tables c key = LuaValue.nil) ∧
      (∀ id, columnTypeName k id = "integer" ↔ id = k.INT4OID ∨ id = k.INT8OID) ∧
      (∀ id, ¬ (id = k.INT4OID ∨ id = k.INT8OID) → columnTypeName k id = "text") ∧
      (k.typesDistinct →
        columnTypeName k k.INT4OID = typeString k k.INT4OID ∧
        columnTypeName k k.INT8OID = typeString k k.INT8OID ∧
        columnTypeName k k.TEXTOID = typeString k k.TEXTOID ∧
        columnTypeName k k.TIMESTAMPOID = "text" ∧ typeString k k.TIMESTAMPOID = "timestamp") := by
  obtain ⟨h1, h2, h3⟩ := schemaPublished_tables k L rf relname desc hrf
  refine ⟨schemaPublished k L rf relname desc, L.heap.ntables,
    publishSchema_eq k L rf relname desc hfdw, ?_, h2, h1, ?_, ?_, ?_, ?_, ?_⟩
  · intro lv Lib E baserel table hstart
    exact luaGetForeignRelSize_eq k lv Lib E baserel relname desc table L rf hstart hfdw
  · intro att hatt
    rw [h3]
    exact columnsTable_mem k desc.attrs _ hnames att hatt
  · intro key hkey
    rw [h3, columnsTable_other k desc.attrs _ key hkey]
    rfl
  · intro id
    unfold columnTypeName
    by_cases h : id = k.INT4OID ∨ id = k.INT8OID
    · simp [h]
    · simp only [if_neg h, h, iff_false]
      decide
  · intro id h
    unfold columnTypeName
    rw [if_neg h]
  · intro hk
    obtain ⟨h48, ht4, ht8, hx4, hx8, hxt⟩ := hk
    refine ⟨?_, ?_, ?_, ?_, ?_⟩
    · simp [columnTypeName, typeString]
    · simp [columnTypeName, typeString]
    · simp [columnTypeName, typeString, hx4, hx8, hxt]
    · simp [columnTypeName, ht4, ht8]
    · simp [typeString, ht4, ht8]

/-- C27 on an example: for the columns id (integer) and name (text) of the relation people,
`fdw.columns` holds "integer" for id and "text" for name. -/
theorem published_schema_type_names_witness :
    ∃ (P : lua_State) (c : Nat), publishSchema pg freshState "people" idName = Except.ok P ∧
      P.heap.tables 0 (LuaValue.string "columns") = LuaValue.table c ∧
      P.heap.tables c (LuaValue.string "id") = LuaValue.string "integer" ∧
      P.heap.tables c (LuaValue.string "name") = LuaValue.string "text" := by
  obtain ⟨P, c, h1, -, -, h2, h3, -⟩ :=
    published_schema_type_names pg freshState 0 "people" idName rfl (by decide) (by decide)
  exact ⟨P, c, h1, h2, h3 { attname := "id", atttypid := 23 } (by decide),
    h3 { attname := "name", atttypid := 25 } (by decide)⟩

end LuaFdw
